import Mathlib

/-! LeCroy VXI-11 driver: channel semantics and data transfer

A shallow embedding of `src/library/lecroy_vxi11.c`.

* C `char` channel tokens are Lean `Char`s; instrument source strings and
  commands are `String`s.
* Bytes of receive buffers are natural numbers (`35` is `#`, `48` is `0`).
* `printf` output is returned as the list of printed lines.
-/

namespace Lecroy

/-! ## Channel Name Resolver -/

/-- The line printed by the `default:` branches of the two channel switches. -/
def unknown_channel_msg (chan : Char) : String :=
  "error: unknown channel '" ++ chan.toString ++ "', using channel 1\n"

/-- Embedding of `lecroy_scope_channel_str`: the string copied into `source`
and the lines printed. -/
def lecroy_scope_channel_str (chan : Char) : String × List String :=
  match chan with
  | 'A' | 'a' => ("F1", [])
  | 'B' | 'b' => ("F2", [])
  | 'C' | 'c' => ("F3", [])
  | 'D' | 'd' => ("F4", [])
  | 'E' | 'e' => ("F5", [])
  | 'F' | 'f' => ("F6", [])
  | 'G' | 'g' => ("F7", [])
  | 'H' | 'h' => ("F8", [])
  | 'S' | 's' => ("M1", [])
  | 'T' | 't' => ("M2", [])
  | 'U' | 'u' => ("M3", [])
  | 'V' | 'v' => ("M4", [])
  | 'W' | 'w' => ("M5", [])
  | 'X' | 'x' => ("M6", [])
  | 'Y' | 'y' => ("M7", [])
  | 'Z' | 'z' => ("M8", [])
  | '1' => ("C1", [])
  | '2' => ("C2", [])
  | '3' => ("C3", [])
  | '4' => ("C4", [])
  | _ => ("C1", [unknown_channel_msg chan])

/-- The line printed for the math slots F5..F8. -/
def no_associated_channel_msg : String :=
  "error: Functions F5-F8 (E-H) don't have an associated channel, using channel 1\n"

/-- Embedding of `lecroy_relate_function_to_source`: the returned token and the
lines printed. -/
def lecroy_relate_function_to_source (chan : Char) : Char × List String :=
  match chan with
  | 'A' | 'a' => ('1', [])
  | 'B' | 'b' => ('2', [])
  | 'C' | 'c' => ('3', [])
  | 'D' | 'd' => ('4', [])
  | 'E' | 'e' | 'F' | 'f' | 'G' | 'g' | 'H' | 'h' => ('1', [no_associated_channel_msg])
  | '1' => ('A', [])
  | '2' => ('B', [])
  | '3' => ('C', [])
  | '4' => ('D', [])
  | _ => ('1', [unknown_channel_msg chan])

/-- Embedding of `lecroy_is_maths_chan`. -/
def lecroy_is_maths_chan (chan : Char) : Int :=
  if chan = '1' ∨ chan = '2' ∨ chan = '3' ∨ chan = '4' then 0 else 1

/-- The tokens `lecroy_scope_channel_str` has a `case` for. -/
def recognised_tokens : List Char :=
  "1234ABCDEFGHabcdefghSTUVWXYZstuvwxyz".toList

/-- The eight tokens of the first four acquisition/math pairs. -/
def paired_tokens : List Char := ['1', '2', '3', '4', 'A', 'B', 'C', 'D']

/-! ## Block Decoder

`lecroy_receive_data_block` allocates `in_buffer = new char[len + 25]`, lets the
transport fill it, looks for `#`, reads the digit count and the length with
`sscanf`, and copies the payload with `memcpy`.  Memory is modelled explicitly:
an access outside an allocated object ends the run in `Outcome.fault`, and the
values of uninitialised objects are parameters (`Uninit`). -/

/-- What `vxi11_receive_timeout` hands back: its return value and the bytes it
wrote to the start of the buffer it was given (bytes that would not fit the
buffer are never written). -/
structure Received where
  ret : Int
  data : List Nat

/-- Values that the objects `lecroy_receive_data_block` never initialises hold
when they are first read: the fresh `in_buffer` (by index) and the locals
`ndigits` and `returned_bytes`. -/
structure Uninit where
  in_buffer : Nat → Nat
  ndigits : Int
  returned_bytes : Nat

/-- Ways a run leaves the allocated objects. -/
inductive Fault where
  /-- A read at or beyond `in_buffer + len + 25`. -/
  | read_past_in_buffer
  /-- The `memcpy` was asked for `requested` bytes into a destination of
  `capacity` bytes. -/
  | write_past_destination (requested capacity : Nat)
  deriving DecidableEq, Repr

/-- Result of one run of the decoder: the returned `long` with the contents of
the caller's destination buffer, or a fault. -/
inductive Outcome where
  | returned (value : Int) (buffer : List Nat)
  | fault (why : Fault)
  deriving DecidableEq, Repr

/-- Contents of `in_buffer` (all `size` bytes of it) after the transport wrote
`data` over the uninitialised allocation. -/
def in_buffer_contents (size : Nat) (data : List Nat) (u : Uninit) : List Nat :=
  data.take size ++ (List.range (size - data.length)).map (fun i => u.in_buffer (data.length + i))

/-- The loop `while ((in_buffer[l] != '#') && (l < 25)) l++;`.  The first
argument is `25 - l`, the second the bytes from `in_buffer + l` on; the result
is the final `l`, or `none` when `in_buffer[l]` lies outside the allocation. -/
def scan_marker : Nat → List Nat → Nat → Option Nat
  | _, [], _ => none
  | 0, _ :: _, l => some l
  | r + 1, c :: rest, l => if c ≠ 35 then scan_marker r rest (l + 1) else some l

/-- C `isspace` in the "C" locale. -/
def isspace (c : Nat) : Bool := c = 32 || (9 ≤ c && c ≤ 13)

/-- C `isdigit`. -/
def isdigit (c : Nat) : Bool := 48 ≤ c && c ≤ 57

/-- Result of one `sscanf` conversion. -/
inductive Conv (α : Type) where
  /-- The conversion read beyond the allocation. -/
  | fault
  /-- Input or matching failure: nothing is assigned and `sscanf` stops. -/
  | fail
  /-- The converted value and the unread input. -/
  | ok (value : α) (rest : List Nat)

/-- White space skipped before a numeric conversion; `none` when the skipping
runs off the allocation. -/
def skip_space : List Nat → Option (List Nat)
  | [] => none
  | c :: rest => if isspace c then skip_space rest else some (c :: rest)

/-- Digits of a numeric field: at most `width` of them are read, accumulating
the decimal value and counting them.  `none` when a byte beyond the allocation
would have to be examined. -/
def scan_digits : Nat → Nat → Nat → List Nat → Option (Nat × Nat × List Nat)
  | 0, acc, count, input => some (acc, count, input)
  | _ + 1, _, _, [] => none
  | w + 1, acc, count, c :: rest =>
    if isdigit c then scan_digits w (acc * 10 + (c - 48)) (count + 1) rest
    else some (acc, count, c :: rest)

/-- The conversion `%1d`: skip white space, then a field of one character,
which converts only if it is a digit (a lone sign is a matching failure, the
terminating NUL an input failure). -/
def conv_d1 (input : List Nat) : Conv Int :=
  match skip_space input with
  | none => .fault
  | some [] => .fault
  | some (c :: rest) => if isdigit c then .ok ((c : Int) - 48) rest else .fail

/-- The conversion `%<width>lu`: skip white space, an optional sign that counts
towards the width, then decimal digits; the value is that of `strtoul`
(saturating at `ULONG_MAX`, negated modulo 2^64 after a minus sign). -/
def conv_lu (width : Nat) (input : List Nat) : Conv Nat :=
  match skip_space input with
  | none => .fault
  | some [] => .fault
  | some (c :: rest) =>
    if c = 43 ∨ c = 45 then
      match scan_digits (width - 1) 0 0 rest with
      | none => .fault
      | some (v, count, rest') =>
        if count = 0 then .fail
        else if c = 45 then .ok ((2 ^ 64 - min v (2 ^ 64 - 1)) % 2 ^ 64) rest'
        else .ok (min v (2 ^ 64 - 1)) rest'
    else
      match scan_digits width 0 0 (c :: rest) with
      | none => .fault
      | some (v, count, rest') => if count = 0 then .fail else .ok (min v (2 ^ 64 - 1)) rest'

/-- The call `sscanf(in_buffer + l, "#%1d", &ndigits)` on the bytes from
`in_buffer + l` on: the new value of `ndigits`, or `none` for a fault. -/
def sscanf_ndigits (ndigits : Int) : List Nat → Option Int
  | [] => none
  | c :: rest =>
    if c ≠ 35 then some ndigits
    else match conv_d1 rest with
      | .fault => none
      | .fail => some ndigits
      | .ok d _ => some d

/-- The call `sscanf(in_buffer + l, "#%1d%<width>lu", &ndigits, &returned_bytes)`:
the new values of both variables, or `none` for a fault. -/
def sscanf_length (width : Nat) (ndigits : Int) (returned_bytes : Nat) :
    List Nat → Option (Int × Nat)
  | [] => none
  | c :: rest =>
    if c ≠ 35 then some (ndigits, returned_bytes)
    else match conv_d1 rest with
      | .fault => none
      | .fail => some (ndigits, returned_bytes)
      | .ok d rest' =>
        match conv_lu width rest' with
        | .fault => none
        | .fail => some (d, returned_bytes)
        | .ok n _ => some (d, n)

/-- Conversion `(long) returned_bytes` of an `unsigned long`. -/
def to_long (v : Nat) : Int :=
  if v % 2 ^ 64 < 2 ^ 63 then (v % 2 ^ 64 : Nat) else ((v % 2 ^ 64 : Nat) : Int) - 2 ^ 64

/-- The call `memcpy(buffer, in_buffer + offset, n)` followed by
`return (long) n`. -/
def memcpy_and_return (buffer in_buffer : List Nat) (offset n : Nat) : Outcome :=
  if in_buffer.length < offset + n then .fault .read_past_in_buffer
  else if buffer.length < n then .fault (.write_past_destination n buffer.length)
  else .returned (to_long n) ((in_buffer.drop offset).take n ++ buffer.drop n)

/-- The two lines printed when no `#` is found: the message and the first 25
bytes of `in_buffer` between quotes. -/
def no_marker_msg (in_buffer : List Nat) : List String :=
  ["lecroy_user: data block error: data block does not begin with '#'\n",
   "First 25 characters received were: '"
     ++ String.mk ((in_buffer.take 25).map Char.ofNat) ++ "'\n"]

/-- The body of `lecroy_receive_data_block` after the call of
`vxi11_receive_timeout` returned `rx`: the outcome and the lines printed.
`buffer` is the caller's destination (its length is its allocated size) and
`len` the capacity the caller passed. -/
def decode_data_block (rx : Received) (u : Uninit) (buffer : List Nat) (len : Nat) :
    Outcome × List String :=
  if rx.ret < 0 then (.returned rx.ret buffer, [])
  else
    let in_buffer := in_buffer_contents (len + 25) rx.data u
    match scan_marker 25 in_buffer 0 with
    | none => (.fault .read_past_in_buffer, [])
    | some l =>
      if (in_buffer.drop l).head? ≠ some 35 then (.returned (-3) buffer, no_marker_msg in_buffer)
      else
        match sscanf_ndigits u.ndigits (in_buffer.drop l) with
        | none => (.fault .read_past_in_buffer, [])
        | some ndigits =>
          if ndigits > 0 then
            match sscanf_length ndigits.toNat ndigits u.returned_bytes (in_buffer.drop l) with
            | none => (.fault .read_past_in_buffer, [])
            | some (ndigits', returned_bytes) =>
              (memcpy_and_return buffer in_buffer (ndigits'.toNat + l + 2) returned_bytes, [])
          else (.returned 0 buffer, [])

/-- ASCII bytes of a string literal. -/
def bytes_of (s : String) : List Nat := s.toList.map Char.toNat

/-- The number `n` written as exactly `d` decimal digits, most significant
first, padded with zeros on the left. -/
def zero_padded : Nat → Nat → List Nat
  | 0, _ => []
  | d + 1, n => (48 + n / 10 ^ d % 10) :: zero_padded d n

/-! ## Transport collaborator

The vxi11 library is not part of the repository.  A run of the driver sees it
as a script: the `n`-th transport call of the run (counting from 0) gets the
`n`-th scripted reply of the kind the call asks for.  Every behaviour of a real
instrument during one run is such a script. -/

/-- One call of the vxi11 library, with the arguments the driver passed. -/
inductive Call where
  | send_str (cmd : String)
  | send_and_receive (cmd : String) (len timeout : Nat)
  | obtain_long_value (cmd : String)
  | obtain_long_value_timeout (cmd : String) (timeout : Nat)
  | receive_timeout (len timeout : Nat)
  | obtain_double_value_timeout (cmd : String) (timeout : Nat)
  deriving DecidableEq, Repr

/-- What `vxi11_send_and_receive` hands back: its return value and the C string
found in the (zeroed) reply buffer afterwards. -/
structure TextReply where
  ret : Int
  text : String

/-- Scripted replies, indexed by the position of the call in the run. -/
structure Device where
  /-- Return value when the call is `vxi11_send_str`. -/
  status : Nat → Int
  /-- Reply when the call is `vxi11_send_and_receive`. -/
  text : Nat → TextReply
  /-- Value when the call is `vxi11_obtain_long_value` or its `_timeout` form. -/
  long : Nat → Int
  /-- Result when the call is `vxi11_receive_timeout`. -/
  raw : Nat → Received

/-- State of a run: the transport calls issued so far (oldest first) and the
lines printed so far. -/
structure Session where
  calls : List Call
  out : List String
  deriving DecidableEq, Repr

/-- Record a transport call. -/
def Session.call (s : Session) (c : Call) : Session :=
  { calls := s.calls ++ [c], out := s.out }

/-- Record printed lines. -/
def Session.print (s : Session) (lines : List String) : Session :=
  { calls := s.calls, out := s.out ++ lines }

/-- Transport call `vxi11_send_str(clink, cmd)`. -/
def vxi11_send_str (dev : Device) (cmd : String) (s : Session) : Int × Session :=
  (dev.status s.calls.length, s.call (.send_str cmd))

/-- Transport call `vxi11_send_and_receive(clink, cmd, buf, len, timeout)`. -/
def vxi11_send_and_receive (dev : Device) (cmd : String) (len timeout : Nat) (s : Session) :
    TextReply × Session :=
  (dev.text s.calls.length, s.call (.send_and_receive cmd len timeout))

/-- Transport call `vxi11_obtain_long_value(clink, cmd)`. -/
def vxi11_obtain_long_value (dev : Device) (cmd : String) (s : Session) : Int × Session :=
  (dev.long s.calls.length, s.call (.obtain_long_value cmd))

/-- Transport call `vxi11_obtain_long_value_timeout(clink, cmd, timeout)`. -/
def vxi11_obtain_long_value_timeout (dev : Device) (cmd : String) (timeout : Nat)
    (s : Session) : Int × Session :=
  (dev.long s.calls.length, s.call (.obtain_long_value_timeout cmd timeout))

/-- Transport call `vxi11_receive_timeout(clink, buffer, len, timeout)`. -/
def vxi11_receive_timeout (dev : Device) (len timeout : Nat) (s : Session) :
    Received × Session :=
  (dev.raw s.calls.length, s.call (.receive_timeout len timeout))

/-- Embedding of `lecroy_receive_data_block`: receive into a buffer of
`len + 25` bytes, then decode. -/
def lecroy_receive_data_block (dev : Device) (u : Uninit) (buffer : List Nat)
    (len timeout : Nat) (s : Session) : Outcome × Session :=
  let r := vxi11_receive_timeout dev (len + 25) timeout s
  let d := decode_data_block r.1 u buffer len
  (d.1, r.2.print d.2)

/-! ## Acquisition Controller and Data Transfer Engine -/

/-- C `strstr(haystack, needle) != NULL`. -/
def strstr : List Char → List Char → Bool
  | [], needle => needle.isEmpty
  | c :: rest, needle => needle.isPrefixOf (c :: rest) || strstr rest needle

/-- Embedding of `lecroy_clear_sweeps`. -/
def lecroy_clear_sweeps (dev : Device) (s : Session) : Session :=
  (vxi11_send_str dev "CLSW" (vxi11_obtain_long_value dev "INR?" s).2).2

/-- First loop of `lecroy_wait_all_averages`, over the given values of `l`:
query "F<l+1>:TRACE?" and set `chan_on[l]` to 1 when the reply contains "ON". -/
def trace_queries (dev : Device) (timeout : Nat) : List Nat → Session → List Int × Session
  | [], s => ([], s)
  | l :: ls, s =>
    let r := vxi11_send_and_receive dev ("F" ++ toString (l + 1) ++ ":TRACE?") 256 timeout s
    let flag : Int := if strstr r.1.text.toList "ON".toList then 1 else 0
    let t := trace_queries dev timeout ls r.2
    (flag :: t.1, t.2)

/-- Second loop of `lecroy_wait_all_averages`, over pairs `(l, chan_on[l])`:
for a channel that is on, query "F<l+1>:DEF?" and clear `chan_on[l]` when the
reply does not contain "AVG". -/
def def_queries (dev : Device) (timeout : Nat) : List (Nat × Int) → Session → List Int × Session
  | [], s => ([], s)
  | (l, flag) :: ls, s =>
    if flag = 1 then
      let r := vxi11_send_and_receive dev ("F" ++ toString (l + 1) ++ ":DEF?") 256 timeout s
      let flag1 : Int := if strstr r.1.text.toList "AVG".toList then flag else 0
      let t := def_queries dev timeout ls r.2
      (flag1 :: t.1, t.2)
    else
      let t := def_queries dev timeout ls s
      (flag :: t.1, t.2)

/-- The 32 bits of the C `int` obtained by `(int) v` from a `long`, as a
natural number.  `|`, `&` and `==` on `int`s act on these bit patterns. -/
def int_bits (v : Int) : Nat := (v % 2 ^ 32).toNat

/-- The part of `lecroy_wait_all_averages` before its polling loop: the mask
and the session after the "TRACE?" and "DEF?" queries. -/
def wait_setup (dev : Device) (timeout : Nat) (s : Session) : Nat × Session :=
  let t := trace_queries dev timeout [0, 1, 2, 3] s
  let d := def_queries dev timeout ([0, 1, 2, 3].zip t.1) t.2
  let mask : Int :=
    d.1.getD 0 0 * 256 + d.1.getD 1 0 * 512 + d.1.getD 2 0 * 1024 + d.1.getD 3 0 * 2048
  (int_bits mask, d.2)

/-- The loop `while (test == 0)` of `lecroy_wait_all_averages`, run for at most
`fuel` iterations: the final `old_inr` and session, or `none` when the loop is
still running after `fuel` polls. -/
def poll_inr (dev : Device) (timeout mask : Nat) : Nat → Nat → Session → Option (Nat × Session)
  | 0, _, _ => none
  | fuel + 1, old_inr, s =>
    let r := vxi11_obtain_long_value_timeout dev "INR?" timeout s
    let old_inr1 := old_inr ||| int_bits r.1
    if old_inr1 &&& mask = mask then some (old_inr1, r.2)
    else poll_inr dev timeout mask fuel old_inr1 r.2

/-- Embedding of `lecroy_wait_all_averages`; `none` when the polling loop has
not ended within `fuel` polls. -/
def lecroy_wait_all_averages (dev : Device) (fuel timeout : Nat) (s : Session) :
    Option (Int × Session) :=
  let w := wait_setup dev timeout s
  match poll_inr dev timeout w.1 fuel 0 w.2 with
  | none => none
  | some p => some (0, p.2)

/-- The last three statements of `lecroy_get_data`: resolve the source, send
"<source>:WF? DAT1" and run `lecroy_receive_data_block`. -/
def read_waveform (dev : Device) (u : Uninit) (chan : Char) (buf : List Nat)
    (buf_len timeout : Nat) (s : Session) : Outcome × Session :=
  let source := lecroy_scope_channel_str chan
  let s1 := (vxi11_send_str dev (source.1 ++ ":WF? DAT1") (s.print source.2)).2
  lecroy_receive_data_block dev u buf buf_len timeout s1

/-- The statements of `lecroy_get_data` after the "*OPC?" check: wait for the
averages when asked to, then read the waveform. -/
def wait_and_read (dev : Device) (u : Uninit) (fuel : Nat) (chan : Char) (clear_sweeps : Int)
    (buf : List Nat) (buf_len timeout : Nat) (s : Session) : Option (Outcome × Session) :=
  if lecroy_is_maths_chan chan = 1 ∧ clear_sweeps = 1 then
    match lecroy_wait_all_averages dev fuel timeout s with
    | none => none
    | some w => some (read_waveform dev u chan buf buf_len timeout w.2)
  else some (read_waveform dev u chan buf buf_len timeout s)

/-- Embedding of the seven-argument `lecroy_get_data`; `none` when the polling
loop of `lecroy_wait_all_averages` has not ended within `fuel` polls. -/
def lecroy_get_data (dev : Device) (u : Uninit) (fuel : Nat) (chan : Char) (clear_sweeps : Int)
    (buf : List Nat) (buf_len : Nat) (arm_and_wait : Int) (timeout : Nat) (s : Session) :
    Option (Outcome × Session) :=
  let is_maths_chan := lecroy_is_maths_chan chan
  let s1 := if is_maths_chan = 1 ∧ clear_sweeps = 1 then lecroy_clear_sweeps dev s else s
  let s2 := if arm_and_wait = 1 then (vxi11_send_str dev "ARM;WAIT" s1).2 else s1
  if arm_and_wait = 1 ∨ is_maths_chan = 0 then
    let opc := vxi11_obtain_long_value_timeout dev "*OPC?" timeout s2
    if opc.1 ≠ 1 then
      some (.returned 0 buf, opc.2.print ["lecroy_get_data: error, *OPC? did not return 1\n"])
    else wait_and_read dev u fuel chan clear_sweeps buf buf_len timeout opc.2
  else wait_and_read dev u fuel chan clear_sweeps buf buf_len timeout s2

/-- The `j`-th reply (from 0) to the "INR?" polls of a loop whose first poll is
transport call number `n0`, as the bits of the `int` it is cast to. -/
def inr_reply (dev : Device) (n0 j : Nat) : Nat := int_bits (dev.long (n0 + j))

/-- Bitwise OR of the first `k` replies to the "INR?" polls. -/
def or_of_replies (dev : Device) (n0 : Nat) : Nat → Nat
  | 0 => 0
  | k + 1 => or_of_replies dev n0 k ||| inr_reply dev n0 k

/-- A scripted instrument: F1 is displayed and averaging, F2..F4 are off; the
second "INR?" poll of the wait loop reports F1 complete (bit 8); the waveform
read delivers "DAT1,#9000000005HELLO". -/
def demo_device : Device where
  status := fun _ => 0
  text := fun n => if n = 2 then ⟨0, "ON"⟩ else if n = 6 then ⟨0, "EQN,\"AVG(C1)\""⟩ else ⟨0, "OFF"⟩
  long := fun n => if n = 8 then 256 else 0
  raw := fun _ => ⟨21, bytes_of "DAT1,#9000000005HELLO"⟩

/-- Uninitialised memory that happens to hold zeros. -/
def zero_uninit : Uninit where
  in_buffer := fun _ => 0
  ndigits := 0
  returned_bytes := 0

/-- A scripted instrument whose every raw receive returns `ret` and delivers
`data`; every other reply is zero or empty. -/
def device_delivering (ret : Int) (data : List Nat) : Device where
  status := fun _ => 0
  text := fun _ => ⟨0, ""⟩
  long := fun _ => 0
  raw := fun _ => ⟨ret, data⟩

/-- A session in which nothing has happened yet. -/
def fresh : Session := ⟨[], []⟩

/-- The session right after `lecroy_clear_sweeps` ran in a fresh session. -/
def cleared : Session := ⟨[.obtain_long_value "INR?", .send_str "CLSW"], []⟩

/-- Whether math channel `F<l+1>` is displayed according to the script: the
reply to its "TRACE?" query, which is transport call number `n + l` when
"F1:TRACE?" is call number `n`, contains "ON". -/
def displayed (dev : Device) (n l : Nat) : Bool :=
  strstr (dev.text (n + l)).text.toList "ON".toList

/-- The "DEF?" queries expected from `lecroy_wait_all_averages` when its
"F1:TRACE?" query is transport call number `n`: one for each displayed math
channel, in channel order. -/
def def_query_calls (dev : Device) (timeout n : Nat) : List Call :=
  (if displayed dev n 0 then [Call.send_and_receive "F1:DEF?" 256 timeout] else []) ++
  (if displayed dev n 1 then [Call.send_and_receive "F2:DEF?" 256 timeout] else []) ++
  (if displayed dev n 2 then [Call.send_and_receive "F3:DEF?" 256 timeout] else []) ++
  (if displayed dev n 3 then [Call.send_and_receive "F4:DEF?" 256 timeout] else [])

/-! ## Averaging set-up -/

/-- Embedding of `lecroy_display_channel`: resolve the source and send
"<source>:TRACE OFF" when `on_or_off` is 0, "<source>:TRACE ON" otherwise. -/
def lecroy_display_channel (dev : Device) (chan : Char) (on_or_off : Int) (s : Session) :
    Int × Session :=
  let source := lecroy_scope_channel_str chan
  let cmd := if on_or_off = 0 then source.1 ++ ":TRACE OFF" else source.1 ++ ":TRACE ON"
  vxi11_send_str dev cmd (s.print source.2)

/-- Embedding of `lecroy_set_averages`: the returned token and the session
afterwards.  `%d` of the `int` `no_averages` is its decimal `toString`. -/
def lecroy_set_averages (dev : Device) (chan : Char) (no_averages : Int) (s : Session) :
    Char × Session :=
  let related := lecroy_relate_function_to_source chan
  let maths_chan := if lecroy_is_maths_chan chan = 0 then related.1 else chan
  let chan1 := if lecroy_is_maths_chan chan = 0 then chan else related.1
  let s0 := s.print related.2
  if no_averages > 1 then
    let maths_chan_str := lecroy_scope_channel_str maths_chan
    let source := lecroy_scope_channel_str chan1
    let cmd := maths_chan_str.1 ++ ":DEF EQN, 'AVG(" ++ source.1
      ++ ")',AVERAGETYPE,SUMMED,SWEEPS," ++ toString no_averages ++ " SWEEP"
    let s1 := (vxi11_send_str dev cmd ((s0.print maths_chan_str.2).print source.2)).2
    (maths_chan, (lecroy_display_channel dev maths_chan 1 s1).2)
  else
    let s1 := (lecroy_display_channel dev maths_chan 0 s0).2
    (chan1, (lecroy_display_channel dev chan1 1 s1).2)

/-- Slot number 1..4 of a token of the first four acquisition/math pairs
('1' and 'A' are slot 1, '4' and 'D' slot 4); 0 for any other character. -/
def slot (chan : Char) : Nat :=
  if chan = '1' ∨ chan = 'A' then 1
  else if chan = '2' ∨ chan = 'B' then 2
  else if chan = '3' ∨ chan = 'C' then 3
  else if chan = '4' ∨ chan = 'D' then 4
  else 0

/-- Instrument-side reading of a command trace: whether the source named `src`
is displayed after the calls, given the display state `prior` before them.
"<src>:TRACE ON" displays the source, "<src>:TRACE OFF" hides it, and no
other call is taken to change it. -/
def display_after (prior : String → Bool) : List Call → String → Bool
  | [], src => prior src
  | c :: cs, src =>
    display_after
      (fun x => if c = Call.send_str (x ++ ":TRACE ON") then true
        else if c = Call.send_str (x ++ ":TRACE OFF") then false
        else prior x)
      cs src

/-- A scripted instrument on which F1 is displayed and averaging (its "TRACE?"
query is call 0, its "DEF?" query call 4) and every numeric query hands back
0, the value of an "INR?" poll that never reports completion. -/
def stuck_device : Device where
  status := fun _ => 0
  text := fun n => if n = 0 then ⟨0, "ON"⟩ else if n = 4 then ⟨0, "EQN,\"AVG(C1)\""⟩ else ⟨0, "OFF"⟩
  long := fun _ => 0
  raw := fun _ => ⟨0, []⟩

/-- The transport calls `lecroy_get_data` issues before its "*OPC?" check: the
clear-sweeps pair when the channel is derived and `clear_sweeps` is 1, then
"ARM;WAIT" when `arm_and_wait` is 1. -/
def calls_before_opc (chan : Char) (clear_sweeps arm_and_wait : Int) : List Call :=
  (if lecroy_is_maths_chan chan = 1 ∧ clear_sweeps = 1
    then [Call.obtain_long_value "INR?", Call.send_str "CLSW"] else []) ++
  (if arm_and_wait = 1 then [Call.send_str "ARM;WAIT"] else [])

/-- Whether a transport call is an "*OPC?" query. -/
def is_opc : Call → Bool
  | .obtain_long_value cmd => cmd = "*OPC?"
  | .obtain_long_value_timeout cmd _ => cmd = "*OPC?"
  | _ => false

/-- Whether a transport call is one that only `lecroy_clear_sweeps` and
`lecroy_wait_all_averages` make: "CLSW", a text query, or an "INR?" query. -/
def is_averaging_call : Call → Bool
  | .send_str cmd => cmd = "CLSW"
  | .send_and_receive _ _ _ => true
  | .obtain_long_value cmd => cmd = "INR?"
  | .obtain_long_value_timeout cmd _ => cmd = "INR?"
  | .receive_timeout _ _ => false
  | .obtain_double_value_timeout _ _ => false

/-! ## Trace Post-processing

Buffers are lists of bytes; a `signed char` array is read through `to_int8`,
a `short` array through `to_int16` on a little-endian host (the byte order the
driver sets with "COMM_ORDER LO").  C `int` arithmetic is 32-bit and wraps
(`wrap32`).  `none` stands for a run that divides by zero, asks `new` for a
negative number of elements, or reads or writes outside an array. -/

/-- Value of a C `int` expression whose mathematical value is `v`: reduced to
the 32-bit two's complement range. -/
def wrap32 (v : Int) : Int := (v + 2147483648) % 4294967296 - 2147483648

/-- Conversion of an `int` to `unsigned long`. -/
def to_ulong (v : Int) : Nat := (v % 18446744073709551616).toNat

/-- The `signed char` stored in a byte. -/
def to_int8 (b : Nat) : Int :=
  if b % 256 < 128 then ((b % 256 : Nat) : Int) else ((b % 256 : Nat) : Int) - 256

/-- The `short` stored in two bytes, least significant byte first. -/
def to_int16 (lo hi : Nat) : Int :=
  if lo % 256 + 256 * (hi % 256) < 32768 then ((lo % 256 + 256 * (hi % 256) : Nat) : Int)
  else ((lo % 256 + 256 * (hi % 256) : Nat) : Int) - 65536

/-- A byte buffer read as an array of `short`s. -/
def shorts_of : List Nat → List Int
  | lo :: hi :: rest => to_int16 lo hi :: shorts_of rest
  | _ => []

/-- A byte buffer read as an array of samples: `signed char`s when
`bytes_per_point` is 1, `short`s otherwise. -/
def samples_of (bytes_per_point : Int) (bytes : List Nat) : List Int :=
  if bytes_per_point = 1 then bytes.map to_int8 else shorts_of bytes

/-- The byte of `(signed char) v`. -/
def of_int8 (v : Int) : Nat := (v % 256).toNat

/-- The two bytes of `(short) v`, least significant first. -/
def of_int16 (v : Int) : List Nat := [(v % 256).toNat, (v / 256 % 256).toNat]

/-- The bytes of an array of samples of the given width. -/
def bytes_of_samples (bytes_per_point : Int) (samples : List Int) : List Nat :=
  if bytes_per_point = 1 then samples.map of_int8 else samples.flatMap of_int16

/-- The inner loop `for (j = 0; j < n; j++) int_buf[i] += in[(j * points_per_trace) + i]`:
the value of `int_buf[i]` after `n` iterations, `none` when an index leaves the
input array. -/
def sum_segments (samples : List Int) (points_per_trace i : Int) : Nat → Option Int
  | 0 => some 0
  | j + 1 =>
    match sum_segments samples points_per_trace i j with
    | none => none
    | some total =>
      let index := wrap32 (wrap32 ((j : Int) * points_per_trace) + i)
      if index < 0 ∨ (samples.length : Int) ≤ index then none
      else some (wrap32 (total + samples.getD index.toNat 0))

/-- One iteration of the outer loop: the sum over the segments followed by
`int_buf[i] /= no_of_segments` (C division truncates towards zero). -/
def average_point (samples : List Int) (points_per_trace no_of_segments i : Int) : Option Int :=
  match sum_segments samples points_per_trace i no_of_segments.toNat with
  | none => none
  | some total => some (wrap32 (Int.tdiv total no_of_segments))

/-- The first `n` iterations of the outer loop: the values of `int_buf[0..n)`. -/
def average_points (samples : List Int) (points_per_trace no_of_segments : Int) :
    Nat → Option (List Int)
  | 0 => some []
  | n + 1 =>
    match average_points samples points_per_trace no_of_segments n,
      average_point samples points_per_trace no_of_segments n with
    | some means, some v => some (means ++ [v])
    | _, _ => none

/-- The lines `int_buf[<i>] = <v>` printed for the means outside `[lo, hi]`;
the first argument is the index of the head of the list. -/
def range_warnings (lo hi : Int) : Nat → List Int → List String
  | _, [] => []
  | i, v :: vs =>
    (if v > hi ∨ v < lo then ["int_buf[" ++ toString i ++ "] = " ++ toString v ++ "\n"] else [])
      ++ range_warnings lo hi (i + 1) vs

/-- Embedding of `lecroy_average_segmented_data`: the contents of `out_buf`
afterwards and the lines printed.  (The C function ends without a `return`;
its value is not modelled.)  `in_buf` and `out_buf` are the caller's arrays,
their lengths the allocated sizes; `in_buf_len` is an `unsigned long`. -/
def lecroy_average_segmented_data (in_buf : List Nat) (in_buf_len : Nat) (out_buf : List Nat)
    (out_buf_len : Nat) (no_of_segments bytes_per_point : Int) :
    Option (List Nat × List String) :=
  let divisor := to_ulong (wrap32 (bytes_per_point * no_of_segments))
  if divisor = 0 then none
  else
    let points_per_trace := wrap32 ((in_buf_len / divisor : Nat) : Int)
    if points_per_trace < 0 then none
    else if in_buf.length < in_buf_len then none
    else if bytes_per_point ≠ 1 ∧ 2 * (in_buf_len / to_ulong bytes_per_point) < in_buf_len then none
    else
      match average_points (samples_of bytes_per_point (in_buf.take in_buf_len))
          points_per_trace no_of_segments points_per_trace.toNat with
      | none => none
      | some means =>
        let out_bytes := bytes_of_samples bytes_per_point means
        if out_bytes.length < out_buf_len ∨ out_buf.length < out_buf_len then none
        else some (out_bytes.take out_buf_len ++ out_buf.drop out_buf_len,
          if bytes_per_point = 1 then range_warnings (-128) 127 0 means
          else range_warnings (-32768) 32767 0 means)

/-- The truncating mean of sample position `i` over `segments` segments of
`points` samples each: the sum of samples `j * points + i` divided by
`segments`, rounding towards zero. -/
def segment_mean (samples : List Int) (segments points i : Nat) : Int :=
  Int.tdiv ((List.range segments).map (fun j => samples.getD (j * points + i) 0)).sum segments

/-! ### Trace subtraction

`lecroy_subtract_char_arrays` brings both inputs into `short` arrays, subtracts in
an `int` array, saturates, and narrows to the output width.  `none` stands for a
run that asks `new` for a negative number of elements, lets `memcpy` read or
write outside an array, or reads an element that was never written. -/

/-- The loop that keeps `signed_char_tmp[(2 * i) + 1]` of every pair of bytes:
the most significant byte of each `short`. -/
def high_bytes : List Nat → List Nat
  | _ :: hi :: rest => hi :: high_bytes rest
  | _ => []

/-- One input of `lecroy_subtract_char_arrays` brought into its `short` array:
the values of `short_in_buf[0..points_per_trace)`.  With one byte per point the
bytes are copied to `signed_char_in_buf` and interleaved with zero low bytes in
`signed_char_tmp`; otherwise `in_buf_len` bytes are copied straight into the
`short` array.  `none` when `memcpy` reads outside `in_buf` or writes outside
the `short` array, or when part of the `short` array is read without having
been written. -/
def widen_input (in_buf : List Nat) (bytes_per_point points_per_trace : Int) :
    Option (List Int) :=
  let in_buf_len := wrap32 (points_per_trace * bytes_per_point)
  if in_buf_len < 0 ∨ (in_buf.length : Int) < in_buf_len then none
  else if bytes_per_point = 1 then
    some (shorts_of ((in_buf.take in_buf_len.toNat).flatMap (fun b => [0, b])))
  else if in_buf_len ≠ 2 * points_per_trace then none
  else some (shorts_of (in_buf.take in_buf_len.toNat))

/-- One iteration of the subtraction loop: `int_buf[i] -= (int) b`, then the two
range tests; the result is the value stored in `short_out_buf[i]`. -/
def subtract_point (a b : Int) : Int :=
  let d := wrap32 (a - b)
  let d1 := if d < -32768 then -32768 else d
  if d1 > 32767 then 32767 else d1

/-- Embedding of `lecroy_subtract_char_arrays`: the contents of `out_buf`
afterwards.  (The C function ends without a `return`; its value is not
modelled.)  The three buffers are the caller's arrays, their lengths the
allocated sizes. -/
def lecroy_subtract_char_arrays (in_buf_a in_buf_b out_buf : List Nat)
    (bytes_per_point_a bytes_per_point_b bytes_per_point_out points_per_trace : Int) :
    Option (List Nat) :=
  let out_buf_len := wrap32 (points_per_trace * bytes_per_point_out)
  if points_per_trace < 0 ∨ wrap32 (2 * points_per_trace) < 0 then none
  else
    match widen_input in_buf_a bytes_per_point_a points_per_trace,
      widen_input in_buf_b bytes_per_point_b points_per_trace with
    | some short_in_buf_a, some short_in_buf_b =>
      let short_out_buf :=
        (List.zipWith subtract_point short_in_buf_a short_in_buf_b).flatMap of_int16
      if out_buf_len < 0 ∨ (out_buf.length : Int) < out_buf_len then none
      else if bytes_per_point_out = 1 then
        some ((high_bytes short_out_buf).take out_buf_len.toNat ++ out_buf.drop out_buf_len.toNat)
      else if 2 * points_per_trace < out_buf_len then none
      else some (short_out_buf.take out_buf_len.toNat ++ out_buf.drop out_buf_len.toNat)
    | _, _ => none

/-- Saturation of `v` to the interval from `lo` to `hi`. -/
def clamp (v lo hi : Int) : Int := if v < lo then lo else if v > hi then hi else v

/-- An input sample of the given width as `subtract_traces` is described to
take it: an 8-bit sample is multiplied by 256, a 16-bit sample is unchanged. -/
def widen_sample (bytes_per_point v : Int) : Int := if bytes_per_point = 1 then 256 * v else v

/-- An output sample of the given width as `subtract_traces` is described to
produce it from a 16-bit value: at 8 bits the high byte, the floor of the
quotient by 256. -/
def narrow_sample (bytes_per_point v : Int) : Int := if bytes_per_point = 1 then v / 256 else v

/-- One output sample as `subtract_traces` is described: widen both inputs,
subtract, saturate to the signed 16-bit range, narrow. -/
def subtract_sample (bytes_per_point_a bytes_per_point_b bytes_per_point_out a b : Int) : Int :=
  narrow_sample bytes_per_point_out
    (clamp (widen_sample bytes_per_point_a a - widen_sample bytes_per_point_b b) (-32768) 32767)

/-! ### Averaging set-up on every token -/

/-- The tokens of the acquisition channels and of the math channels: '1'..'4',
'A'..'H' and 'a'..'h'. -/
def averaging_tokens : List Char := "1234ABCDEFGHabcdefgh".toList

/-- Number k of the math channel F<k> that goes with a token: its own number
for 'A'..'H' and 'a'..'h', the number of the paired math channel for '1'..'4';
0 for any other character. -/
def math_slot (chan : Char) : Nat :=
  if chan = '1' ∨ chan = 'A' ∨ chan = 'a' then 1
  else if chan = '2' ∨ chan = 'B' ∨ chan = 'b' then 2
  else if chan = '3' ∨ chan = 'C' ∨ chan = 'c' then 3
  else if chan = '4' ∨ chan = 'D' ∨ chan = 'd' then 4
  else if chan = 'E' ∨ chan = 'e' then 5
  else if chan = 'F' ∨ chan = 'f' then 6
  else if chan = 'G' ∨ chan = 'g' then 7
  else if chan = 'H' ∨ chan = 'h' then 8
  else 0

/-- Number j of the acquisition channel C<j> that goes with a token: its own
number for '1'..'4', the number of the paired channel for 'A'..'D' and
'a'..'d', and 1 for every other character. -/
def source_slot (chan : Char) : Nat :=
  if chan = '2' ∨ chan = 'B' ∨ chan = 'b' then 2
  else if chan = '3' ∨ chan = 'C' ∨ chan = 'c' then 3
  else if chan = '4' ∨ chan = 'D' ∨ chan = 'd' then 4
  else 1

/-! ## Inspection queries

`lecroy_obtain_insp_long` sends an "INSP?" query, receives the reply into the
zeroed local array `buf` of 256 bytes, looks for ':' and hands the text two
bytes further on to `strtol`.  The bytes that follow `buf` in memory are the
parameter `past`: the loop compares the first of them when it reaches the end
of `buf`, and `strtol` runs on into them when `buf` holds no terminator. -/

/-- Contents of a zeroed buffer of `size` bytes after the transport wrote the
reply `text` to its start. -/
def reply_buffer (text : String) (size : Nat) : List Nat :=
  (bytes_of text).take size ++ List.replicate (size - (bytes_of text).length) 0

/-- The loop `while ((buf[l] != ':') && (l < 256)) l++;`.  The first argument
is `256 - l`, the second the bytes from `buf + l` on; the result is the final
`l`.  When `l` is 256 the byte compared lies behind `buf`, and whatever it is,
`l < 256` ends the loop.  (The bytes given always include the 256 of `buf`, so
the second case does not arise.) -/
def scan_colon : Nat → List Nat → Nat → Nat
  | 0, _, l => l
  | _ + 1, [], l => l
  | r + 1, c :: rest, l => if c ≠ 58 then scan_colon r rest (l + 1) else l

/-- White space skipped by `strtol`. -/
def skip_spaces : List Nat → List Nat
  | [] => []
  | c :: rest => if isspace c then skip_spaces rest else c :: rest

/-- The decimal digits at the start of the input, accumulated onto `acc`. -/
def digits_value : Nat → List Nat → Nat
  | acc, [] => acc
  | acc, c :: rest => if isdigit c then digits_value (acc * 10 + (c - 48)) rest else acc

/-- C `strtol(s, NULL, 10)` on the bytes from `s` on: white space, an optional
sign, decimal digits; the value saturates at `LONG_MAX` and `LONG_MIN`, and is
0 when no digits are found. -/
def strtol (input : List Nat) : Int :=
  match skip_spaces input with
  | [] => 0
  | c :: rest =>
    if c = 45 then max (-(digits_value 0 rest : Int)) (-9223372036854775808)
    else if c = 43 then min (digits_value 0 rest : Int) 9223372036854775807
    else min (digits_value 0 (c :: rest) : Int) 9223372036854775807

/-- The C string that starts at the given bytes, as `printf("%s")` shows it. -/
def c_string (bytes : List Nat) : String :=
  String.mk ((bytes.takeWhile (fun b => b ≠ 0)).map Char.ofNat)

/-- The body of `lecroy_obtain_insp_long` after `vxi11_send_and_receive` handed
back `r`: the returned `long` and the lines printed. -/
def parse_insp_long (past : List Nat) (r : TextReply) : Int × List String :=
  if r.ret ≠ 0 then (0, ["Error: lecroy_obtain_insp_long returning 0\n"])
  else
    let buf := reply_buffer r.text 256
    let l := scan_colon 256 (buf ++ past) 0
    if l = 256 then
      (0, ["Error: problem parsing returned string in lecroy_obtain_insp_long. String:\n",
           c_string (buf ++ past) ++ "\nReturning 0\n"])
    else (strtol ((buf ++ past).drop (l + 2)), [])

/-- Embedding of `lecroy_obtain_insp_long`: the returned `long` and the session
afterwards. -/
def lecroy_obtain_insp_long (dev : Device) (past : List Nat) (cmd : String) (timeout : Nat)
    (s : Session) : Int × Session :=
  let r := vxi11_send_and_receive dev cmd 256 timeout s
  let p := parse_insp_long past r.1
  (p.1, r.2.print p.2)

/-- The number that a run of decimal digit bytes denotes, most significant
digit first. -/
def decimal_value (digits : List Nat) : Nat :=
  digits.foldl (fun v d => v * 10 + (d - 48)) 0

/-- A reply of the form "<PARAMNAME> : <value>" that is exactly 256 bytes
long: the name, 238 blanks, and ": 5002". -/
def full_buffer_reply : String :=
  "WAVE_ARRAY_1" ++ String.mk (List.replicate 238 ' ') ++ ": 5002"

/-- A scripted instrument whose every text query is answered with `text` and
return value `ret`. -/
def device_answering (ret : Int) (text : String) : Device where
  status := fun _ => 0
  text := fun _ => ⟨ret, text⟩
  long := fun _ => 0
  raw := fun _ => ⟨0, []⟩

/-! ## Metadata Writer

`lecroy_write_wfi_file` queries the scaling of a trace and writes the ".wfi"
side file.  C `double`s, the C library conversions `strtod` and `%g`, and the
values the transport hands back for a floating point query are not part of the
repository: they are the parameter `Doubles`.  The file is the list of the
texts written by the successive `fprintf` calls.  The division of the byte
count by the segment count is a machine division: where it traps, the run ends
there (`Run.trapped`). -/

/-- C `double`s as the writer meets them. -/
structure Doubles (D : Type) where
  /-- The constant `0.0`. -/
  zero : D
  /-- Result of `strtod(s, NULL)` on the bytes from `s` on. -/
  strtod : List Nat → D
  /-- Text printed by the conversion `%g`. -/
  format : D → String
  /-- Value handed back when the call is `vxi11_obtain_double_value_timeout`,
  indexed like the replies of `Device`. -/
  reply : Nat → D

/-- Transport call `vxi11_obtain_double_value_timeout(clink, cmd, timeout)`. -/
def vxi11_obtain_double_value_timeout {D : Type} (fp : Doubles D) (cmd : String) (timeout : Nat)
    (s : Session) : D × Session :=
  (fp.reply s.calls.length, s.call (.obtain_double_value_timeout cmd timeout))

/-- The body of `lecroy_obtain_insp_double` after `vxi11_send_and_receive`
handed back `r`: as `parse_insp_long`, with `strtod` in place of `strtol`. -/
def parse_insp_double {D : Type} (fp : Doubles D) (past : List Nat) (r : TextReply) :
    D × List String :=
  if r.ret ≠ 0 then (fp.zero, ["Error: lecroy_obtain_insp_double returning 0.0\n"])
  else
    let buf := reply_buffer r.text 256
    let l := scan_colon 256 (buf ++ past) 0
    if l = 256 then
      (fp.zero,
        ["Error: problem parsing returned string in lecroy_obtain_insp_double. String:\n",
         c_string (buf ++ past) ++ "\nReturning 0.0\n"])
    else (fp.strtod ((buf ++ past).drop (l + 2)), [])

/-- Embedding of `lecroy_obtain_insp_double`. -/
def lecroy_obtain_insp_double {D : Type} (dev : Device) (fp : Doubles D) (past : List Nat)
    (cmd : String) (timeout : Nat) (s : Session) : D × Session :=
  let r := vxi11_send_and_receive dev cmd 256 timeout s
  let p := parse_insp_double fp past r.1
  (p.1, r.2.print p.2)

/-- Embedding of `lecroy_get_segmented_status`: 1 when the reply to the sample
mode query starts with "Sequence" (`strncmp` over 8 characters), else 0.  The
return value of the transaction is not looked at, and `buf` is not zeroed
before it: the reply is taken to arrive with its terminator.  `read_timeout` is
the constant `VXI11_READ_TIMEOUT` of the vxi11 library. -/
def lecroy_get_segmented_status (dev : Device) (read_timeout : Nat) (s : Session) :
    Int × Session :=
  let r := vxi11_send_and_receive dev "VBS? 'Return=app.Acquisition.Horizontal.SampleMode'" 256
    read_timeout s
  (if r.1.text.toList.take 8 = "Sequence".toList then 1 else 0, r.2)

/-- Embedding of `lecroy_get_segmented`: in sequence mode the number of segments
the instrument reports, cast to `int`; otherwise 1. -/
def lecroy_get_segmented (dev : Device) (read_timeout : Nat) (s : Session) : Int × Session :=
  let status := lecroy_get_segmented_status dev read_timeout s
  if status.1 = 1 then
    let r := vxi11_obtain_long_value dev "VBS? 'Return=app.Acquisition.Horizontal.NumSegments'"
      status.2
    (wrap32 r.1, r.2)
  else (1, status.2)

/-- Text printed by the conversion `%d` for an argument of value `v`: the `int`
made of its low 32 bits (the driver also passes `long`s to `%d`). -/
def print_d (v : Int) : String := toString (wrap32 v)

/-- Processor traps that can end a run of the metadata writer. -/
inductive Trap where
  /-- An integer division whose divisor is 0. -/
  | division_by_zero
  /-- The division of `LONG_MIN` by -1, whose quotient no `long` holds. -/
  | quotient_overflow
  deriving DecidableEq, Repr

/-- A computation that ends with a value or is ended by a trap. -/
inductive Run (α : Type) where
  | done (value : α)
  | trapped (why : Trap)
  deriving DecidableEq, Repr

/-- C division of a `long` by an `int` (converted to `long`), truncating towards
zero.  The division traps when the divisor is 0, and when the dividend is
`LONG_MIN` and the divisor -1. -/
def c_div (a b : Int) : Run Int :=
  if b = 0 then .trapped .division_by_zero
  else if a = -9223372036854775808 ∧ b = -1 then .trapped .quotient_overflow
  else .done (Int.tdiv a b)

/-- What a run of `lecroy_write_wfi_file` leaves behind: its return value, the
texts written to the file by the successive `fprintf` calls (`none` when the
file could not be opened), and the session. -/
structure Written where
  ret : Int
  file : Option (List String)
  session : Session
  deriving DecidableEq, Repr

/-- The values `lecroy_write_wfi_file` queries before it opens the file. -/
structure Scaling (D : Type) where
  hinterval : D
  hoffset : D
  vgain : D
  voffset : D

/-- The first part of `lecroy_write_wfi_file`: resolve the source, then query
the horizontal interval, the horizontal offset, the vertical gain and, when
`force_voffset` is 0, the vertical offset.  `past n` are the bytes behind the
reply buffer of the inspection query that is transport call number `n`. -/
def wfi_scaling {D : Type} (dev : Device) (fp : Doubles D) (past : Nat → List Nat) (chan : Char)
    (timeout : Nat) (force_voffset : Int) (voffset : D) (s : Session) : Scaling D × Session :=
  let source := lecroy_scope_channel_str chan
  let s0 := s.print source.2
  let hinterval := vxi11_obtain_double_value_timeout fp
    "VBS? 'Return=app.Acquisition.Horizontal.TimePerPoint'" timeout s0
  let hoffset := lecroy_obtain_insp_double dev fp (past hinterval.2.calls.length)
    (source.1 ++ ":INSP? HORIZ_OFFSET") timeout hinterval.2
  let vgain := lecroy_obtain_insp_double dev fp (past hoffset.2.calls.length)
    (source.1 ++ ":INSP? VERTICAL_GAIN") timeout hoffset.2
  let voff :=
    if force_voffset = 0 then
      lecroy_obtain_insp_double dev fp (past vgain.2.calls.length)
        (source.1 ++ ":INSP? VERTICAL_OFFSET") timeout vgain.2
    else (voffset, vgain.2)
  (⟨hinterval.1, hoffset.1, vgain.1, voff.1⟩, voff.2)

/-- The second part of `lecroy_write_wfi_file`: the value given to
`no_of_segments`. -/
def wfi_segments (dev : Device) (read_timeout : Nat) (chan : Char) (s : Session) :
    Int × Session :=
  if lecroy_is_maths_chan chan = 0 then lecroy_get_segmented dev read_timeout s else (1, s)

/-- The texts of the ten `fprintf` calls of `lecroy_write_wfi_file`, or the
trap in which the division for the third of them ends. -/
def wfi_lines {D : Type} (fp : Doubles D) (wfiname captured_by : String)
    (no_of_traces bytes_per_point no_of_bytes no_of_segments : Int) (v : Scaling D) :
    Run (List String) :=
  match (if no_of_segments = 0 then Run.done no_of_bytes
    else c_div no_of_bytes no_of_segments) with
  | .trapped why => .trapped why
  | .done bytes_field =>
    .done
      ["% " ++ wfiname ++ "\n",
       "% Waveform captured using " ++ captured_by ++ "\n\n",
       "% Number of bytes:\n" ++ print_d bytes_field ++ "\n\n",
       "% Vertical gain:\n" ++ fp.format v.vgain ++ "\n\n",
       "% Vertical offset:\n" ++ fp.format v.voffset ++ "\n\n",
       "% Horizontal interval:\n" ++ fp.format v.hinterval ++ "\n\n",
       "% Horizontal offset:\n" ++ fp.format v.hoffset ++ "\n\n",
       "% Number of traces:\n"
         ++ print_d (if no_of_segments = 0 then no_of_traces
              else wrap32 (no_of_traces * no_of_segments)) ++ "\n\n",
       "% Number of bytes per data-point:\n" ++ print_d bytes_per_point ++ "\n\n",
       "% Keep all datapoints (0 or missing knocks off 1 point, legacy lecroy):\n"
         ++ print_d 1 ++ "\n\n"]

/-- Embedding of `lecroy_write_wfi_file` (the form with all ten parameters).
`can_open` tells whether `fopen` succeeds.  The run is `trapped` when the
division for the "Number of bytes" text traps: the process is ended there, and
neither a return value nor the later texts exist. -/
def lecroy_write_wfi_file {D : Type} (dev : Device) (fp : Doubles D) (past : Nat → List Nat)
    (read_timeout : Nat) (can_open : Bool) (wfiname : String) (chan : Char)
    (captured_by : String) (no_of_traces bytes_per_point no_of_bytes : Int) (timeout : Nat)
    (force_voffset : Int) (voffset : D) (s : Session) : Run Written :=
  let scaling := wfi_scaling dev fp past chan timeout force_voffset voffset s
  let segments := wfi_segments dev read_timeout chan scaling.2
  if can_open then
    match wfi_lines fp wfiname captured_by no_of_traces bytes_per_point no_of_bytes segments.1
        scaling.1 with
    | .trapped why => .trapped why
    | .done lines => .done { ret := no_of_bytes, file := some lines, session := segments.2 }
  else
    .done
      { ret := -1
        file := none
        session := segments.2.print
          ["error: lecroy_write_wfi_file: could not open " ++ wfiname ++ " for writing\n"] }

/-- The texts a run of the writer put into the file: `none` when the run was
ended by a trap or the file could not be opened. -/
def written_texts (r : Run Written) : Option (List String) :=
  match r with
  | .done w => w.file
  | .trapped _ => none

/-- A stand-in for the C doubles that keeps a number as the text it was read
from: `strtod` takes the bytes up to the terminator, `%g` shows them again,
and every floating point query of the transport is answered with "1e-09". -/
def text_doubles : Doubles (List Nat) where
  zero := bytes_of "0"
  strtod := fun input => input.takeWhile (fun b => b ≠ 0)
  format := fun v => String.mk (v.map Char.ofNat)
  reply := fun _ => bytes_of "1e-09"

/-- A scripted instrument in sequence mode with `segments` segments: the
inspection queries, calls 1 to 3 of a run of the writer, get replies of the
form "<NAME> : <value>", every other text query is answered with "Sequence" and
every numeric query with `segments`. -/
def sequence_device (segments : Int) : Device where
  status := fun _ => 0
  text := fun n =>
    if n = 1 then ⟨0, "HORIZ_OFFSET : -2e-06"⟩
    else if n = 2 then ⟨0, "VERTICAL_GAIN : 0.004"⟩
    else if n = 3 then ⟨0, "VERTICAL_OFFSET : -0.05"⟩
    else ⟨0, "Sequence"⟩
  long := fun _ => segments
  raw := fun _ => ⟨0, []⟩

/-- The segment count as the metadata writer is described to use it, when its
sample mode query is transport call number `n`: for an acquisition channel the
count the instrument reports (as an `int`) if the reply to that query starts
with "Sequence" and 1 if it does not; 1 for every other channel. -/
def segment_count_used (dev : Device) (chan : Char) (n : Nat) : Int :=
  if lecroy_is_maths_chan chan = 0 then
    if (dev.text n).text.toList.take 8 = "Sequence".toList then wrap32 (dev.long (n + 1))
    else 1
  else 1

/-- The transport calls the metadata writer is described to make for its
scaling values, for the source `src`: the horizontal interval, the horizontal
offset, the vertical gain, and the vertical offset unless an override is
supplied. -/
def scaling_calls (src : String) (timeout : Nat) (force_voffset : Int) : List Call :=
  [.obtain_double_value_timeout "VBS? 'Return=app.Acquisition.Horizontal.TimePerPoint'" timeout,
   .send_and_receive (src ++ ":INSP? HORIZ_OFFSET") 256 timeout,
   .send_and_receive (src ++ ":INSP? VERTICAL_GAIN") 256 timeout] ++
  (if force_voffset = 0 then [.send_and_receive (src ++ ":INSP? VERTICAL_OFFSET") 256 timeout]
    else [])

/-- The transport calls made for the segment count when the sample mode query
is transport call number `n`. -/
def segment_calls (dev : Device) (read_timeout : Nat) (chan : Char) (n : Nat) : List Call :=
  if lecroy_is_maths_chan chan = 0 then
    [.send_and_receive "VBS? 'Return=app.Acquisition.Horizontal.SampleMode'" 256 read_timeout] ++
    (if (dev.text n).text.toList.take 8 = "Sequence".toList
      then [.obtain_long_value "VBS? 'Return=app.Acquisition.Horizontal.NumSegments'"] else [])
  else []

/-! ## Theorems -/

/-- C2: on every recognised token `lecroy_scope_channel_str` equals the
documented table (digit n gives "C<n>", the k-th letter of A..H gives "F<k>",
the k-th letter of S..Z gives "M<k>", lower case alike) and prints nothing. -/
theorem scope_channel_str_table :
    (∀ n : Fin 4, lecroy_scope_channel_str (Char.ofNat (49 + n.val))
        = ("C" ++ toString (n.val + 1), [])) ∧
    (∀ k : Fin 8,
      lecroy_scope_channel_str (Char.ofNat (65 + k.val)) = ("F" ++ toString (k.val + 1), []) ∧
      lecroy_scope_channel_str (Char.ofNat (97 + k.val)) = ("F" ++ toString (k.val + 1), []) ∧
      lecroy_scope_channel_str (Char.ofNat (83 + k.val)) = ("M" ++ toString (k.val + 1), []) ∧
      lecroy_scope_channel_str (Char.ofNat (115 + k.val))
        = ("M" ++ toString (k.val + 1), [])) := by
  constructor <;> decide

/-- C3: `lecroy_relate_function_to_source` sends '1'..'4' to 'A'..'D' and
'A'..'D' back to '1'..'4'; on these eight tokens it is an involution that
stays inside the eight tokens, and it prints nothing. -/
theorem relate_function_to_source_round_trip :
    (lecroy_relate_function_to_source '1').1 = 'A' ∧
    (lecroy_relate_function_to_source '2').1 = 'B' ∧
    (lecroy_relate_function_to_source '3').1 = 'C' ∧
    (lecroy_relate_function_to_source '4').1 = 'D' ∧
    (lecroy_relate_function_to_source 'A').1 = '1' ∧
    (lecroy_relate_function_to_source 'B').1 = '2' ∧
    (lecroy_relate_function_to_source 'C').1 = '3' ∧
    (lecroy_relate_function_to_source 'D').1 = '4' ∧
    (∀ i : Fin 8,
      (lecroy_relate_function_to_source
        (lecroy_relate_function_to_source (paired_tokens.get i)).1).1 = paired_tokens.get i ∧
      (lecroy_relate_function_to_source (paired_tokens.get i)).1 ∈ paired_tokens ∧
      (lecroy_relate_function_to_source (paired_tokens.get i)).2 = []) := by
  decide

/-- C4: for every character outside the recognised tokens,
`lecroy_scope_channel_str` yields the default source "C1" and prints exactly
one line, the unknown-channel warning. -/
theorem scope_channel_str_unknown (chan : Char) (h : chan ∉ recognised_tokens) :
    lecroy_scope_channel_str chan = ("C1", [unknown_channel_msg chan]) ∧
    (lecroy_scope_channel_str chan).2.length = 1 := by
  have key : lecroy_scope_channel_str chan = ("C1", [unknown_channel_msg chan]) := by
    simp only [recognised_tokens] at h
    unfold lecroy_scope_channel_str
    split <;> first | rfl | (exfalso; revert h; decide)
  rw [key]
  exact ⟨rfl, rfl⟩

/-- Witness for C4 at the token '9'. -/
theorem scope_channel_str_unknown_witness :
    '9' ∉ recognised_tokens ∧
    lecroy_scope_channel_str '9' = ("C1", [unknown_channel_msg '9']) ∧
    (lecroy_scope_channel_str '9').2.length = 1 :=
  ⟨by decide, scope_channel_str_unknown '9' (by decide)⟩



/-! ### Block Decoder lemmas -/

theorem in_buffer_contents_of_fit (size : Nat) (data : List Nat) (u : Uninit)
    (h : data.length ≤ size) :
    ∃ g : List Nat, in_buffer_contents size data u = data ++ g ∧
      g.length = size - data.length := by
  refine ⟨(List.range (size - data.length)).map (fun i => u.in_buffer (data.length + i)), ?_, ?_⟩
  · simp [in_buffer_contents, List.take_of_length_le h]
  · simp

theorem scan_marker_found (pre rest : List Nat) (h : 35 ∉ pre) :
    ∀ r l : Nat, pre.length ≤ r →
      scan_marker r (pre ++ 35 :: rest) l = some (l + pre.length) := by
  induction pre with
  | nil => intro r l _; cases r <;> simp [scan_marker]
  | cons c pre ih =>
    intro r l hr
    have hc : c ≠ 35 := by intro hc; exact h (by simp [hc])
    have hp : 35 ∉ pre := by intro hp; exact h (by simp [hp])
    cases r with
    | zero => simp at hr
    | succ r =>
      simp only [List.cons_append, scan_marker, List.append_eq]
      rw [if_pos hc, ih hp r (l + 1) (by simpa using hr)]
      simp only [List.length_cons, Option.some.injEq]
      omega

theorem zero_padded_length (d n : Nat) : (zero_padded d n).length = d := by
  induction d with
  | zero => rfl
  | succ d ih => simp [zero_padded, ih]

theorem scan_digits_zero_padded (d n : Nat) (tail : List Nat) :
    ∀ acc count : Nat, scan_digits d acc count (zero_padded d n ++ tail)
      = some (acc * 10 ^ d + n % 10 ^ d, count + d, tail) := by
  induction d with
  | zero => intro acc count; simp [scan_digits, zero_padded, Nat.mod_one]
  | succ d ih =>
    intro acc count
    have hdig : isdigit (48 + n / 10 ^ d % 10) = true := by
      have : n / 10 ^ d % 10 < 10 := Nat.mod_lt _ (by norm_num)
      simp [isdigit]; omega
    simp only [zero_padded, List.cons_append, scan_digits, hdig, if_true, List.append_eq]
    rw [ih]
    have e1 : 48 + n / 10 ^ d % 10 - 48 = n / 10 ^ d % 10 := by omega
    have e2 : n % 10 ^ (d + 1) = n % 10 ^ d + 10 ^ d * (n / 10 ^ d % 10) := Nat.mod_pow_succ
    rw [e1, e2]
    simp only [Option.some.injEq, Prod.mk.injEq, and_true]
    constructor
    · ring
    · omega

theorem conv_d1_digit (c : Nat) (rest : List Nat) (h48 : 48 ≤ c) (h57 : c ≤ 57) :
    conv_d1 (c :: rest) = .ok ((c : Int) - 48) rest := by
  have hs : isspace c = false := by
    simp only [isspace, Bool.or_eq_false_iff, Bool.and_eq_false_iff, decide_eq_false_iff_not]
    omega
  have hd : isdigit c = true := by
    simp only [isdigit, Bool.and_eq_true, decide_eq_true_eq]
    omega
  simp [conv_d1, skip_space, hs, hd]

theorem conv_lu_zero_padded (d n : Nat) (tail : List Nat) (hd : 1 ≤ d) (hd9 : d ≤ 9)
    (hn : n < 10 ^ d) : conv_lu d (zero_padded d n ++ tail) = .ok n tail := by
  obtain ⟨e, rfl⟩ : ∃ e, d = e + 1 := ⟨d - 1, by omega⟩
  have hscan := scan_digits_zero_padded (e + 1) n tail 0 0
  have hlt : n / 10 ^ e % 10 < 10 := Nat.mod_lt _ (by norm_num)
  have hs : isspace (48 + n / 10 ^ e % 10) = false := by
    simp only [isspace, Bool.or_eq_false_iff, Bool.and_eq_false_iff, decide_eq_false_iff_not]
    omega
  have hsign : ¬ (48 + n / 10 ^ e % 10 = 43 ∨ 48 + n / 10 ^ e % 10 = 45) := by omega
  have hbig : n ≤ 2 ^ 64 - 1 := by
    have : (10 : Nat) ^ (e + 1) ≤ 10 ^ 9 := Nat.pow_le_pow_right (by norm_num) hd9
    have : (10 : Nat) ^ 9 ≤ 2 ^ 64 - 1 := by norm_num
    omega
  simp only [zero_padded, List.cons_append] at hscan ⊢
  simp only [conv_lu, skip_space, hs, Bool.false_eq_true, if_false, hsign, hscan]
  simp [Nat.mod_eq_of_lt hn]
  omega

/-- The decoder body on a well-formed block that fits the receive buffer. -/
theorem decode_data_block_well_formed (u : Uninit) (ret : Int) (len D N : Nat)
    (preamble payload buffer : List Nat)
    (hret : 0 ≤ ret) (hpre : preamble.length < 25) (hno : 35 ∉ preamble)
    (hD1 : 1 ≤ D) (hD9 : D ≤ 9) (hN : N < 10 ^ D) (hpay : payload.length = N)
    (hcap : N ≤ len) (hbuf : buffer.length = len)
    (hfit : (preamble ++ 35 :: (48 + D) :: (zero_padded D N ++ payload)).length ≤ len + 25) :
    decode_data_block ⟨ret, preamble ++ 35 :: (48 + D) :: (zero_padded D N ++ payload)⟩
        u buffer len
      = (.returned N (payload ++ buffer.drop N), []) := by
  obtain ⟨g, hg, -⟩ := in_buffer_contents_of_fit (len + 25) _ u hfit
  have hlen : (preamble ++ 35 :: (48 + D) :: (zero_padded D N ++ payload)).length
      = preamble.length + 2 + D + N := by
    simp [zero_padded_length, hpay]; omega
  have hshape : preamble ++ 35 :: (48 + D) :: (zero_padded D N ++ payload) ++ g
      = preamble ++ 35 :: (48 + D) :: (zero_padded D N ++ (payload ++ g)) := by simp
  have hscan := scan_marker_found preamble ((48 + D) :: (zero_padded D N ++ (payload ++ g)))
    hno 25 0 (by omega)
  have hd1 := conv_d1_digit (48 + D) (zero_padded D N ++ (payload ++ g)) (by omega) (by omega)
  have hlu := conv_lu_zero_padded D N (payload ++ g) hD1 hD9 hN
  have hDint : ((48 + D : Nat) : Int) - 48 = (D : Int) := by push_cast; ring
  have hDpos : (0 : Int) < (D : Int) := by exact_mod_cast hD1
  have hdrop : (preamble ++ 35 :: (48 + D) :: (zero_padded D N ++ (payload ++ g))).drop
      (D + preamble.length + 2) = payload ++ g := by
    have e : preamble ++ 35 :: (48 + D) :: (zero_padded D N ++ (payload ++ g))
        = (preamble ++ 35 :: (48 + D) :: zero_padded D N) ++ (payload ++ g) := by simp
    rw [e]
    apply List.drop_left'
    simp [zero_padded_length]; omega
  have hN63 : N % 2 ^ 64 < 2 ^ 63 := by
    have : (10 : Nat) ^ D ≤ 10 ^ 9 := Nat.pow_le_pow_right (by norm_num) hD9
    have : (10 : Nat) ^ 9 < 2 ^ 63 := by norm_num
    have : N % 2 ^ 64 ≤ N := Nat.mod_le _ _
    omega
  have hNmod : N % 2 ^ 64 = N := by
    apply Nat.mod_eq_of_lt
    have : (10 : Nat) ^ D ≤ 10 ^ 9 := Nat.pow_le_pow_right (by norm_num) hD9
    have : (10 : Nat) ^ 9 < 2 ^ 64 := by norm_num
    omega
  have htotal : (preamble ++ 35 :: (48 + D) :: (zero_padded D N ++ (payload ++ g))).length
      = len + 25 := by
    rw [← hshape, ← hg]
    simp [in_buffer_contents]
    omega
  unfold decode_data_block
  simp only [hg, hshape]
  rw [if_neg (by omega), hscan]
  simp only [Nat.zero_add, List.drop_left, List.head?_cons, ne_eq, not_true_eq_false, if_false,
    sscanf_ndigits, sscanf_length, hd1, hDint, hDpos, gt_iff_lt, if_true, Int.toNat_ofNat, hlu]
  have htake : (payload ++ g).take N = payload := by
    rw [← hpay]; exact List.take_left _ _
  have hto : to_long N = (N : Int) := by
    unfold to_long
    rw [if_pos hN63, hNmod]
  unfold memcpy_and_return
  rw [if_neg (by rw [htotal]; omega), if_neg (by omega), hdrop, htake, hto]

theorem print_nil (s : Session) : s.print [] = s := by
  cases s; simp [Session.print]

/-! ### Block Decoder claims -/

/-- C1 as stated fails: a preamble of 20 bytes without '#', digit count 9,
length 5 written as "000000005" and the payload "HELLO", with a destination of
capacity 5, meet every condition of the claim, but the block is 36 bytes long
and the receive buffer holds `len + 25 = 30`: the last length digit and the
payload never reach it.  Whether the transport reports 36 bytes or the 30 it
could store, the second `sscanf` runs off the end of the buffer after the eighth
length digit, so byte count 5 with the payload is not what the run yields. -/
theorem receive_data_block_header_too_long :
    bytes_of "xxxxxxxxxxxxxxxxxxxx#9000000005HELLO"
      = bytes_of "xxxxxxxxxxxxxxxxxxxx" ++ 35 :: (48 + 9) :: (zero_padded 9 5 ++ bytes_of "HELLO") ∧
    (bytes_of "xxxxxxxxxxxxxxxxxxxx").length < 25 ∧
    35 ∉ bytes_of "xxxxxxxxxxxxxxxxxxxx" ∧
    5 < 10 ^ 9 ∧
    (bytes_of "HELLO").length = 5 ∧
    (bytes_of "xxxxxxxxxxxxxxxxxxxx#9000000005HELLO").length = 36 ∧
    (lecroy_receive_data_block
        (device_delivering 36 (bytes_of "xxxxxxxxxxxxxxxxxxxx#9000000005HELLO")) zero_uninit
        [0, 0, 0, 0, 0] 5 2000 fresh).1
      = .fault .read_past_in_buffer ∧
    (lecroy_receive_data_block
        (device_delivering 30 (bytes_of "xxxxxxxxxxxxxxxxxxxx#9000000005HELLO")) zero_uninit
        [0, 0, 0, 0, 0] 5 2000 fresh).1
      = .fault .read_past_in_buffer := by
  decide

/-- C1 amended: for every preamble of fewer than 25 bytes without '#', every
digit count D in 1..9, every N < 10^D written as D zero-padded digits and every
payload of N bytes with N <= len, when the transport delivers
preamble ++ '#' ++ D ++ digits ++ payload and the whole block is at most
len + 25 bytes long (so that it is inside the receive buffer),
`lecroy_receive_data_block` returns N, the first N bytes of the destination are
the payload and the rest of the destination is unchanged. -/
theorem receive_data_block_well_formed (dev : Device) (u : Uninit) (s : Session) (ret : Int)
    (len timeout D N : Nat) (preamble payload buffer : List Nat)
    (hrx : dev.raw s.calls.length
      = ⟨ret, preamble ++ 35 :: (48 + D) :: (zero_padded D N ++ payload)⟩)
    (hret : 0 ≤ ret) (hpre : preamble.length < 25) (hno : 35 ∉ preamble)
    (hD1 : 1 ≤ D) (hD9 : D ≤ 9) (hN : N < 10 ^ D) (hpay : payload.length = N)
    (hcap : N ≤ len) (hbuf : buffer.length = len)
    (hfit : (preamble ++ 35 :: (48 + D) :: (zero_padded D N ++ payload)).length ≤ len + 25) :
    lecroy_receive_data_block dev u buffer len timeout s
      = (.returned N (payload ++ buffer.drop N), s.call (.receive_timeout (len + 25) timeout)) ∧
    (payload ++ buffer.drop N).take N = payload := by
  constructor
  · unfold lecroy_receive_data_block vxi11_receive_timeout
    simp only [hrx]
    rw [decode_data_block_well_formed u ret len D N preamble payload buffer hret hpre hno hD1 hD9
      hN hpay hcap hbuf hfit, print_nil]
  · rw [← hpay]; exact List.take_left _ _

/-- Witness for C1: "#9000000005HELLO" into a 5-byte destination gives byte
count 5 and payload "HELLO". -/
theorem receive_data_block_well_formed_witness :
    (device_delivering 16 (bytes_of "#9000000005HELLO")).raw 0
      = ⟨16, [] ++ 35 :: (48 + 9) :: (zero_padded 9 5 ++ bytes_of "HELLO")⟩ ∧
    (lecroy_receive_data_block (device_delivering 16 (bytes_of "#9000000005HELLO")) zero_uninit
        [0, 0, 0, 0, 0] 5 2000 fresh
      = (.returned 5 (bytes_of "HELLO" ++ [0, 0, 0, 0, 0].drop 5),
          fresh.call (.receive_timeout (5 + 25) 2000)) ∧
    (bytes_of "HELLO" ++ [0, 0, 0, 0, 0].drop 5).take 5 = bytes_of "HELLO") :=
  ⟨rfl, receive_data_block_well_formed (device_delivering 16 (bytes_of "#9000000005HELLO"))
    zero_uninit fresh 16 5 2000 9 5 [] (bytes_of "HELLO") [0, 0, 0, 0, 0] rfl (by decide)
    (by decide) (by decide) (by decide) (by decide) (by decide) (by decide) (by decide)
    (by decide) (by decide)⟩

/-- C6, the code at 25 bytes without '#' followed by "#15HELLO" (33 bytes into
the 33-byte receive buffer of an 8-byte destination): the first 25 bytes hold
no '#', yet the loop leaves `l = 25`, the test after it reads `in_buffer[25]`,
finds the marker there, and the block is decoded: 5 is returned and "HELLO"
is copied. -/
theorem receive_data_block_marker_at_25 :
    35 ∉ (bytes_of "xxxxxxxxxxxxxxxxxxxxxxxxx#15HELLO").take 25 ∧
    (lecroy_receive_data_block
        (device_delivering 33 (bytes_of "xxxxxxxxxxxxxxxxxxxxxxxxx#15HELLO")) zero_uninit
        [0, 0, 0, 0, 0, 0, 0, 0] 8 2000 fresh).1
      = .returned 5 (bytes_of "HELLO" ++ [0, 0, 0]) := by
  constructor <;> decide

/-- C7: for every received buffer whose first '#' is among the first 25 bytes
and is immediately followed by '0', `lecroy_receive_data_block` returns 0 (not
negative), prints nothing and leaves the destination unchanged. -/
theorem receive_data_block_no_data (dev : Device) (u : Uninit) (s : Session) (ret : Int)
    (len timeout : Nat) (preamble rest buffer : List Nat)
    (hrx : dev.raw s.calls.length = ⟨ret, preamble ++ 35 :: 48 :: rest⟩)
    (hret : 0 ≤ ret) (hpre : preamble.length < 25) (hno : 35 ∉ preamble)
    (hfit : (preamble ++ 35 :: 48 :: rest).length ≤ len + 25) :
    lecroy_receive_data_block dev u buffer len timeout s
      = (.returned 0 buffer, s.call (.receive_timeout (len + 25) timeout)) ∧
    ¬ ((0 : Int) < 0) := by
  refine ⟨?_, by decide⟩
  obtain ⟨g, hg, -⟩ := in_buffer_contents_of_fit (len + 25) _ u hfit
  have hshape : preamble ++ 35 :: 48 :: rest ++ g = preamble ++ 35 :: 48 :: (rest ++ g) := by simp
  have hscan := scan_marker_found preamble (48 :: (rest ++ g)) hno 25 0 (by omega)
  have hd1 := conv_d1_digit 48 (rest ++ g) (by omega) (by omega)
  unfold lecroy_receive_data_block vxi11_receive_timeout
  simp only [hrx]
  unfold decode_data_block
  simp only [hg, hshape]
  rw [if_neg (by omega), hscan]
  simp [sscanf_ndigits, hd1, print_nil]

/-- Witness for C7: the buffer "#0". -/
theorem receive_data_block_no_data_witness :
    lecroy_receive_data_block (device_delivering 2 (bytes_of "#0")) zero_uninit
        [7, 7, 7] 3 2000 fresh
      = (.returned 0 [7, 7, 7], fresh.call (.receive_timeout (3 + 25) 2000)) ∧
    ¬ ((0 : Int) < 0) :=
  receive_data_block_no_data (device_delivering 2 (bytes_of "#0")) zero_uninit fresh 2 3 2000
    [] [] [7, 7, 7] rfl (by decide) (by decide) (by decide) (by decide)

/-- C8, the code at "#15HELLO" with a 4-byte destination (`len = 4`): the
header declares N = 5 > len, and the `memcpy` is asked to write all 5 bytes
into the 4-byte destination; `len` is never compared with N. -/
theorem receive_data_block_overflows_destination :
    (lecroy_receive_data_block (device_delivering 8 (bytes_of "#15HELLO")) zero_uninit
        [0, 0, 0, 0] 4 2000 fresh).1
      = .fault (.write_past_destination 5 4) := by
  decide

/-- C9, the code at the received bytes "#x" (marker found, next byte not a
digit) with an 8-byte destination: whatever the uninitialised `ndigits`,
`returned_bytes` and buffer tail hold, the run never returns -3.  The first
`sscanf` assigns nothing, so the uninitialised `ndigits` decides: the run
returns 0, or it passes the uninitialised `returned_bytes` to `memcpy`. -/
theorem receive_data_block_bad_digit_count (u : Uninit) (b : List Nat) :
    (lecroy_receive_data_block (device_delivering 2 (bytes_of "#x")) u
        [0, 0, 0, 0, 0, 0, 0, 0] 8 2000 fresh).1 ≠ .returned (-3) b := by
  have hd : conv_d1 (120 :: (List.range 31).map (fun i => u.in_buffer (2 + i))) = .fail := by
    simp [conv_d1, skip_space, isspace, isdigit]
  have hin : in_buffer_contents (8 + 25) (bytes_of "#x") u
      = 35 :: 120 :: (List.range 31).map (fun i => u.in_buffer (2 + i)) := rfl
  unfold lecroy_receive_data_block vxi11_receive_timeout decode_data_block
  simp only [device_delivering, hin]
  rw [if_neg (by decide)]
  simp only [scan_marker, ne_eq, not_true_eq_false, if_false, List.drop_zero, List.head?_cons,
    sscanf_ndigits, sscanf_length, hd]
  by_cases hn : u.ndigits > 0
  · simp only [hn, if_true]
    unfold memcpy_and_return
    split
    · simp
    · split
      · simp
      · rename_i h1 h2
        simp only [List.length_cons, List.length_nil] at h2
        have hle : u.returned_bytes ≤ 8 := by omega
        have hmod : u.returned_bytes % 2 ^ 64 = u.returned_bytes :=
          Nat.mod_eq_of_lt (by omega)
        intro hcontra
        simp only [Outcome.returned.injEq] at hcontra
        have h3 := hcontra.1
        unfold to_long at h3
        rw [hmod, if_pos (by omega)] at h3
        omega
  · simp [hn]

/-! ### Polling loop lemmas -/

theorem testBit_or_of_replies (dev : Device) (n0 i : Nat) :
    ∀ k, (or_of_replies dev n0 k).testBit i = true ↔
      ∃ j, j < k ∧ (inr_reply dev n0 j).testBit i = true := by
  intro k
  induction k with
  | zero => simp [or_of_replies]
  | succ k ih =>
    simp only [or_of_replies, Nat.testBit_or, Bool.or_eq_true, ih]
    constructor
    · rintro (⟨j, hj, hb⟩ | hb)
      · exact ⟨j, by omega, hb⟩
      · exact ⟨k, by omega, hb⟩
    · rintro ⟨j, hj, hb⟩
      by_cases hjk : j < k
      · exact Or.inl ⟨j, hjk, hb⟩
      · have : j = k := by omega
        subst this
        exact Or.inr hb

theorem land_eq_mask_iff (x mask : Nat) :
    x &&& mask = mask ↔ ∀ i, mask.testBit i = true → x.testBit i = true := by
  constructor
  · intro h i hi
    have := congrArg (fun v => v.testBit i) h
    simp only [Nat.testBit_and, hi, Bool.and_true] at this
    exact this
  · intro h
    apply Nat.eq_of_testBit_eq
    intro i
    rw [Nat.testBit_and]
    cases hm : mask.testBit i with
    | false => simp
    | true => simp [h i hm]

theorem exists_covering_reply_count (dev : Device) (n0 mask : Nat)
    (h : ∀ i, mask.testBit i = true → ∃ j, (inr_reply dev n0 j).testBit i = true) :
    ∃ k, 1 ≤ k ∧ or_of_replies dev n0 k &&& mask = mask := by
  have step : ∀ B : Nat, ∃ k, 1 ≤ k ∧
      ∀ i, i < B → mask.testBit i = true → (or_of_replies dev n0 k).testBit i = true := by
    intro B
    induction B with
    | zero => exact ⟨1, le_refl 1, fun i hi => absurd hi (Nat.not_lt_zero i)⟩
    | succ B ih =>
      obtain ⟨k, hk1, hk⟩ := ih
      by_cases hB : mask.testBit B = true
      · obtain ⟨j, hj⟩ := h B hB
        refine ⟨max k (j + 1), le_trans hk1 (le_max_left _ _), ?_⟩
        intro i hi hm
        rw [testBit_or_of_replies]
        by_cases hiB : i < B
        · obtain ⟨j', hj', hb'⟩ := (testBit_or_of_replies dev n0 i k).1 (hk i hiB hm)
          exact ⟨j', lt_of_lt_of_le hj' (le_max_left _ _), hb'⟩
        · have : i = B := by omega
          subst this
          exact ⟨j, lt_of_lt_of_le (Nat.lt_succ_self j) (le_max_right _ _), hj⟩
      · refine ⟨k, hk1, ?_⟩
        intro i hi hm
        by_cases hiB : i < B
        · exact hk i hiB hm
        · have : i = B := by omega
          subst this
          exact absurd hm hB
  obtain ⟨k, hk1, hk⟩ := step mask
  refine ⟨k, hk1, (land_eq_mask_iff _ _).2 ?_⟩
  intro i hm
  by_cases hi : i < mask
  · exact hk i hi hm
  · have hlt : mask < 2 ^ i :=
      lt_of_lt_of_le (Nat.lt_two_pow mask) (Nat.pow_le_pow_right (by norm_num) (by omega))
    rw [Nat.testBit_lt_two_pow hlt] at hm
    exact absurd hm (by simp)

theorem poll_inr_converges (dev : Device) (timeout mask n0 k : Nat)
    (hk : or_of_replies dev n0 k &&& mask = mask) :
    ∀ (fuel j : Nat) (s : Session), s.calls.length = n0 + j → j < k → k ≤ j + fuel →
      (∀ k', j < k' → k' < k → or_of_replies dev n0 k' &&& mask ≠ mask) →
      poll_inr dev timeout mask fuel (or_of_replies dev n0 j) s
        = some (or_of_replies dev n0 k,
            ⟨s.calls ++ List.replicate (k - j) (.obtain_long_value_timeout "INR?" timeout),
              s.out⟩) := by
  intro fuel
  induction fuel with
  | zero => intro j s _ hjk hfuel _; omega
  | succ fuel ih =>
    intro j s hlen hjk hfuel hmin
    have hstep : or_of_replies dev n0 j ||| int_bits (dev.long s.calls.length)
        = or_of_replies dev n0 (j + 1) := by
      simp [or_of_replies, inr_reply, hlen]
    simp only [poll_inr, vxi11_obtain_long_value_timeout, hstep]
    by_cases hdone : or_of_replies dev n0 (j + 1) &&& mask = mask
    · have hkj : k = j + 1 := by
        by_contra hne
        exact hmin (j + 1) (by omega) (by omega) hdone
      subst hkj
      rw [if_pos hdone]
      simp [Session.call]
    · have hkj : j + 1 < k := by
        by_contra hne
        have : k = j + 1 := by omega
        subst this
        exact hdone hk
      rw [if_neg hdone, ih (j + 1) (s.call (.obtain_long_value_timeout "INR?" timeout))
        (by simp [Session.call, hlen]; omega) hkj (by omega)
        (fun k' h1 h2 => hmin k' (by omega) h2)]
      have hrep : k - j = (k - (j + 1)) + 1 := by omega
      simp only [Session.call, hrep, List.replicate_succ, List.append_assoc, List.singleton_append]

theorem poll_inr_still_running (dev : Device) (timeout mask n0 : Nat) :
    ∀ (fuel j : Nat) (s : Session), s.calls.length = n0 + j →
      (∀ k', j < k' → k' ≤ j + fuel → or_of_replies dev n0 k' &&& mask ≠ mask) →
      poll_inr dev timeout mask fuel (or_of_replies dev n0 j) s = none := by
  intro fuel
  induction fuel with
  | zero => intro j s _ _; rfl
  | succ fuel ih =>
    intro j s hlen hmin
    have hstep : or_of_replies dev n0 j ||| int_bits (dev.long s.calls.length)
        = or_of_replies dev n0 (j + 1) := by
      simp [or_of_replies, inr_reply, hlen]
    simp only [poll_inr, vxi11_obtain_long_value_timeout, hstep]
    rw [if_neg (hmin (j + 1) (by omega) (by omega)),
      ih (j + 1) (s.call (.obtain_long_value_timeout "INR?" timeout))
        (by simp [Session.call, hlen]; omega)
        (fun k' h1 h2 => hmin k' (by omega) (by omega))]

/-! ### Acquisition claims -/

/-- C10: let mask be the mask `lecroy_wait_all_averages` computes and let the
replies be those to its "INR?" polls.  If every bit of mask is set in at least
one reply, then there is a k >= 1, the least number of replies whose bitwise OR
contains mask, such that the function returns 0 after exactly k polls (given
fuel for k iterations; with less it is still polling), and the accumulator
then holds every bit that any of the k replies had set. -/
theorem wait_all_averages_converges (dev : Device) (timeout : Nat) (s : Session)
    (h : ∀ i, (wait_setup dev timeout s).1.testBit i = true →
      ∃ j, (inr_reply dev (wait_setup dev timeout s).2.calls.length j).testBit i = true) :
    ∃ k, 1 ≤ k ∧
      or_of_replies dev (wait_setup dev timeout s).2.calls.length k
          &&& (wait_setup dev timeout s).1 = (wait_setup dev timeout s).1 ∧
      (∀ k', 1 ≤ k' → k' < k →
        or_of_replies dev (wait_setup dev timeout s).2.calls.length k'
          &&& (wait_setup dev timeout s).1 ≠ (wait_setup dev timeout s).1) ∧
      (∀ fuel, k ≤ fuel →
        poll_inr dev timeout (wait_setup dev timeout s).1 fuel 0 (wait_setup dev timeout s).2
          = some (or_of_replies dev (wait_setup dev timeout s).2.calls.length k,
              ⟨(wait_setup dev timeout s).2.calls
                  ++ List.replicate k (.obtain_long_value_timeout "INR?" timeout),
                (wait_setup dev timeout s).2.out⟩) ∧
        lecroy_wait_all_averages dev fuel timeout s
          = some (0, ⟨(wait_setup dev timeout s).2.calls
                  ++ List.replicate k (.obtain_long_value_timeout "INR?" timeout),
                (wait_setup dev timeout s).2.out⟩)) ∧
      (∀ fuel, fuel < k → lecroy_wait_all_averages dev fuel timeout s = none) ∧
      (∀ j i, j < k →
        (inr_reply dev (wait_setup dev timeout s).2.calls.length j).testBit i = true →
        (or_of_replies dev (wait_setup dev timeout s).2.calls.length k).testBit i = true) := by
  generalize hmask : (wait_setup dev timeout s).1 = mask at h ⊢
  generalize hs1 : (wait_setup dev timeout s).2 = s1 at h ⊢
  have hex := exists_covering_reply_count dev s1.calls.length mask h
  let k := Nat.find hex
  have hk : 1 ≤ k ∧ or_of_replies dev s1.calls.length k &&& mask = mask := Nat.find_spec hex
  have hmin : ∀ k', 1 ≤ k' → k' < k → or_of_replies dev s1.calls.length k' &&& mask ≠ mask := by
    intro k' h1 h2 hc
    exact Nat.find_min hex h2 ⟨h1, hc⟩
  have hrun : ∀ fuel, k ≤ fuel →
      poll_inr dev timeout mask fuel 0 s1
        = some (or_of_replies dev s1.calls.length k,
            ⟨s1.calls ++ List.replicate k (.obtain_long_value_timeout "INR?" timeout),
              s1.out⟩) := by
    intro fuel hf
    have := poll_inr_converges dev timeout mask s1.calls.length k hk.2 fuel 0 s1 rfl
      (by omega) (by omega) (fun k' h1 h2 => hmin k' (by omega) h2)
    simpa [or_of_replies] using this
  refine ⟨k, hk.1, hk.2, hmin, ?_, ?_, ?_⟩
  · intro fuel hf
    refine ⟨hrun fuel hf, ?_⟩
    simp only [lecroy_wait_all_averages, hmask, hs1, hrun fuel hf]
  · intro fuel hf
    have := poll_inr_still_running dev timeout mask s1.calls.length fuel 0 s1 rfl
      (fun k' h1 h2 => hmin k' (by omega) (by omega))
    simp only [or_of_replies] at this
    simp only [lecroy_wait_all_averages, hmask, hs1, this]
  · intro j i hj hb
    exact (testBit_or_of_replies dev s1.calls.length i k).2 ⟨j, hj, hb⟩

/-- Witness for C10: F1 displayed and averaging (mask 256), the first poll
replies 0 and the second 256, so the loop ends after exactly two polls. -/
theorem wait_all_averages_converges_witness :
    (wait_setup demo_device 2000 cleared).1 = 256 ∧
    lecroy_wait_all_averages demo_device 2 2000 cleared
      = some (0, ⟨(wait_setup demo_device 2000 cleared).2.calls
          ++ List.replicate 2 (.obtain_long_value_timeout "INR?" 2000),
          (wait_setup demo_device 2000 cleared).2.out⟩) ∧
    ∃ k, 1 ≤ k ∧
      or_of_replies demo_device (wait_setup demo_device 2000 cleared).2.calls.length k
          &&& (wait_setup demo_device 2000 cleared).1 = (wait_setup demo_device 2000 cleared).1 ∧
      (∀ k', 1 ≤ k' → k' < k →
        or_of_replies demo_device (wait_setup demo_device 2000 cleared).2.calls.length k'
          &&& (wait_setup demo_device 2000 cleared).1
            ≠ (wait_setup demo_device 2000 cleared).1) ∧
      (∀ fuel, k ≤ fuel →
        poll_inr demo_device 2000 (wait_setup demo_device 2000 cleared).1 fuel 0
            (wait_setup demo_device 2000 cleared).2
          = some (or_of_replies demo_device (wait_setup demo_device 2000 cleared).2.calls.length k,
              ⟨(wait_setup demo_device 2000 cleared).2.calls
                  ++ List.replicate k (.obtain_long_value_timeout "INR?" 2000),
                (wait_setup demo_device 2000 cleared).2.out⟩) ∧
        lecroy_wait_all_averages demo_device fuel 2000 cleared
          = some (0, ⟨(wait_setup demo_device 2000 cleared).2.calls
                  ++ List.replicate k (.obtain_long_value_timeout "INR?" 2000),
                (wait_setup demo_device 2000 cleared).2.out⟩)) ∧
      (∀ fuel, fuel < k → lecroy_wait_all_averages demo_device fuel 2000 cleared = none) ∧
      (∀ j i, j < k →
        (inr_reply demo_device (wait_setup demo_device 2000 cleared).2.calls.length j).testBit i
          = true →
        (or_of_replies demo_device (wait_setup demo_device 2000 cleared).2.calls.length k).testBit i
          = true) := by
  refine ⟨by decide, by decide, wait_all_averages_converges demo_device 2000 cleared ?_⟩
  have hm : (wait_setup demo_device 2000 cleared).1 = 2 ^ 8 := by decide
  have hn : (wait_setup demo_device 2000 cleared).2.calls.length = 7 := by decide
  intro i hi
  rw [hm, Nat.testBit_two_pow] at hi
  have hi8 : 8 = i := by simpa using hi
  subst hi8
  rw [hn]
  exact ⟨1, by decide⟩

theorem wait_setup_session (dev : Device) (timeout : Nat) (s : Session) :
    (wait_setup dev timeout s).2
      = ⟨s.calls ++ [.send_and_receive "F1:TRACE?" 256 timeout,
            .send_and_receive "F2:TRACE?" 256 timeout,
            .send_and_receive "F3:TRACE?" 256 timeout,
            .send_and_receive "F4:TRACE?" 256 timeout]
          ++ def_query_calls dev timeout s.calls.length, s.out⟩ := by
  have t1 : "F" ++ toString (0 + 1) ++ ":TRACE?" = "F1:TRACE?" := by decide
  have t2 : "F" ++ toString (1 + 1) ++ ":TRACE?" = "F2:TRACE?" := by decide
  have t3 : "F" ++ toString (2 + 1) ++ ":TRACE?" = "F3:TRACE?" := by decide
  have t4 : "F" ++ toString (3 + 1) ++ ":TRACE?" = "F4:TRACE?" := by decide
  have d1 : "F" ++ toString (0 + 1) ++ ":DEF?" = "F1:DEF?" := by decide
  have d2 : "F" ++ toString (1 + 1) ++ ":DEF?" = "F2:DEF?" := by decide
  have d3 : "F" ++ toString (2 + 1) ++ ":DEF?" = "F3:DEF?" := by decide
  have d4 : "F" ++ toString (3 + 1) ++ ":DEF?" = "F4:DEF?" := by decide
  simp only [wait_setup, trace_queries, vxi11_send_and_receive, Session.call, t1, t2, t3, t4,
    List.zip_cons_cons, List.zip_nil_right, def_query_calls, displayed, List.length_append,
    List.length_cons, List.length_nil, Nat.add_zero]
  have e1 : s.calls.length + (0 + 1) = s.calls.length + 1 := rfl
  have e2 : s.calls.length + (0 + 1) + (0 + 1) = s.calls.length + 2 := rfl
  have e3 : s.calls.length + (0 + 1) + (0 + 1) + (0 + 1) = s.calls.length + 3 := rfl
  simp only [e1, e2, e3]
  obtain ⟨b0, hb0⟩ : ∃ b, strstr (dev.text s.calls.length).text.toList "ON".toList = b :=
    ⟨_, rfl⟩
  obtain ⟨b1, hb1⟩ : ∃ b, strstr (dev.text (s.calls.length + 1)).text.toList "ON".toList = b :=
    ⟨_, rfl⟩
  obtain ⟨b2, hb2⟩ : ∃ b, strstr (dev.text (s.calls.length + 2)).text.toList "ON".toList = b :=
    ⟨_, rfl⟩
  obtain ⟨b3, hb3⟩ : ∃ b, strstr (dev.text (s.calls.length + 3)).text.toList "ON".toList = b :=
    ⟨_, rfl⟩
  simp only [hb0, hb1, hb2, hb3]
  cases b0 <;> cases b1 <;> cases b2 <;> cases b3 <;>
  simp [def_queries, vxi11_send_and_receive, Session.call, d1, d2, d3, d4]

theorem poll_inr_session (dev : Device) (timeout mask : Nat) :
    ∀ (fuel old_inr : Nat) (s : Session) (p : Nat × Session),
      poll_inr dev timeout mask fuel old_inr s = some p →
      ∃ k, 1 ≤ k ∧ k ≤ fuel ∧
        p.2 = ⟨s.calls ++ List.replicate k (.obtain_long_value_timeout "INR?" timeout), s.out⟩ := by
  intro fuel
  induction fuel with
  | zero => intro old_inr s p h; simp [poll_inr] at h
  | succ fuel ih =>
    intro old_inr s p h
    simp only [poll_inr, vxi11_obtain_long_value_timeout] at h
    split at h
    · simp only [Option.some.injEq] at h
      subst h
      exact ⟨1, le_refl 1, by omega, by simp [Session.call]⟩
    · obtain ⟨k, hk1, hk2, hk⟩ := ih _ _ p h
      refine ⟨k + 1, by omega, by omega, ?_⟩
      rw [hk]
      simp only [Session.call, List.replicate_succ, List.append_assoc, List.singleton_append]

/-- C18: for every character, `lecroy_is_maths_chan` returns 1 exactly when the
character is none of '1', '2', '3', '4', and returns 0 exactly when it is one
of them. -/
theorem is_maths_chan_iff (c : Char) :
    (lecroy_is_maths_chan c = 1 ↔ ¬ (c = '1' ∨ c = '2' ∨ c = '3' ∨ c = '4')) ∧
    (lecroy_is_maths_chan c = 0 ↔ (c = '1' ∨ c = '2' ∨ c = '3' ∨ c = '4')) := by
  unfold lecroy_is_maths_chan
  by_cases h : c = '1' ∨ c = '2' ∨ c = '3' ∨ c = '4'
  · simp [h]
  · simp [h]

/-- C19: for each of E..H and e..h, `lecroy_relate_function_to_source` returns
'1' and prints exactly one line, the no-associated-channel warning; for every
character outside '1'..'4', A..H, a..h it returns '1' and prints exactly one
line, the unknown-channel warning. -/
theorem relate_function_to_source_fallback (chan : Char) :
    (chan ∈ "EFGHefgh".toList →
      lecroy_relate_function_to_source chan = ('1', [no_associated_channel_msg]) ∧
      (lecroy_relate_function_to_source chan).2.length = 1) ∧
    (chan ∉ "1234ABCDEFGHabcdefgh".toList →
      lecroy_relate_function_to_source chan = ('1', [unknown_channel_msg chan]) ∧
      (lecroy_relate_function_to_source chan).2.length = 1) := by
  constructor
  · intro h
    have key : lecroy_relate_function_to_source chan = ('1', [no_associated_channel_msg]) := by
      simp only [String.toList, List.mem_cons, List.mem_singleton, List.not_mem_nil,
        or_false] at h
      rcases h with rfl | rfl | rfl | rfl | rfl | rfl | rfl | rfl <;> rfl
    rw [key]
    exact ⟨rfl, rfl⟩
  · intro h
    have key : lecroy_relate_function_to_source chan = ('1', [unknown_channel_msg chan]) := by
      unfold lecroy_relate_function_to_source
      split <;> first | rfl | (exfalso; revert h; decide)
    rw [key]
    exact ⟨rfl, rfl⟩

/-- Witness for C19 at 'E' (a math slot without counterpart) and at 'z' (an
unknown token). -/
theorem relate_function_to_source_fallback_witness :
    (lecroy_relate_function_to_source 'E' = ('1', [no_associated_channel_msg]) ∧
      (lecroy_relate_function_to_source 'E').2.length = 1) ∧
    (lecroy_relate_function_to_source 'z' = ('1', [unknown_channel_msg 'z']) ∧
      (lecroy_relate_function_to_source 'z').2.length = 1) :=
  ⟨(relate_function_to_source_fallback 'E').1 (by decide),
   (relate_function_to_source_fallback 'z').2 (by decide)⟩

/-! ### Averaging set-up lemmas -/

theorem ne_of_head_ne (a b : String) (h : a.data.head? ≠ b.data.head?) : a ≠ b := by
  intro hab; exact h (by rw [hab])

theorem head_append (a b : String) (c : Char) (h : a.data.head? = some c) :
    (a ++ b).data.head? = some c := by
  rw [String.data_append]
  cases hd : a.data with
  | nil => rw [hd] at h; simp at h
  | cons x xs => rw [hd] at h; simpa using h

theorem append_left_ne (m a b : String) (h : a ≠ b) : m ++ a ≠ m ++ b := by
  intro hab
  apply h
  have := congrArg String.data hab
  rw [String.data_append, String.data_append] at this
  exact String.ext (List.append_cancel_left this)

theorem display_after_def_trace (prior : String → Bool) (m src t c : String)
    (hm : m.data.head? = some 'F') (hc : c.data.head? = some 'C') :
    display_after prior
      [.send_str (m ++ ":DEF EQN, 'AVG(" ++ src ++ ")',AVERAGETYPE,SUMMED,SWEEPS," ++ t ++ " SWEEP"),
       .send_str (m ++ ":TRACE ON")] m = true ∧
    display_after prior
      [.send_str (m ++ ":DEF EQN, 'AVG(" ++ src ++ ")',AVERAGETYPE,SUMMED,SWEEPS," ++ t ++ " SWEEP"),
       .send_str (m ++ ":TRACE ON")] c = prior c := by
  have hF : ∀ x : String, (m ++ x).data.head? = some 'F' := fun x => head_append m x 'F' hm
  have hC : ∀ x : String, (c ++ x).data.head? = some 'C' := fun x => head_append c x 'C' hc
  have hd : (m ++ ":DEF EQN, 'AVG(" ++ src ++ ")',AVERAGETYPE,SUMMED,SWEEPS," ++ t ++ " SWEEP").data.head?
      = some 'F' := by
    repeat (apply head_append)
    exact hm
  have n1 : m ++ ":DEF EQN, 'AVG(" ++ src ++ ")',AVERAGETYPE,SUMMED,SWEEPS," ++ t ++ " SWEEP"
      ≠ c ++ ":TRACE ON" := ne_of_head_ne _ _ (by rw [hd, hC]; decide)
  have n2 : m ++ ":DEF EQN, 'AVG(" ++ src ++ ")',AVERAGETYPE,SUMMED,SWEEPS," ++ t ++ " SWEEP"
      ≠ c ++ ":TRACE OFF" := ne_of_head_ne _ _ (by rw [hd, hC]; decide)
  have n3 : m ++ ":TRACE ON" ≠ c ++ ":TRACE ON" := ne_of_head_ne _ _ (by rw [hF, hC]; decide)
  have n4 : m ++ ":TRACE ON" ≠ c ++ ":TRACE OFF" := ne_of_head_ne _ _ (by rw [hF, hC]; decide)
  constructor
  · simp [display_after]
  · simp [display_after, n1, n2, n3, n4]

theorem display_after_off_on (prior : String → Bool) (m c : String)
    (hm : m.data.head? = some 'F') (hc : c.data.head? = some 'C') :
    display_after prior [.send_str (m ++ ":TRACE OFF"), .send_str (c ++ ":TRACE ON")] m = false ∧
    display_after prior [.send_str (m ++ ":TRACE OFF"), .send_str (c ++ ":TRACE ON")] c = true := by
  have hF : ∀ x : String, (m ++ x).data.head? = some 'F' := fun x => head_append m x 'F' hm
  have hC : ∀ x : String, (c ++ x).data.head? = some 'C' := fun x => head_append c x 'C' hc
  have n1 : c ++ ":TRACE ON" ≠ m ++ ":TRACE ON" := ne_of_head_ne _ _ (by rw [hF, hC]; decide)
  have n2 : c ++ ":TRACE ON" ≠ m ++ ":TRACE OFF" := ne_of_head_ne _ _ (by rw [hF, hC]; decide)
  have n3 : m ++ ":TRACE OFF" ≠ m ++ ":TRACE ON" := append_left_ne m _ _ (by decide)
  constructor
  · simp [display_after, n1, n2, n3]
  · simp [display_after]

theorem toString_slots :
    toString (1 : Nat) = "1" ∧ toString (2 : Nat) = "2" ∧ toString (3 : Nat) = "3" ∧
    toString (4 : Nat) = "4" := by decide

theorem head_math_source (k : Nat) : ("F" ++ toString k).data.head? = some 'F' :=
  head_append "F" (toString k) 'F' rfl

theorem head_acq_source (k : Nat) : ("C" ++ toString k).data.head? = some 'C' :=
  head_append "C" (toString k) 'C' rfl

theorem paired_token_facts (chan : Char) (h : chan ∈ paired_tokens) :
    (if lecroy_is_maths_chan chan = 0 then (lecroy_relate_function_to_source chan).1 else chan)
      = Char.ofNat (64 + slot chan) ∧
    (if lecroy_is_maths_chan chan = 0 then chan else (lecroy_relate_function_to_source chan).1)
      = Char.ofNat (48 + slot chan) ∧
    (lecroy_relate_function_to_source chan).2 = [] ∧
    lecroy_scope_channel_str (Char.ofNat (64 + slot chan)) = ("F" ++ toString (slot chan), []) ∧
    lecroy_scope_channel_str (Char.ofNat (48 + slot chan)) = ("C" ++ toString (slot chan), []) := by
  simp only [paired_tokens, List.mem_cons, List.mem_singleton, List.not_mem_nil, or_false] at h
  rcases h with rfl | rfl | rfl | rfl | rfl | rfl | rfl | rfl <;> decide

/-- The call trace and return value of `lecroy_set_averages` with a count above
1 on a token of the first four pairs. -/
theorem set_averages_on_trace (dev : Device) (chan : Char) (count : Int) (s : Session)
    (hchan : chan ∈ paired_tokens) (hcount : 1 < count) :
    lecroy_set_averages dev chan count s
      = (Char.ofNat (64 + slot chan),
          ⟨s.calls ++
            [.send_str ("F" ++ toString (slot chan) ++ ":DEF EQN, 'AVG(" ++ ("C" ++ toString (slot chan))
                ++ ")',AVERAGETYPE,SUMMED,SWEEPS," ++ toString count ++ " SWEEP"),
             .send_str ("F" ++ toString (slot chan) ++ ":TRACE ON")], s.out⟩) := by
  have hc : count > 1 := hcount
  obtain ⟨f1, f2, f3, f4, f5⟩ := paired_token_facts chan hchan
  simp only [lecroy_set_averages, lecroy_display_channel, vxi11_send_str, Session.call,
    Session.print, hc, if_true, f1, f2, f3, f4, f5, List.append_nil, List.append_assoc,
    List.singleton_append]
  simp

/-- The call trace and return value of `lecroy_set_averages` with a count of at
most 1 on a token of the first four pairs. -/
theorem set_averages_off_trace (dev : Device) (chan : Char) (count : Int) (s : Session)
    (hchan : chan ∈ paired_tokens) (hcount : count ≤ 1) :
    lecroy_set_averages dev chan count s
      = (Char.ofNat (48 + slot chan),
          ⟨s.calls ++
            [.send_str ("F" ++ toString (slot chan) ++ ":TRACE OFF"),
             .send_str ("C" ++ toString (slot chan) ++ ":TRACE ON")], s.out⟩) := by
  have hc : ¬ count > 1 := not_lt.mpr hcount
  obtain ⟨f1, f2, f3, f4, f5⟩ := paired_token_facts chan hchan
  simp only [lecroy_set_averages, lecroy_display_channel, vxi11_send_str, Session.call,
    Session.print, hc, if_false, f1, f2, f3, f4, f5, List.append_nil, List.append_assoc,
    List.singleton_append]
  simp

/-! ### Averaging set-up claims -/

/-- C15 as stated fails: `lecroy_set_averages('1', 1000)` sends the definition
command and "F1:TRACE ON" and nothing else; no "C1:TRACE OFF" is sent, so an
acquisition channel that was displayed stays displayed. -/
theorem set_averages_on_keeps_acquisition_display :
    (lecroy_set_averages demo_device '1' 1000 fresh).2.calls
      = [.send_str "F1:DEF EQN, 'AVG(C1)',AVERAGETYPE,SUMMED,SWEEPS,1000 SWEEP",
         .send_str "F1:TRACE ON"] ∧
    Call.send_str "C1:TRACE OFF" ∉ (lecroy_set_averages demo_device '1' 1000 fresh).2.calls ∧
    display_after (fun _ => true) (lecroy_set_averages demo_device '1' 1000 fresh).2.calls "C1"
      = true := by
  decide

/-- C15 amended: for every token in '1'..'4' or 'A'..'D' (slot k) and every
count > 1, `lecroy_set_averages` sends exactly two commands,
"F<k>:DEF EQN, 'AVG(C<k>)',AVERAGETYPE,SUMMED,SWEEPS,<count> SWEEP" and
"F<k>:TRACE ON", prints nothing and returns the math token; afterwards the
math channel is displayed and the display of the acquisition channel is what
it was before. -/
theorem set_averages_on (dev : Device) (chan : Char) (count : Int) (s : Session)
    (prior : String → Bool) (hchan : chan ∈ paired_tokens) (hcount : 1 < count) :
    lecroy_set_averages dev chan count s
      = (Char.ofNat (64 + slot chan),
          ⟨s.calls ++
            [.send_str ("F" ++ toString (slot chan) ++ ":DEF EQN, 'AVG(" ++ ("C" ++ toString (slot chan))
                ++ ")',AVERAGETYPE,SUMMED,SWEEPS," ++ toString count ++ " SWEEP"),
             .send_str ("F" ++ toString (slot chan) ++ ":TRACE ON")], s.out⟩) ∧
    display_after prior
      [.send_str ("F" ++ toString (slot chan) ++ ":DEF EQN, 'AVG(" ++ ("C" ++ toString (slot chan))
          ++ ")',AVERAGETYPE,SUMMED,SWEEPS," ++ toString count ++ " SWEEP"),
       .send_str ("F" ++ toString (slot chan) ++ ":TRACE ON")]
      ("F" ++ toString (slot chan)) = true ∧
    display_after prior
      [.send_str ("F" ++ toString (slot chan) ++ ":DEF EQN, 'AVG(" ++ ("C" ++ toString (slot chan))
          ++ ")',AVERAGETYPE,SUMMED,SWEEPS," ++ toString count ++ " SWEEP"),
       .send_str ("F" ++ toString (slot chan) ++ ":TRACE ON")]
      ("C" ++ toString (slot chan)) = prior ("C" ++ toString (slot chan)) :=
  ⟨set_averages_on_trace dev chan count s hchan hcount,
   display_after_def_trace prior ("F" ++ toString (slot chan)) ("C" ++ toString (slot chan))
     (toString count) ("C" ++ toString (slot chan)) (head_math_source _) (head_acq_source _)⟩

/-- Witness for C15 amended: token 'C' with 16 sweeps, C3 hidden before. -/
theorem set_averages_on_witness :
    lecroy_set_averages demo_device 'C' 16 fresh
      = (Char.ofNat (64 + slot 'C'),
          ⟨fresh.calls ++
            [.send_str ("F" ++ toString (slot 'C') ++ ":DEF EQN, 'AVG(" ++ ("C" ++ toString (slot 'C'))
                ++ ")',AVERAGETYPE,SUMMED,SWEEPS," ++ toString (16 : Int) ++ " SWEEP"),
             .send_str ("F" ++ toString (slot 'C') ++ ":TRACE ON")], fresh.out⟩) ∧
    display_after (fun _ => false)
      [.send_str ("F" ++ toString (slot 'C') ++ ":DEF EQN, 'AVG(" ++ ("C" ++ toString (slot 'C'))
          ++ ")',AVERAGETYPE,SUMMED,SWEEPS," ++ toString (16 : Int) ++ " SWEEP"),
       .send_str ("F" ++ toString (slot 'C') ++ ":TRACE ON")]
      ("F" ++ toString (slot 'C')) = true ∧
    display_after (fun _ => false)
      [.send_str ("F" ++ toString (slot 'C') ++ ":DEF EQN, 'AVG(" ++ ("C" ++ toString (slot 'C'))
          ++ ")',AVERAGETYPE,SUMMED,SWEEPS," ++ toString (16 : Int) ++ " SWEEP"),
       .send_str ("F" ++ toString (slot 'C') ++ ":TRACE ON")]
      ("C" ++ toString (slot 'C')) = (fun _ => false) ("C" ++ toString (slot 'C')) :=
  set_averages_on demo_device 'C' 16 fresh (fun _ => false) (by decide) (by decide)

/-- C16: for every token in '1'..'4' or 'A'..'D' (slot k), every count <= 1 and
every prior display state, `lecroy_set_averages` sends exactly "F<k>:TRACE OFF"
and "C<k>:TRACE ON" (no definition command), prints nothing and returns the
acquisition token, so F<k> ends hidden and C<k> displayed.  In particular
set_averages('1', 1000) followed by set_averages('1', 0) ends with F1 hidden
and C1 displayed. -/
theorem set_averages_off (dev : Device) (chan : Char) (count : Int) (s : Session)
    (prior : String → Bool) :
    (chan ∈ paired_tokens → count ≤ 1 →
      lecroy_set_averages dev chan count s
        = (Char.ofNat (48 + slot chan),
            ⟨s.calls ++
              [.send_str ("F" ++ toString (slot chan) ++ ":TRACE OFF"),
               .send_str ("C" ++ toString (slot chan) ++ ":TRACE ON")], s.out⟩) ∧
      display_after prior
        [.send_str ("F" ++ toString (slot chan) ++ ":TRACE OFF"),
         .send_str ("C" ++ toString (slot chan) ++ ":TRACE ON")]
        ("F" ++ toString (slot chan)) = false ∧
      display_after prior
        [.send_str ("F" ++ toString (slot chan) ++ ":TRACE OFF"),
         .send_str ("C" ++ toString (slot chan) ++ ":TRACE ON")]
        ("C" ++ toString (slot chan)) = true) ∧
    (lecroy_set_averages dev '1' 0 (lecroy_set_averages dev '1' 1000 s).2
        = ('1', ⟨s.calls ++
            [.send_str "F1:DEF EQN, 'AVG(C1)',AVERAGETYPE,SUMMED,SWEEPS,1000 SWEEP",
             .send_str "F1:TRACE ON", .send_str "F1:TRACE OFF", .send_str "C1:TRACE ON"],
            s.out⟩) ∧
      display_after prior
        [.send_str "F1:DEF EQN, 'AVG(C1)',AVERAGETYPE,SUMMED,SWEEPS,1000 SWEEP",
         .send_str "F1:TRACE ON", .send_str "F1:TRACE OFF", .send_str "C1:TRACE ON"] "F1"
        = false ∧
      display_after prior
        [.send_str "F1:DEF EQN, 'AVG(C1)',AVERAGETYPE,SUMMED,SWEEPS,1000 SWEEP",
         .send_str "F1:TRACE ON", .send_str "F1:TRACE OFF", .send_str "C1:TRACE ON"] "C1"
        = true) := by
  refine ⟨fun hchan hcount => ⟨set_averages_off_trace dev chan count s hchan hcount,
    display_after_off_on prior _ _ (head_math_source _) (head_acq_source _)⟩, ?_, ?_, ?_⟩
  · rw [set_averages_on_trace dev '1' 1000 s (by decide) (by decide),
      set_averages_off_trace dev '1' 0 _ (by decide) (by decide)]
    have e1 : slot '1' = 1 := by decide
    have e2 : toString (1 : Nat) = "1" := by decide
    have e3 : toString (1000 : Int) = "1000" := by decide
    have e4 : Char.ofNat (48 + 1) = '1' := by decide
    simp [e1, e2, e3, e4]
  · simp [display_after]
  · simp [display_after]

/-- Witness for C16: token 'B' with count 1. -/
theorem set_averages_off_witness :
    lecroy_set_averages demo_device 'B' 1 fresh
      = (Char.ofNat (48 + slot 'B'),
          ⟨fresh.calls ++
            [.send_str ("F" ++ toString (slot 'B') ++ ":TRACE OFF"),
             .send_str ("C" ++ toString (slot 'B') ++ ":TRACE ON")], fresh.out⟩) ∧
    display_after (fun _ => true)
      [.send_str ("F" ++ toString (slot 'B') ++ ":TRACE OFF"),
       .send_str ("C" ++ toString (slot 'B') ++ ":TRACE ON")]
      ("F" ++ toString (slot 'B')) = false ∧
    display_after (fun _ => true)
      [.send_str ("F" ++ toString (slot 'B') ++ ":TRACE OFF"),
       .send_str ("C" ++ toString (slot 'B') ++ ":TRACE ON")]
      ("C" ++ toString (slot 'B')) = true :=
  (set_averages_off demo_device 'B' 1 fresh (fun _ => true)).1 (by decide) (by decide)

/-- C17: for every k in 1..4 and every count, `lecroy_set_averages` called with
the acquisition token and called with the paired math token give the same
returned token and the same session: the same commands in the same order and
the same printed lines. -/
theorem set_averages_coupling (dev : Device) (count : Int) (s : Session) (k : Fin 4) :
    lecroy_set_averages dev (Char.ofNat (49 + k.val)) count s
      = lecroy_set_averages dev (Char.ofNat (65 + k.val)) count s := by
  have hrel : ∀ k : Fin 4,
      (if lecroy_is_maths_chan (Char.ofNat (49 + k.val)) = 0
        then (lecroy_relate_function_to_source (Char.ofNat (49 + k.val))).1
        else Char.ofNat (49 + k.val))
      = (if lecroy_is_maths_chan (Char.ofNat (65 + k.val)) = 0
        then (lecroy_relate_function_to_source (Char.ofNat (65 + k.val))).1
        else Char.ofNat (65 + k.val)) ∧
      (if lecroy_is_maths_chan (Char.ofNat (49 + k.val)) = 0 then Char.ofNat (49 + k.val)
        else (lecroy_relate_function_to_source (Char.ofNat (49 + k.val))).1)
      = (if lecroy_is_maths_chan (Char.ofNat (65 + k.val)) = 0 then Char.ofNat (65 + k.val)
        else (lecroy_relate_function_to_source (Char.ofNat (65 + k.val))).1) ∧
      (lecroy_relate_function_to_source (Char.ofNat (49 + k.val))).2
      = (lecroy_relate_function_to_source (Char.ofNat (65 + k.val))).2 := by decide
  obtain ⟨h1, h2, h3⟩ := hrel k
  simp only [lecroy_set_averages, h1, h2, h3]

/-! ### Polling loop claims, continued -/

theorem poll_inr_result (dev : Device) (timeout mask n0 : Nat) :
    ∀ (fuel j : Nat) (s : Session) (p : Nat × Session), s.calls.length = n0 + j →
      poll_inr dev timeout mask fuel (or_of_replies dev n0 j) s = some p →
      ∃ k, j < k ∧ k ≤ j + fuel ∧
        p = (or_of_replies dev n0 k,
          ⟨s.calls ++ List.replicate (k - j) (.obtain_long_value_timeout "INR?" timeout), s.out⟩) ∧
        or_of_replies dev n0 k &&& mask = mask ∧
        ∀ k', j < k' → k' < k → or_of_replies dev n0 k' &&& mask ≠ mask := by
  intro fuel
  induction fuel with
  | zero => intro j s p _ h; simp [poll_inr] at h
  | succ fuel ih =>
    intro j s p hlen h
    have hstep : or_of_replies dev n0 j ||| int_bits (dev.long s.calls.length)
        = or_of_replies dev n0 (j + 1) := by
      simp [or_of_replies, inr_reply, hlen]
    simp only [poll_inr, vxi11_obtain_long_value_timeout, hstep] at h
    by_cases hdone : or_of_replies dev n0 (j + 1) &&& mask = mask
    · rw [if_pos hdone] at h
      simp only [Option.some.injEq] at h
      refine ⟨j + 1, by omega, by omega, ?_, hdone, fun k' h1 h2 => by omega⟩
      rw [← h]
      simp [Session.call]
    · rw [if_neg hdone] at h
      obtain ⟨k, hk1, hk2, hp, hcov, hmin⟩ :=
        ih (j + 1) (s.call (.obtain_long_value_timeout "INR?" timeout)) p
          (by simp [Session.call, hlen]; omega) h
      refine ⟨k, by omega, by omega, ?_, hcov, ?_⟩
      · rw [hp]
        have hrep : k - j = (k - (j + 1)) + 1 := by omega
        simp only [Session.call, hrep, List.replicate_succ, List.append_assoc,
          List.singleton_append]
      · intro k' h1 h2
        by_cases hk' : k' = j + 1
        · subst hk'; exact hdone
        · exact hmin k' (by omega) h2

theorem or_of_replies_stuck (n0 : Nat) : ∀ k, or_of_replies stuck_device n0 k = 0 := by
  intro k
  induction k with
  | zero => rfl
  | succ k ih =>
    have h0 : inr_reply stuck_device n0 k = 0 := by
      simp only [inr_reply, stuck_device]
      decide
    simp only [or_of_replies, ih, h0]
    rfl

/-- C11 as stated fails: no run of `lecroy_wait_all_averages`, whatever the
transport hands back, returns anything but 0, so no failure result exists; and
on an instrument whose polls never report completion (each poll handing back
0) the function is still polling after any number of polls. -/
theorem wait_all_averages_no_failure_result :
    (¬ ∃ (dev : Device) (fuel timeout : Nat) (s : Session) (r : Int × Session),
      lecroy_wait_all_averages dev fuel timeout s = some r ∧ r.1 ≠ 0) ∧
    (wait_setup stuck_device 2000 fresh).1 = 256 ∧
    (∀ fuel, lecroy_wait_all_averages stuck_device fuel 2000 fresh = none) := by
  refine ⟨?_, by decide, ?_⟩
  · rintro ⟨dev, fuel, timeout, s, r, h, hr⟩
    simp only [lecroy_wait_all_averages] at h
    split at h
    · exact absurd h (by simp)
    · simp only [Option.some.injEq] at h
      exact hr (by rw [← h])
  · intro fuel
    have hm : (wait_setup stuck_device 2000 fresh).1 = 256 := by decide
    have hrun := poll_inr_still_running stuck_device 2000 256
      (wait_setup stuck_device 2000 fresh).2.calls.length fuel 0
      (wait_setup stuck_device 2000 fresh).2 rfl
      (fun k' _ _ => by rw [or_of_replies_stuck]; decide)
    simp only [or_of_replies] at hrun
    simp only [lecroy_wait_all_averages, hm, hrun]

/-- C11 amended: `lecroy_wait_all_averages` has no failure result.  Whenever it
returns, it returns 0, it has polled "INR?" k >= 1 times, the OR of the k
values the polls handed back contains the mask, and the OR of any fewer did
not: a poll that leaves a mask bit unset, for whatever reason, is always
followed by another poll. -/
theorem wait_all_averages_returns_only_zero (dev : Device) (fuel timeout : Nat) (s : Session)
    (r : Int × Session) (h : lecroy_wait_all_averages dev fuel timeout s = some r) :
    r.1 = 0 ∧
    ∃ k, 1 ≤ k ∧ k ≤ fuel ∧
      r.2 = ⟨(wait_setup dev timeout s).2.calls
          ++ List.replicate k (.obtain_long_value_timeout "INR?" timeout),
        (wait_setup dev timeout s).2.out⟩ ∧
      or_of_replies dev (wait_setup dev timeout s).2.calls.length k
          &&& (wait_setup dev timeout s).1 = (wait_setup dev timeout s).1 ∧
      ∀ k', 1 ≤ k' → k' < k →
        or_of_replies dev (wait_setup dev timeout s).2.calls.length k'
          &&& (wait_setup dev timeout s).1 ≠ (wait_setup dev timeout s).1 := by
  simp only [lecroy_wait_all_averages] at h
  split at h
  · exact absurd h (by simp)
  · rename_i p hp
    simp only [Option.some.injEq] at h
    have hp' : poll_inr dev timeout (wait_setup dev timeout s).1 fuel
        (or_of_replies dev (wait_setup dev timeout s).2.calls.length 0)
        (wait_setup dev timeout s).2 = some p := by simpa [or_of_replies] using hp
    obtain ⟨k, hk1, hk2, hpk, hcov, hmin⟩ :=
      poll_inr_result dev timeout _ _ fuel 0 _ p rfl hp'
    refine ⟨by rw [← h], k, by omega, by omega, ?_, hcov, fun k' h1 h2 => hmin k' (by omega) h2⟩
    rw [← h, hpk]
    simp

/-- Witness for C11 amended: the scripted instrument whose second poll
completes the mask. -/
theorem wait_all_averages_returns_only_zero_witness :
    ((0 : Int), (⟨(wait_setup demo_device 2000 cleared).2.calls
        ++ List.replicate 2 (.obtain_long_value_timeout "INR?" 2000), []⟩ : Session)).1 = 0 ∧
    ∃ k, 1 ≤ k ∧ k ≤ 2 ∧
      ((0 : Int), (⟨(wait_setup demo_device 2000 cleared).2.calls
          ++ List.replicate 2 (.obtain_long_value_timeout "INR?" 2000), []⟩ : Session)).2
        = ⟨(wait_setup demo_device 2000 cleared).2.calls
          ++ List.replicate k (.obtain_long_value_timeout "INR?" 2000),
        (wait_setup demo_device 2000 cleared).2.out⟩ ∧
      or_of_replies demo_device (wait_setup demo_device 2000 cleared).2.calls.length k
          &&& (wait_setup demo_device 2000 cleared).1 = (wait_setup demo_device 2000 cleared).1 ∧
      ∀ k', 1 ≤ k' → k' < k →
        or_of_replies demo_device (wait_setup demo_device 2000 cleared).2.calls.length k'
          &&& (wait_setup demo_device 2000 cleared).1
            ≠ (wait_setup demo_device 2000 cleared).1 :=
  wait_all_averages_returns_only_zero demo_device 2 2000 cleared _ (by decide)

/-! ### Mask and data transfer claims -/

theorem read_waveform_calls (dev : Device) (u : Uninit) (chan : Char) (buf : List Nat)
    (buf_len timeout : Nat) (s : Session) :
    (read_waveform dev u chan buf buf_len timeout s).2.calls
      = s.calls ++ [.send_str ((lecroy_scope_channel_str chan).1 ++ ":WF? DAT1"),
          .receive_timeout (buf_len + 25) timeout] := by
  simp [read_waveform, lecroy_receive_data_block, vxi11_receive_timeout, vxi11_send_str,
    Session.call, Session.print]

theorem def_query_calls_not_opc (dev : Device) (timeout n : Nat) :
    ∀ c ∈ def_query_calls dev timeout n, is_opc c = false := by
  intro c hc
  simp only [def_query_calls, List.mem_append] at hc
  rcases hc with ((hc | hc) | hc) | hc <;>
  · split at hc
    · simp only [List.mem_singleton] at hc
      subst hc
      rfl
    · simp at hc

theorem wait_and_read_no_opc (dev : Device) (u : Uninit) (fuel : Nat) (chan : Char)
    (clear_sweeps : Int) (buf : List Nat) (buf_len timeout : Nat) (s : Session)
    (res : Outcome × Session)
    (h : wait_and_read dev u fuel chan clear_sweeps buf buf_len timeout s = some res) :
    ∃ added, res.2.calls = s.calls ++ added ∧ ∀ c ∈ added, is_opc c = false := by
  unfold wait_and_read at h
  split at h
  · split at h
    · exact absurd h (by simp)
    · rename_i w hw
      simp only [Option.some.injEq] at h
      simp only [lecroy_wait_all_averages] at hw
      split at hw
      · exact absurd hw (by simp)
      · rename_i p hp
        simp only [Option.some.injEq] at hw
        obtain ⟨k, -, -, hk⟩ := poll_inr_session dev timeout _ fuel 0 _ p hp
        rw [wait_setup_session] at hk
        have hw2 : w.2 = p.2 := by rw [← hw]
        refine ⟨[.send_and_receive "F1:TRACE?" 256 timeout,
            .send_and_receive "F2:TRACE?" 256 timeout,
            .send_and_receive "F3:TRACE?" 256 timeout,
            .send_and_receive "F4:TRACE?" 256 timeout]
          ++ def_query_calls dev timeout s.calls.length
          ++ List.replicate k (.obtain_long_value_timeout "INR?" timeout)
          ++ [.send_str ((lecroy_scope_channel_str chan).1 ++ ":WF? DAT1"),
              .receive_timeout (buf_len + 25) timeout], ?_, ?_⟩
        · rw [← h, read_waveform_calls, hw2, hk]
          simp
        · intro c hc
          simp only [List.mem_append, List.mem_cons, List.mem_singleton, List.not_mem_nil,
            or_false] at hc
          rcases hc with ((hc | hc) | hc) | hc
          · rcases hc with rfl | rfl | rfl | rfl <;> rfl
          · exact def_query_calls_not_opc dev timeout _ c hc
          · rw [List.eq_of_mem_replicate hc]; simp [is_opc]
          · rcases hc with rfl | rfl <;> rfl
  · simp only [Option.some.injEq] at h
    refine ⟨[.send_str ((lecroy_scope_channel_str chan).1 ++ ":WF? DAT1"),
        .receive_timeout (buf_len + 25) timeout], ?_, ?_⟩
    · rw [← h, read_waveform_calls]
    · intro c hc
      simp only [List.mem_cons, List.mem_singleton, List.not_mem_nil, or_false] at hc
      rcases hc with rfl | rfl <;> rfl

theorem get_data_before_opc (dev : Device) (chan : Char) (clear_sweeps arm_and_wait : Int)
    (s : Session) :
    (if arm_and_wait = 1
      then (vxi11_send_str dev "ARM;WAIT"
        (if lecroy_is_maths_chan chan = 1 ∧ clear_sweeps = 1
          then lecroy_clear_sweeps dev s else s)).2
      else (if lecroy_is_maths_chan chan = 1 ∧ clear_sweeps = 1
          then lecroy_clear_sweeps dev s else s))
      = ⟨s.calls ++ calls_before_opc chan clear_sweeps arm_and_wait, s.out⟩ := by
  cases s
  unfold calls_before_opc
  split_ifs <;>
  simp [lecroy_clear_sweeps, vxi11_send_str, vxi11_obtain_long_value, Session.call]

/-- C13: in every call of `lecroy_get_data` with arm_and_wait = 1 or an
acquisition channel the "*OPC?" query is issued right after the calls that
precede it; if its reply is not 1 the function returns 0 with the caller's
buffer untouched and "*OPC?" as its last transport call (no waveform-read
command, no receive); if the reply is 1 the run goes on from there.  When
arm_and_wait is not 1 and the channel is derived, no "*OPC?" query is among
the calls of the run. -/
theorem get_data_opc_check (dev : Device) (u : Uninit) (fuel : Nat) (chan : Char)
    (clear_sweeps : Int) (buf : List Nat) (buf_len : Nat) (arm_and_wait : Int) (timeout : Nat)
    (s : Session) :
    ((arm_and_wait = 1 ∨ lecroy_is_maths_chan chan = 0) →
      (dev.long (s.calls ++ calls_before_opc chan clear_sweeps arm_and_wait).length ≠ 1 →
        lecroy_get_data dev u fuel chan clear_sweeps buf buf_len arm_and_wait timeout s
          = some (.returned 0 buf,
              ⟨s.calls ++ calls_before_opc chan clear_sweeps arm_and_wait
                  ++ [.obtain_long_value_timeout "*OPC?" timeout],
                s.out ++ ["lecroy_get_data: error, *OPC? did not return 1\n"]⟩)) ∧
      (dev.long (s.calls ++ calls_before_opc chan clear_sweeps arm_and_wait).length = 1 →
        lecroy_get_data dev u fuel chan clear_sweeps buf buf_len arm_and_wait timeout s
          = wait_and_read dev u fuel chan clear_sweeps buf buf_len timeout
              ⟨s.calls ++ calls_before_opc chan clear_sweeps arm_and_wait
                  ++ [.obtain_long_value_timeout "*OPC?" timeout], s.out⟩)) ∧
    (arm_and_wait ≠ 1 → lecroy_is_maths_chan chan = 1 →
      ∀ res, lecroy_get_data dev u fuel chan clear_sweeps buf buf_len arm_and_wait timeout s
          = some res →
        ∃ added, res.2.calls = s.calls ++ added ∧ ∀ c ∈ added, is_opc c = false) := by
  have hpre := get_data_before_opc dev chan clear_sweeps arm_and_wait s
  refine ⟨fun hcond => ⟨fun hne => ?_, fun heq => ?_⟩, fun harm hmaths res hres => ?_⟩
  · simp only [lecroy_get_data, hpre, if_pos hcond, vxi11_obtain_long_value_timeout]
    rw [if_pos hne]
    simp [Session.call, Session.print]
  · simp only [lecroy_get_data, hpre, if_pos hcond, vxi11_obtain_long_value_timeout]
    rw [if_neg (not_not.mpr heq)]
    simp [Session.call]
  · have hcond : ¬ (arm_and_wait = 1 ∨ lecroy_is_maths_chan chan = 0) := by
      rintro (h | h)
      · exact harm h
      · rw [hmaths] at h; exact absurd h (by decide)
    simp only [lecroy_get_data, hpre, if_neg hcond] at hres
    obtain ⟨added, hadd, hno⟩ := wait_and_read_no_opc dev u fuel chan clear_sweeps buf buf_len
      timeout _ res hres
    refine ⟨calls_before_opc chan clear_sweeps arm_and_wait ++ added, ?_, ?_⟩
    · rw [hadd]; simp
    · intro c hc
      rw [List.mem_append] at hc
      rcases hc with hc | hc
      · simp only [calls_before_opc, List.mem_append] at hc
        rcases hc with hc | hc
        · split at hc
          · simp only [List.mem_cons, List.mem_singleton, List.not_mem_nil, or_false] at hc
            rcases hc with rfl | rfl <;> rfl
          · simp at hc
        · split at hc
          · simp only [List.mem_singleton] at hc
            subst hc; rfl
          · simp at hc
      · exact hno c hc

/-- Witness for C13: channel '1' whose "*OPC?" reply is 0, and channel 'A'
without arming against the scripted instrument. -/
theorem get_data_opc_check_witness :
    lecroy_get_data demo_device zero_uninit 0 '1' 0 [7, 7] 2 1 2000 fresh
      = some (.returned 0 [7, 7],
          ⟨fresh.calls ++ calls_before_opc '1' 0 1
              ++ [.obtain_long_value_timeout "*OPC?" 2000],
            fresh.out ++ ["lecroy_get_data: error, *OPC? did not return 1\n"]⟩) ∧
    ∃ added,
      (read_waveform demo_device zero_uninit 'A' [7, 7] 2 2000 fresh).2.calls
        = fresh.calls ++ added ∧ ∀ c ∈ added, is_opc c = false :=
  ⟨((get_data_opc_check demo_device zero_uninit 0 '1' 0 [7, 7] 2 1 2000 fresh).1
      (by decide)).1 (by decide),
   (get_data_opc_check demo_device zero_uninit 0 'A' 0 [7, 7] 2 0 2000 fresh).2
      (by decide) (by decide) (read_waveform demo_device zero_uninit 'A' [7, 7] 2 2000 fresh)
      (by decide)⟩

theorem calls_before_opc_acquisition (chan : Char) (clear_sweeps arm_and_wait : Int)
    (h : lecroy_is_maths_chan chan = 0) :
    calls_before_opc chan clear_sweeps arm_and_wait
      = if arm_and_wait = 1 then [Call.send_str "ARM;WAIT"] else [] := by
  simp [calls_before_opc, h]

theorem wait_and_read_acquisition (dev : Device) (u : Uninit) (fuel : Nat) (chan : Char)
    (clear_sweeps : Int) (buf : List Nat) (buf_len timeout : Nat) (s : Session)
    (h : lecroy_is_maths_chan chan = 0) :
    wait_and_read dev u fuel chan clear_sweeps buf buf_len timeout s
      = some (read_waveform dev u chan buf buf_len timeout s) := by
  simp [wait_and_read, h]

/-- C14: for every acquisition token '1'..'4', every arm_and_wait value and
the same scripted replies, `lecroy_get_data` gives the same result and the
same session for any two values of clear_sweeps (and for any fuel: the
polling loop is never entered).  The calls of the run are "ARM;WAIT" when
arm_and_wait is 1, "*OPC?", and, when its reply is 1, "<source>:WF? DAT1" and
the receive; none of them is "CLSW" or a query of
`lecroy_wait_all_averages`. -/
theorem get_data_clear_sweeps_dont_care (dev : Device) (u : Uninit) (fuel fuel' : Nat)
    (chan : Char) (clear_sweeps clear_sweeps' : Int) (buf : List Nat) (buf_len : Nat)
    (arm_and_wait : Int) (timeout : Nat) (s : Session)
    (hchan : chan ∈ ['1', '2', '3', '4']) :
    lecroy_get_data dev u fuel chan clear_sweeps buf buf_len arm_and_wait timeout s
      = lecroy_get_data dev u fuel' chan clear_sweeps' buf buf_len arm_and_wait timeout s ∧
    ∃ res, lecroy_get_data dev u fuel chan clear_sweeps buf buf_len arm_and_wait timeout s
        = some res ∧
      res.2.calls = s.calls ++
        ((if arm_and_wait = 1 then [Call.send_str "ARM;WAIT"] else [])
          ++ [.obtain_long_value_timeout "*OPC?" timeout]
          ++ (if dev.long (s.calls.length + (if arm_and_wait = 1 then 1 else 0)) = 1
              then [.send_str ((lecroy_scope_channel_str chan).1 ++ ":WF? DAT1"),
                    .receive_timeout (buf_len + 25) timeout] else [])) ∧
      ∀ c ∈ ((if arm_and_wait = 1 then [Call.send_str "ARM;WAIT"] else [])
          ++ [.obtain_long_value_timeout "*OPC?" timeout]
          ++ (if dev.long (s.calls.length + (if arm_and_wait = 1 then 1 else 0)) = 1
              then [.send_str ((lecroy_scope_channel_str chan).1 ++ ":WF? DAT1"),
                    .receive_timeout (buf_len + 25) timeout] else [])),
        is_averaging_call c = false := by
  have hm : lecroy_is_maths_chan chan = 0 := by
    simp only [List.mem_cons, List.mem_singleton, List.not_mem_nil, or_false] at hchan
    rcases hchan with rfl | rfl | rfl | rfl <;> rfl
  have hwf : is_averaging_call (.send_str ((lecroy_scope_channel_str chan).1 ++ ":WF? DAT1"))
      = false := by
    simp only [List.mem_cons, List.mem_singleton, List.not_mem_nil, or_false] at hchan
    rcases hchan with rfl | rfl | rfl | rfl <;> decide
  have hcond : arm_and_wait = 1 ∨ lecroy_is_maths_chan chan = 0 := Or.inr hm
  have hrun : ∀ (f : Nat) (cs : Int),
      lecroy_get_data dev u f chan cs buf buf_len arm_and_wait timeout s
        = if dev.long (s.calls.length + (if arm_and_wait = 1 then 1 else 0)) ≠ 1
          then some (.returned 0 buf,
            ⟨s.calls ++ (if arm_and_wait = 1 then [Call.send_str "ARM;WAIT"] else [])
                ++ [.obtain_long_value_timeout "*OPC?" timeout],
              s.out ++ ["lecroy_get_data: error, *OPC? did not return 1\n"]⟩)
          else some (read_waveform dev u chan buf buf_len timeout
            ⟨s.calls ++ (if arm_and_wait = 1 then [Call.send_str "ARM;WAIT"] else [])
                ++ [.obtain_long_value_timeout "*OPC?" timeout], s.out⟩) := by
    intro f cs
    have hpre := get_data_before_opc dev chan cs arm_and_wait s
    rw [calls_before_opc_acquisition chan cs arm_and_wait hm] at hpre
    simp only [lecroy_get_data, hpre, if_pos hcond, vxi11_obtain_long_value_timeout,
      wait_and_read_acquisition dev u f chan cs buf buf_len timeout _ hm]
    by_cases harm : arm_and_wait = 1 <;> simp [harm, Session.call, Session.print]
  refine ⟨by rw [hrun, hrun], ?_⟩
  rw [hrun]
  by_cases hopc : dev.long (s.calls.length + (if arm_and_wait = 1 then 1 else 0)) = 1
  · rw [if_neg (not_not.mpr hopc)]
    refine ⟨_, rfl, ?_, ?_⟩
    · rw [read_waveform_calls, if_pos hopc]
      simp
    · intro c hc
      rw [if_pos hopc] at hc
      simp only [List.mem_append, List.mem_cons, List.mem_singleton, List.not_mem_nil,
        or_false] at hc
      rcases hc with (hc | rfl) | rfl | rfl
      · split at hc
        · simp only [List.mem_singleton] at hc
          subst hc; rfl
        · simp at hc
      · rfl
      · exact hwf
      · rfl
  · rw [if_pos hopc]
    refine ⟨_, rfl, ?_, ?_⟩
    · rw [if_neg hopc]
      simp
    · intro c hc
      rw [if_neg hopc] at hc
      simp only [List.mem_append, List.mem_cons, List.mem_singleton, List.not_mem_nil,
        or_false, List.append_nil] at hc
      rcases hc with hc | rfl
      · split at hc
        · simp only [List.mem_singleton] at hc
          subst hc; rfl
        · simp at hc
      · rfl

/-- Witness for C14: channel '2', armed, clear_sweeps 0 against 1. -/
theorem get_data_clear_sweeps_dont_care_witness :
    lecroy_get_data demo_device zero_uninit 0 '2' 0 [7, 7] 2 1 2000 fresh
      = lecroy_get_data demo_device zero_uninit 5 '2' 1 [7, 7] 2 1 2000 fresh ∧
    ∃ res, lecroy_get_data demo_device zero_uninit 0 '2' 0 [7, 7] 2 1 2000 fresh = some res ∧
      res.2.calls = fresh.calls ++
        ((if (1 : Int) = 1 then [Call.send_str "ARM;WAIT"] else [])
          ++ [.obtain_long_value_timeout "*OPC?" 2000]
          ++ (if demo_device.long (fresh.calls.length + (if (1 : Int) = 1 then 1 else 0)) = 1
              then [.send_str ((lecroy_scope_channel_str '2').1 ++ ":WF? DAT1"),
                    .receive_timeout (2 + 25) 2000] else [])) ∧
      ∀ c ∈ ((if (1 : Int) = 1 then [Call.send_str "ARM;WAIT"] else [])
          ++ [.obtain_long_value_timeout "*OPC?" 2000]
          ++ (if demo_device.long (fresh.calls.length + (if (1 : Int) = 1 then 1 else 0)) = 1
              then [.send_str ((lecroy_scope_channel_str '2').1 ++ ":WF? DAT1"),
                    .receive_timeout (2 + 25) 2000] else [])),
        is_averaging_call c = false :=
  get_data_clear_sweeps_dont_care demo_device zero_uninit 0 5 '2' 0 1 [7, 7] 2 1 2000 fresh
    (by decide)

/-! ### Trace Post-processing lemmas -/

theorem wrap32_of_range (v : Int) (h1 : -2147483648 ≤ v) (h2 : v < 2147483648) :
    wrap32 v = v := by
  unfold wrap32; omega

theorem wrap32_add_wrap32 (a b : Int) : wrap32 (wrap32 a + b) = wrap32 (a + b) := by
  unfold wrap32; omega

theorem to_int8_range (b : Nat) : -128 ≤ to_int8 b ∧ to_int8 b ≤ 127 := by
  unfold to_int8; split <;> omega

theorem to_int16_range (lo hi : Nat) : -32768 ≤ to_int16 lo hi ∧ to_int16 lo hi ≤ 32767 := by
  unfold to_int16; split <;> omega

theorem shorts_of_range : ∀ (n : Nat) (bytes : List Nat), bytes.length ≤ n →
    ∀ x ∈ shorts_of bytes, -32768 ≤ x ∧ x ≤ 32767 := by
  intro n
  induction n using Nat.strong_induction_on with
  | _ n ih =>
    intro bytes hlen x hx
    match bytes, hlen, hx with
    | [], _, hx => simp [shorts_of] at hx
    | [_], _, hx => simp [shorts_of] at hx
    | lo :: hi :: rest, hlen, hx =>
      simp only [shorts_of, List.mem_cons] at hx
      rcases hx with rfl | hx
      · exact to_int16_range lo hi
      · simp only [List.length_cons] at hlen
        exact ih rest.length (by omega) rest (le_refl _) x hx

theorem shorts_of_length : ∀ (n : Nat) (bytes : List Nat), bytes.length ≤ n →
    (shorts_of bytes).length = bytes.length / 2 := by
  intro n
  induction n using Nat.strong_induction_on with
  | _ n ih =>
    intro bytes hlen
    match bytes, hlen with
    | [], _ => rfl
    | [_], _ => simp [shorts_of]
    | lo :: hi :: rest, hlen =>
      simp only [List.length_cons] at hlen
      simp only [shorts_of, List.length_cons, ih rest.length (by omega) rest (le_refl _)]
      omega

theorem samples_of_range (bytes_per_point : Int) (bytes : List Nat) (lo hi : Int)
    (h : (bytes_per_point = 1 ∧ lo = -128 ∧ hi = 127) ∨
      (bytes_per_point = 2 ∧ lo = -32768 ∧ hi = 32767)) :
    ∀ x ∈ samples_of bytes_per_point bytes, lo ≤ x ∧ x ≤ hi := by
  intro x hx
  rcases h with ⟨rfl, rfl, rfl⟩ | ⟨rfl, rfl, rfl⟩
  · simp only [samples_of, if_true, List.mem_map] at hx
    obtain ⟨b, -, rfl⟩ := hx
    exact to_int8_range b
  · simp only [samples_of] at hx
    rw [if_neg (by decide)] at hx
    exact shorts_of_range bytes.length bytes (le_refl _) x hx

theorem getD_range (samples : List Int) (lo hi : Int) (hlo : lo ≤ 0) (hhi : 0 ≤ hi)
    (h : ∀ x ∈ samples, lo ≤ x ∧ x ≤ hi) (k : Nat) :
    lo ≤ samples.getD k 0 ∧ samples.getD k 0 ≤ hi := by
  by_cases hk : k < samples.length
  · have : samples.getD k 0 = samples[k] := by simp [List.getD_eq_getElem?_getD, hk]
    rw [this]
    exact h _ (List.getElem_mem hk)
  · have : samples.getD k 0 = 0 := by
      simp [List.getD_eq_getElem?_getD, List.getElem?_eq_none (not_lt.mp hk)]
    rw [this]
    exact ⟨hlo, hhi⟩

/-- Sum over the first `n` segments of the samples at position `i`. -/
theorem partial_sum_range (samples : List Int) (lo hi : Int) (hlo : lo ≤ 0) (hhi : 0 ≤ hi)
    (h : ∀ x ∈ samples, lo ≤ x ∧ x ≤ hi) (points i : Nat) :
    ∀ n : Nat, (n : Int) * lo ≤ ((List.range n).map (fun j => samples.getD (j * points + i) 0)).sum ∧
      ((List.range n).map (fun j => samples.getD (j * points + i) 0)).sum ≤ (n : Int) * hi := by
  intro n
  induction n with
  | zero => simp
  | succ n ih =>
    have hg := getD_range samples lo hi hlo hhi h (n * points + i)
    rw [List.range_succ, List.map_append, List.sum_append]
    simp only [List.map_cons, List.map_nil, List.sum_cons, List.sum_nil, add_zero]
    push_cast
    constructor
    · nlinarith [ih.1, hg.1]
    · nlinarith [ih.2, hg.2]

theorem tdiv_range (total s lo hi : Int) (hs : 0 < s) (hlo : lo ≤ 0) (hhi : 0 ≤ hi)
    (h1 : s * lo ≤ total) (h2 : total ≤ s * hi) :
    lo ≤ Int.tdiv total s ∧ Int.tdiv total s ≤ hi := by
  by_cases ht : 0 ≤ total
  · rw [Int.tdiv_eq_ediv ht (le_of_lt hs)]
    constructor
    · exact le_trans hlo (Int.ediv_nonneg ht (le_of_lt hs))
    · exact Int.ediv_le_of_le_mul hs (by rw [mul_comm]; exact h2)
  · have hneg : 0 ≤ -total := by omega
    have e : Int.tdiv total s = -((-total) / s) := by
      rw [← Int.tdiv_eq_ediv hneg (le_of_lt hs), Int.neg_tdiv, neg_neg]
    rw [e]
    have hq : (-total) / s ≤ -lo :=
      Int.ediv_le_of_le_mul hs (by rw [mul_comm]; linarith [h1, mul_neg s lo])
    have hq0 : 0 ≤ (-total) / s := Int.ediv_nonneg hneg (le_of_lt hs)
    constructor <;> omega

theorem sum_segments_exact (samples : List Int) (lo hi : Int) (segments points i : Nat)
    (hlo : lo ≤ 0) (hhi : 0 ≤ hi) (h : ∀ x ∈ samples, lo ≤ x ∧ x ≤ hi)
    (hlen : samples.length = segments * points) (hi_lt : i < points)
    (hcount : segments * points < 2147483648)
    (hneg : -2147483648 ≤ (segments : Int) * lo) (hpos : (segments : Int) * hi < 2147483648) :
    ∀ n : Nat, n ≤ segments →
      sum_segments samples (points : Int) (i : Int) n
        = some ((List.range n).map (fun j => samples.getD (j * points + i) 0)).sum := by
  intro n
  induction n with
  | zero => intro _; simp [sum_segments]
  | succ n ih =>
    intro hn
    have hidx : n * points + i < segments * points := by
      have : (n + 1) * points ≤ segments * points := Nat.mul_le_mul_right _ hn
      have e : (n + 1) * points = n * points + points := by ring
      omega
    have hnp : n * points < 2147483648 := by omega
    have hnpI : ((n : Int) * (points : Int)) < 2147483648 := by exact_mod_cast hnp
    have hnp0 : (0 : Int) ≤ (n : Int) * (points : Int) := by positivity
    have hidxI : (n : Int) * (points : Int) + (i : Int) < (segments : Int) * (points : Int) := by
      exact_mod_cast hidx
    have hspI : (segments : Int) * (points : Int) < 2147483648 := by exact_mod_cast hcount
    have hi0 : (0 : Int) ≤ (i : Int) := Int.ofNat_nonneg _
    have hw1 : wrap32 ((n : Int) * (points : Int)) = ((n * points : Nat) : Int) := by
      rw [wrap32_of_range _ (by linarith) hnpI]
      push_cast; rfl
    have hw2 : wrap32 (((n * points : Nat) : Int) + (i : Int)) = ((n * points + i : Nat) : Int) := by
      push_cast
      exact wrap32_of_range _ (by linarith) (by linarith)
    have hbound := partial_sum_range samples lo hi hlo hhi h points i (n + 1)
    have hn1 : ((n + 1 : Nat) : Int) ≤ (segments : Int) := by exact_mod_cast hn
    have hn0 : (0 : Int) ≤ ((n + 1 : Nat) : Int) := Int.ofNat_nonneg _
    have hL : -2147483648 ≤ ((n + 1 : Nat) : Int) * lo := by
      have : (segments : Int) * lo ≤ ((n + 1 : Nat) : Int) * lo :=
        Int.mul_le_mul_of_nonpos_right hn1 hlo
      linarith
    have hU : ((n + 1 : Nat) : Int) * hi < 2147483648 := by
      have : ((n + 1 : Nat) : Int) * hi ≤ (segments : Int) * hi :=
        Int.mul_le_mul_of_nonneg_right hn1 hhi
      linarith
    have hsum : ((List.range (n + 1)).map (fun j => samples.getD (j * points + i) 0)).sum
        = ((List.range n).map (fun j => samples.getD (j * points + i) 0)).sum
          + samples.getD (n * points + i) 0 := by
      rw [List.range_succ, List.map_append, List.sum_append]
      simp
    rw [hsum] at hbound ⊢
    have hnot : ¬ (((n * points + i : Nat) : Int) < 0 ∨
        (samples.length : Int) ≤ ((n * points + i : Nat) : Int)) := by
      rw [hlen]
      push_cast
      intro hc
      rcases hc with hc | hc <;> linarith
    simp only [sum_segments, ih (by omega), hw1, hw2]
    rw [if_neg hnot]
    simp only [Int.toNat_ofNat, Option.some.injEq]
    exact wrap32_of_range _ (by linarith [hbound.1]) (by linarith [hbound.2])

theorem average_point_exact (samples : List Int) (lo hi : Int) (segments points i : Nat)
    (hlo : lo ≤ 0) (hhi : 0 ≤ hi) (hlo' : -2147483648 ≤ lo) (hhi' : hi < 2147483648)
    (h : ∀ x ∈ samples, lo ≤ x ∧ x ≤ hi)
    (hlen : samples.length = segments * points) (hi_lt : i < points) (hseg : 1 ≤ segments)
    (hcount : segments * points < 2147483648)
    (hneg : -2147483648 ≤ (segments : Int) * lo) (hpos : (segments : Int) * hi < 2147483648) :
    average_point samples (points : Int) (segments : Int) (i : Int)
        = some (segment_mean samples segments points i) ∧
      lo ≤ segment_mean samples segments points i ∧ segment_mean samples segments points i ≤ hi := by
  have hsum := sum_segments_exact samples lo hi segments points i hlo hhi h hlen hi_lt hcount
    hneg hpos segments (le_refl _)
  have hb := partial_sum_range samples lo hi hlo hhi h points i segments
  have hs : (0 : Int) < (segments : Int) := by exact_mod_cast hseg
  have hr := tdiv_range _ (segments : Int) lo hi hs hlo hhi hb.1 hb.2
  refine ⟨?_, hr⟩
  simp only [average_point, Int.toNat_ofNat, hsum, segment_mean]
  rw [wrap32_of_range _ (by linarith [hr.1]) (by linarith [hr.2])]

theorem average_points_exact (samples : List Int) (lo hi : Int) (segments points : Nat)
    (hlo : lo ≤ 0) (hhi : 0 ≤ hi) (hlo' : -2147483648 ≤ lo) (hhi' : hi < 2147483648)
    (h : ∀ x ∈ samples, lo ≤ x ∧ x ≤ hi)
    (hlen : samples.length = segments * points) (hseg : 1 ≤ segments)
    (hcount : segments * points < 2147483648)
    (hneg : -2147483648 ≤ (segments : Int) * lo) (hpos : (segments : Int) * hi < 2147483648) :
    ∀ n : Nat, n ≤ points →
      average_points samples (points : Int) (segments : Int) n
        = some ((List.range n).map (segment_mean samples segments points)) := by
  intro n
  induction n with
  | zero => intro _; rfl
  | succ n ih =>
    intro hn
    have hp := (average_point_exact samples lo hi segments points n hlo hhi hlo' hhi' h hlen
      (by omega) hseg hcount hneg hpos).1
    simp only [average_points, ih (by omega), hp, List.range_succ, List.map_append,
      List.map_cons, List.map_nil]

theorem segment_means_range (samples : List Int) (lo hi : Int) (segments points : Nat)
    (hlo : lo ≤ 0) (hhi : 0 ≤ hi) (hlo' : -2147483648 ≤ lo) (hhi' : hi < 2147483648)
    (h : ∀ x ∈ samples, lo ≤ x ∧ x ≤ hi)
    (hlen : samples.length = segments * points) (hseg : 1 ≤ segments)
    (hcount : segments * points < 2147483648)
    (hneg : -2147483648 ≤ (segments : Int) * lo) (hpos : (segments : Int) * hi < 2147483648) :
    ∀ v ∈ (List.range points).map (segment_mean samples segments points), lo ≤ v ∧ v ≤ hi := by
  intro v hv
  simp only [List.mem_map, List.mem_range] at hv
  obtain ⟨i, hi_lt, rfl⟩ := hv
  exact (average_point_exact samples lo hi segments points i hlo hhi hlo' hhi' h hlen hi_lt hseg
    hcount hneg hpos).2

theorem range_warnings_nil (lo hi : Int) :
    ∀ (means : List Int) (i : Nat), (∀ v ∈ means, lo ≤ v ∧ v ≤ hi) →
      range_warnings lo hi i means = [] := by
  intro means
  induction means with
  | nil => intro i _; rfl
  | cons v vs ih =>
    intro i h
    have hv := h v (List.mem_cons_self _ _)
    have hn : ¬ (v > hi ∨ v < lo) := by
      intro hc; rcases hc with hc | hc <;> omega
    simp only [range_warnings, if_neg hn, List.nil_append]
    exact ih (i + 1) (fun x hx => h x (List.mem_cons_of_mem _ hx))

theorem to_int8_of_int8 (v : Int) (h1 : -128 ≤ v) (h2 : v ≤ 127) : to_int8 (of_int8 v) = v := by
  unfold to_int8 of_int8
  have e : ((v % 256).toNat : Int) = v % 256 := Int.toNat_of_nonneg (Int.emod_nonneg _ (by decide))
  have hlt : (v % 256).toNat < 256 := by omega
  rw [Nat.mod_eq_of_lt hlt]
  split <;> omega

theorem to_int16_of_int16 (v : Int) (h1 : -32768 ≤ v) (h2 : v ≤ 32767) :
    to_int16 (v % 256).toNat (v / 256 % 256).toNat = v := by
  unfold to_int16
  have e1 : ((v % 256).toNat : Int) = v % 256 := Int.toNat_of_nonneg (Int.emod_nonneg _ (by decide))
  have e2 : ((v / 256 % 256).toNat : Int) = v / 256 % 256 :=
    Int.toNat_of_nonneg (Int.emod_nonneg _ (by decide))
  have l1 : (v % 256).toNat < 256 := by omega
  have l2 : (v / 256 % 256).toNat < 256 := by omega
  rw [Nat.mod_eq_of_lt l1, Nat.mod_eq_of_lt l2]
  split <;> (push_cast; omega)

theorem samples_of_bytes_of_samples (bytes_per_point : Int) (lo hi : Int)
    (hw : (bytes_per_point = 1 ∧ lo = -128 ∧ hi = 127) ∨
      (bytes_per_point = 2 ∧ lo = -32768 ∧ hi = 32767)) :
    ∀ means : List Int, (∀ v ∈ means, lo ≤ v ∧ v ≤ hi) →
      samples_of bytes_per_point (bytes_of_samples bytes_per_point means) = means ∧
      ((bytes_of_samples bytes_per_point means).length : Int) = means.length * bytes_per_point := by
  intro means
  rcases hw with ⟨rfl, rfl, rfl⟩ | ⟨rfl, rfl, rfl⟩
  · intro h
    simp only [samples_of, bytes_of_samples, if_true, List.map_map, List.length_map, mul_one,
      and_true]
    conv_rhs => rw [← List.map_id means]
    apply List.map_congr_left
    intro v hv
    exact to_int8_of_int8 v (h v hv).1 (h v hv).2
  · have h21 : ¬ ((2 : Int) = 1) := by decide
    simp only [samples_of, bytes_of_samples, if_neg h21]
    induction means with
    | nil => intro _; simp [shorts_of]
    | cons v vs ih =>
      intro h
      have hv := h v (List.mem_cons_self _ _)
      have ih' := ih (fun x hx => h x (List.mem_cons_of_mem _ hx))
      have e : (v :: vs).flatMap of_int16
          = (v % 256).toNat :: (v / 256 % 256).toNat :: vs.flatMap of_int16 := by
        simp [List.flatMap_cons, of_int16]
      rw [e]
      simp only [shorts_of, to_int16_of_int16 v hv.1 hv.2, ih'.1, List.length_cons, true_and]
      have := ih'.2
      push_cast
      omega

theorem to_ulong_natCast (n : Nat) (h : n < 18446744073709551616) : to_ulong (n : Int) = n := by
  unfold to_ulong
  have : ((n : Int) % 18446744073709551616) = (n : Int) :=
    Int.emod_eq_of_lt (Int.ofNat_nonneg n) (by exact_mod_cast h)
  rw [this, Int.toNat_ofNat]

/-- The run of `lecroy_average_segmented_data` on `segments * points` samples of
`width` bytes when all sums fit an `int`. -/
theorem average_segmented_data_exact (in_buf out_buf : List Nat) (segments points width : Nat)
    (lo hi : Int)
    (hw : (width = 1 ∧ lo = -128 ∧ hi = 127) ∨ (width = 2 ∧ lo = -32768 ∧ hi = 32767))
    (hseg : 1 ≤ segments) (hcount : segments * points < 2147483648)
    (hneg : -2147483648 ≤ (segments : Int) * lo) (hpos : (segments : Int) * hi < 2147483648)
    (hin : in_buf.length = segments * points * width) (hout : points * width ≤ out_buf.length) :
    lecroy_average_segmented_data in_buf (segments * points * width) out_buf (points * width)
        (segments : Int) (width : Int)
      = some (bytes_of_samples (width : Int)
            ((List.range points).map (segment_mean (samples_of (width : Int) in_buf)
              segments points))
          ++ out_buf.drop (points * width), []) ∧
    (bytes_of_samples (width : Int)
      ((List.range points).map (segment_mean (samples_of (width : Int) in_buf)
        segments points))).length = points * width ∧
    samples_of (width : Int) (bytes_of_samples (width : Int)
      ((List.range points).map (segment_mean (samples_of (width : Int) in_buf)
        segments points)))
      = (List.range points).map (segment_mean (samples_of (width : Int) in_buf)
        segments points) := by
  have hw' : ((width : Int) = 1 ∧ lo = -128 ∧ hi = 127) ∨
      ((width : Int) = 2 ∧ lo = -32768 ∧ hi = 32767) := by
    rcases hw with ⟨h1, h2, h3⟩ | ⟨h1, h2, h3⟩
    · exact Or.inl ⟨by exact_mod_cast h1, h2, h3⟩
    · exact Or.inr ⟨by exact_mod_cast h1, h2, h3⟩
  have hlo : lo ≤ 0 := by rcases hw with ⟨_, h2, _⟩ | ⟨_, h2, _⟩ <;> rw [h2] <;> decide
  have hhi : 0 ≤ hi := by rcases hw with ⟨_, _, h3⟩ | ⟨_, _, h3⟩ <;> rw [h3] <;> decide
  have hlo' : -2147483648 ≤ lo := by
    rcases hw with ⟨_, h2, _⟩ | ⟨_, h2, _⟩ <;> rw [h2] <;> decide
  have hhi' : hi < 2147483648 := by
    rcases hw with ⟨_, _, h3⟩ | ⟨_, _, h3⟩ <;> rw [h3] <;> decide
  have hwpos : 1 ≤ width ∧ width ≤ 2 := by
    rcases hw with ⟨h1, _, _⟩ | ⟨h1, _, _⟩ <;> rw [h1] <;> decide
  have hpts : points < 2147483648 := by
    have : points ≤ segments * points := Nat.le_mul_of_pos_left _ hseg
    omega
  have hsegs : segments < 1073741824 := by
    have h1 : (segments : Int) * hi < 2147483648 := hpos
    have h2 : (127 : Int) ≤ hi := by
      rcases hw with ⟨_, _, h3⟩ | ⟨_, _, h3⟩ <;> (subst h3; decide)
    have h3 : (segments : Int) * 127 ≤ (segments : Int) * hi :=
      Int.mul_le_mul_of_nonneg_left h2 (Int.ofNat_nonneg _)
    have h4 : (segments : Int) * 127 < 2147483648 := lt_of_le_of_lt h3 h1
    omega
  -- the divisor and the number of points per trace
  have hprod : wrap32 ((width : Int) * (segments : Int)) = ((width * segments : Nat) : Int) := by
    have e : (width : Int) * (segments : Int) = ((width * segments : Nat) : Int) := by push_cast; rfl
    rw [e]
    have hb : width * segments < 2147483648 := by
      rcases hw with ⟨h1, _, _⟩ | ⟨h1, _, _⟩ <;> rw [h1] <;> omega
    exact wrap32_of_range _ (by have := Int.ofNat_nonneg (width * segments); omega)
      (by exact_mod_cast hb)
  have hdiv : to_ulong (wrap32 ((width : Int) * (segments : Int))) = width * segments := by
    rw [hprod]
    apply to_ulong_natCast
    rcases hw with ⟨h1, _, _⟩ | ⟨h1, _, _⟩ <;> rw [h1] <;> omega
  have hdpos : 0 < width * segments := Nat.mul_pos (by omega) (by omega)
  have hquot : segments * points * width / (width * segments) = points := by
    have e : segments * points * width = points * (width * segments) := by ring
    rw [e]
    exact Nat.mul_div_cancel _ hdpos
  have hppt : wrap32 ((points : Nat) : Int) = (points : Int) :=
    wrap32_of_range _ (by have := Int.ofNat_nonneg points; omega) (by exact_mod_cast hpts)
  -- the input samples
  have hslen : (samples_of (width : Int) in_buf).length = segments * points := by
    rcases hw with ⟨h1, _, _⟩ | ⟨h1, _, _⟩
    · subst h1
      simp [samples_of, hin]
    · subst h1
      have h21 : ¬ (((2 : Nat) : Int) = 1) := by decide
      simp only [samples_of, if_neg h21]
      rw [shorts_of_length in_buf.length in_buf (le_refl _), hin]
      exact Nat.mul_div_cancel _ (by decide)
  have hrange := samples_of_range (width : Int) in_buf lo hi hw'
  have hmeans := average_points_exact (samples_of (width : Int) in_buf) lo hi segments points
    hlo hhi hlo' hhi' hrange hslen hseg hcount hneg hpos points (le_refl _)
  have hmr := segment_means_range (samples_of (width : Int) in_buf) lo hi segments points
    hlo hhi hlo' hhi' hrange hslen hseg hcount hneg hpos
  obtain ⟨hround, hblen⟩ := samples_of_bytes_of_samples (width : Int) lo hi hw' _ hmr
  have hblen' : (bytes_of_samples (width : Int)
      ((List.range points).map (segment_mean (samples_of (width : Int) in_buf)
        segments points))).length = points * width := by
    have : ((bytes_of_samples (width : Int)
      ((List.range points).map (segment_mean (samples_of (width : Int) in_buf)
        segments points))).length : Int) = ((points * width : Nat) : Int) := by
      rw [hblen]; simp
    exact_mod_cast this
  have hwarn : (if (width : Int) = 1
      then range_warnings (-128) 127 0
        ((List.range points).map (segment_mean (samples_of (width : Int) in_buf) segments points))
      else range_warnings (-32768) 32767 0
        ((List.range points).map (segment_mean (samples_of (width : Int) in_buf) segments points)))
      = [] := by
    rcases hw' with ⟨h1, h2, h3⟩ | ⟨h1, h2, h3⟩
    · rw [if_pos h1]
      subst h2; subst h3
      exact range_warnings_nil _ _ _ 0 hmr
    · rw [if_neg (by rw [h1]; decide)]
      subst h2; subst h3
      exact range_warnings_nil _ _ _ 0 hmr
  have hshort : ¬ ((width : Int) ≠ 1 ∧
      2 * (segments * points * width / to_ulong (width : Int)) < segments * points * width) := by
    rintro ⟨hne, hlt⟩
    rcases hw with ⟨h1, _, _⟩ | ⟨h1, _, _⟩
    · exact hne (by exact_mod_cast h1)
    · subst h1
      rw [to_ulong_natCast 2 (by decide), Nat.mul_div_cancel _ (by decide)] at hlt
      omega
  refine ⟨?_, hblen', hround⟩
  unfold lecroy_average_segmented_data
  simp only [hdiv, hquot, hppt]
  rw [if_neg (Nat.pos_iff_ne_zero.mp hdpos), if_neg (not_lt.mpr (Int.ofNat_nonneg points)),
    if_neg (by rw [hin]; exact lt_irrefl _), if_neg hshort]
  simp only [Int.toNat_ofNat, List.take_of_length_le (le_of_eq hin), hmeans, hwarn]
  rw [if_neg (by rw [hblen']; exact not_or.mpr ⟨lt_irrefl _, not_lt.mpr hout⟩),
    List.take_of_length_le (le_of_eq hblen')]

theorem shorts_of_replicate_pair (a b : Nat) :
    ∀ n : Nat, shorts_of (List.replicate n [a, b]).flatten = List.replicate n (to_int16 a b) ∧
      (List.replicate n [a, b]).flatten.length = 2 * n := by
  intro n
  induction n with
  | zero => exact ⟨rfl, rfl⟩
  | succ n ih =>
    rw [List.replicate_succ, List.flatten_cons]
    refine ⟨?_, ?_⟩
    · show shorts_of (a :: b :: (List.replicate n [a, b]).flatten) = _
      rw [shorts_of, ih.1, List.replicate_succ]
    · show (a :: b :: (List.replicate n [a, b]).flatten).length = _
      rw [List.length_cons, List.length_cons, ih.2]
      ring

theorem sum_segments_constant (samples : List Int) (count : Nat) (v p i : Int)
    (hp : p = 1) (hi : i = 0)
    (hlen : samples.length = count) (hget : ∀ j, j < count → samples.getD j 0 = v)
    (hcount : count < 2147483648) :
    ∀ n : Nat, n ≤ count →
      sum_segments samples p i n = some (wrap32 ((n : Int) * v)) := by
  subst hp; subst hi
  intro n
  induction n with
  | zero => intro _; simp [sum_segments, wrap32]
  | succ n ih =>
    intro hn
    have hn' : n ≤ count := Nat.le_of_succ_le hn
    have hlt : n < count := hn
    have hwn : wrap32 (n : Int) = (n : Int) :=
      wrap32_of_range _ (by have := Int.ofNat_nonneg n; linarith)
        (by have : (n : Int) < (count : Int) := by exact_mod_cast hlt
            have : (count : Int) < 2147483648 := by exact_mod_cast hcount
            linarith)
    have hidx : wrap32 (wrap32 ((n : Int) * 1) + 0) = (n : Int) := by
      rw [mul_one, add_zero, hwn, hwn]
    have hnot : ¬ ((n : Int) < 0 ∨ (samples.length : Int) ≤ (n : Int)) := by
      rw [hlen]
      have h0 := Int.ofNat_nonneg n
      have h1 : (n : Int) < (count : Int) := by exact_mod_cast hlt
      intro hc
      rcases hc with hc | hc <;> linarith
    rw [sum_segments, ih hn']
    simp only [hidx]
    rw [if_neg hnot]
    have htn : (n : Int).toNat = n := Int.toNat_ofNat n
    rw [htn, hget n hlt, wrap32_add_wrap32]
    have e : (n : Int) * v + v = ((n + 1 : Nat) : Int) * v := by push_cast; ring
    rw [e]

theorem segment_mean_constant (samples : List Int) (count : Nat) (v : Int) (hpos : 0 < count)
    (hget : ∀ j, j < count → samples.getD j 0 = v) :
    segment_mean samples count 1 0 = v := by
  have hmap : (List.range count).map (fun j => samples.getD (j * 1 + 0) 0)
      = (List.range count).map (fun _ => v) := by
    apply List.map_congr_left
    intro j hj
    rw [mul_one, add_zero]
    exact hget j (List.mem_range.mp hj)
  have hsum : ((List.range count).map (fun _ => v)).sum = (count : Int) * v := by
    rw [List.map_const', List.sum_replicate, List.length_range]
    simp
  unfold segment_mean
  rw [hmap, hsum]
  exact Int.mul_tdiv_cancel_left v (by exact_mod_cast (Nat.pos_iff_ne_zero.mp hpos))

theorem average_point_constant (samples : List Int) (count : Nat) (v : Int)
    (hlen : samples.length = count) (hget : ∀ j, j < count → samples.getD j 0 = v)
    (hcount : count < 2147483648) :
    average_point samples ((1 : Nat) : Int) (count : Int) ((0 : Nat) : Int)
      = some (wrap32 (Int.tdiv (wrap32 ((count : Int) * v)) (count : Int))) := by
  have hsum := sum_segments_constant samples count v ((1 : Nat) : Int) ((0 : Nat) : Int) rfl rfl
    hlen hget hcount count (le_refl _)
  unfold average_point
  rw [Int.toNat_ofNat, hsum]

theorem average_run_of_means (in_buf out_buf : List Nat) (in_buf_len out_buf_len : Nat)
    (no_of_segments bytes_per_point : Int) (points : Nat) (means : List Int)
    (hdiv : to_ulong (wrap32 (bytes_per_point * no_of_segments)) ≠ 0)
    (hppt : wrap32 ((in_buf_len / to_ulong (wrap32 (bytes_per_point * no_of_segments)) : Nat) : Int)
      = (points : Int))
    (hlen : in_buf.length = in_buf_len)
    (hshort : ¬ (bytes_per_point ≠ 1 ∧
      2 * (in_buf_len / to_ulong bytes_per_point) < in_buf_len))
    (hmeans : average_points (samples_of bytes_per_point in_buf) (points : Int) no_of_segments
      points = some means)
    (hout : ¬ ((bytes_of_samples bytes_per_point means).length < out_buf_len ∨
      out_buf.length < out_buf_len)) :
    lecroy_average_segmented_data in_buf in_buf_len out_buf out_buf_len no_of_segments
        bytes_per_point
      = some ((bytes_of_samples bytes_per_point means).take out_buf_len
          ++ out_buf.drop out_buf_len,
        if bytes_per_point = 1 then range_warnings (-128) 127 0 means
        else range_warnings (-32768) 32767 0 means) := by
  have htake : in_buf.take in_buf_len = in_buf := List.take_of_length_le (le_of_eq hlen)
  have htn : (points : Int).toNat = points := Int.toNat_ofNat points
  unfold lecroy_average_segmented_data
  simp only [hppt]
  rw [if_neg hdiv, if_neg (not_lt.mpr (Int.ofNat_nonneg points)),
    if_neg (by rw [hlen]; exact lt_irrefl _), if_neg hshort]
  simp only [htn, htake, hmeans]
  rw [if_neg hout]

theorem average_overflow_run (in_buf : List Nat) (hlen : in_buf.length = 131074)
    (hsamples : shorts_of in_buf = List.replicate 65537 (-32768)) :
    lecroy_average_segmented_data in_buf 131074 [0, 0] 2 65537 2 = some ([255, 127], []) := by
  have hget : ∀ j, j < 65537 → (shorts_of in_buf).getD j 0 = -32768 := by
    intro j hj
    rw [hsamples, List.getD_eq_getElem?_getD, List.getElem?_replicate, if_pos hj]
    rfl
  have hslen : (shorts_of in_buf).length = 65537 := by
    rw [hsamples, List.length_replicate]
  have h8 : wrap32 (Int.tdiv (wrap32 (((65537 : Nat) : Int) * (-32768))) ((65537 : Nat) : Int))
      = 32767 := by decide
  have h21 : ¬ ((2 : Int) = 1) := by decide
  have hpoint0 := average_point_constant (shorts_of in_buf) 65537 (-32768) hslen hget (by decide)
  rw [h8] at hpoint0
  have hpoint : average_point (shorts_of in_buf) ((1 : Nat) : Int) 65537 ((0 : Nat) : Int)
      = some 32767 := hpoint0
  have hpoints : average_points (samples_of 2 in_buf) ((1 : Nat) : Int) 65537 1
      = some [32767] := by
    have e : samples_of 2 in_buf = shorts_of in_buf := by
      unfold samples_of; rw [if_neg h21]
    rw [e, average_points, average_points, hpoint]
    rfl
  have hrun := average_run_of_means in_buf [0, 0] 131074 2 65537 2 1 [32767]
    (by decide) (by decide) hlen (by decide) hpoints (by decide)
  rw [hrun]
  decide

/-! ### Trace Post-processing claims -/

/-- C20 as stated fails for large segment counts and large traces.  With 65537
segments of one 16-bit sample, each -32768, the 32-bit running total passes
-2^31 and wraps: the sample written is 32767 although the truncating mean is
-32768.  With one segment of 2^31 8-bit samples, `points_per_trace` does not
fit the `int` it is cast to and nothing is written. -/
theorem average_segmented_data_overflow :
    (lecroy_average_segmented_data (List.replicate 65537 [0, 128]).flatten 131074 [0, 0] 2
        65537 2 = some ([255, 127], []) ∧
      samples_of 2 [255, 127] = [32767] ∧
      segment_mean (samples_of 2 (List.replicate 65537 [0, 128]).flatten) 65537 1 0 = -32768) ∧
    lecroy_average_segmented_data (List.replicate 2147483648 0) 2147483648
        (List.replicate 2147483648 0) 2147483648 1 1 = none := by
  have hrep := shorts_of_replicate_pair 0 128 65537
  have h16 : to_int16 0 128 = -32768 := by decide
  rw [h16] at hrep
  have h21 : ¬ ((2 : Int) = 1) := by decide
  refine ⟨⟨average_overflow_run _ hrep.2 hrep.1, by decide, ?_⟩, ?_⟩
  · simp only [samples_of, if_neg h21, hrep.1]
    apply segment_mean_constant _ 65537 (-32768) (by decide)
    intro j hj
    rw [List.getD_eq_getElem?_getD, List.getElem?_replicate, if_pos hj]
    rfl
  · have h1 : ¬ (to_ulong (wrap32 ((1 : Int) * 1)) = 0) := by decide
    have h2 : wrap32 ((2147483648 / to_ulong (wrap32 ((1 : Int) * 1)) : Nat) : Int) < 0 := by
      decide
    unfold lecroy_average_segmented_data
    rw [if_neg h1, if_pos h2]

/-- C20 amended: for samples of 1 or 2 bytes, every S >= 1 with S <= 2^24
(1 byte) or S <= 2^16 (2 bytes), every P with S*P < 2^31, every input buffer
of exactly S*P little-endian signed samples and out_buf_len = P * width within
the destination, `lecroy_average_segmented_data` writes P samples, sample i
being the truncating quotient by S of the sum of the input samples j*P + i, j
in 0..S-1; the rest of the destination is unchanged and nothing is printed. -/
theorem average_segmented_data_means (in_buf out_buf : List Nat) (segments points width : Nat)
    (hw : (width = 1 ∧ segments ≤ 16777216) ∨ (width = 2 ∧ segments ≤ 65536))
    (hseg : 1 ≤ segments) (hcount : segments * points < 2147483648)
    (hin : in_buf.length = segments * points * width) (hout : points * width ≤ out_buf.length) :
    lecroy_average_segmented_data in_buf (segments * points * width) out_buf (points * width)
        (segments : Int) (width : Int)
      = some (bytes_of_samples (width : Int)
            ((List.range points).map (segment_mean (samples_of (width : Int) in_buf)
              segments points))
          ++ out_buf.drop (points * width), []) ∧
    (bytes_of_samples (width : Int)
      ((List.range points).map (segment_mean (samples_of (width : Int) in_buf)
        segments points))).length = points * width ∧
    samples_of (width : Int) (bytes_of_samples (width : Int)
      ((List.range points).map (segment_mean (samples_of (width : Int) in_buf)
        segments points)))
      = (List.range points).map (segment_mean (samples_of (width : Int) in_buf)
        segments points) := by
  rcases hw with ⟨h1, h2⟩ | ⟨h1, h2⟩
  · have hs : (segments : Int) ≤ 16777216 := by exact_mod_cast h2
    exact average_segmented_data_exact in_buf out_buf segments points width (-128) 127
      (Or.inl ⟨h1, rfl, rfl⟩) hseg hcount (by linarith) (by linarith) hin hout
  · have hs : (segments : Int) ≤ 65536 := by exact_mod_cast h2
    exact average_segmented_data_exact in_buf out_buf segments points width (-32768) 32767
      (Or.inr ⟨h1, rfl, rfl⟩) hseg hcount (by linarith) (by linarith) hin hout

/-- Witness for C20 amended: the 8-bit segments [2,4] and [6,8] give [4,6]. -/
theorem average_segmented_data_means_witness :
    lecroy_average_segmented_data [2, 4, 6, 8] 4 [0, 0] 2 2 1 = some ([4, 6], []) ∧
    (lecroy_average_segmented_data [2, 4, 6, 8] (2 * 2 * 1) [0, 0] (2 * 1)
        ((2 : Nat) : Int) ((1 : Nat) : Int)
      = some (bytes_of_samples ((1 : Nat) : Int)
            ((List.range 2).map (segment_mean (samples_of ((1 : Nat) : Int) [2, 4, 6, 8]) 2 2))
          ++ [0, 0].drop (2 * 1), []) ∧
    (bytes_of_samples ((1 : Nat) : Int)
      ((List.range 2).map (segment_mean (samples_of ((1 : Nat) : Int) [2, 4, 6, 8]) 2 2))).length
        = 2 * 1 ∧
    samples_of ((1 : Nat) : Int) (bytes_of_samples ((1 : Nat) : Int)
      ((List.range 2).map (segment_mean (samples_of ((1 : Nat) : Int) [2, 4, 6, 8]) 2 2)))
      = (List.range 2).map (segment_mean (samples_of ((1 : Nat) : Int) [2, 4, 6, 8]) 2 2)) :=
  ⟨by decide, average_segmented_data_means [2, 4, 6, 8] [0, 0] 2 2 1
    (Or.inl ⟨rfl, by decide⟩) (by decide) (by decide) rfl (by decide)⟩

/-! ### Trace subtraction lemmas -/

theorem to_int16_zero_low (b : Nat) : to_int16 0 b = 256 * to_int8 b := by
  unfold to_int16 to_int8
  split <;> split <;> omega

theorem shorts_of_interleave (bytes : List Nat) :
    shorts_of (bytes.flatMap (fun b => [0, b])) = bytes.map (fun b => 256 * to_int8 b) := by
  induction bytes with
  | nil => rfl
  | cons b bs ih =>
    have e : (b :: bs).flatMap (fun b => [0, b]) = 0 :: b :: bs.flatMap (fun b => [0, b]) := by
      simp [List.flatMap_cons]
    rw [e, shorts_of, ih, to_int16_zero_low, List.map_cons]

theorem flatMap_of_int16_length (ds : List Int) : (ds.flatMap of_int16).length = 2 * ds.length := by
  induction ds with
  | nil => rfl
  | cons d ds ih =>
    have e : (d :: ds).flatMap of_int16
        = (d % 256).toNat :: (d / 256 % 256).toNat :: ds.flatMap of_int16 := by
      simp [List.flatMap_cons, of_int16]
    rw [e, List.length_cons, List.length_cons, List.length_cons, ih]
    ring

theorem high_bytes_of_int16 (ds : List Int) :
    high_bytes (ds.flatMap of_int16) = ds.map (fun d => of_int8 (d / 256)) := by
  induction ds with
  | nil => rfl
  | cons d ds ih =>
    have e : (d :: ds).flatMap of_int16
        = (d % 256).toNat :: (d / 256 % 256).toNat :: ds.flatMap of_int16 := by
      simp [List.flatMap_cons, of_int16]
    rw [e, high_bytes, ih, List.map_cons]
    rfl

theorem zipWith_congr_mem {α β γ : Type} (f g : α → β → γ) :
    ∀ (xs : List α) (ys : List β), (∀ x ∈ xs, ∀ y ∈ ys, f x y = g x y) →
      List.zipWith f xs ys = List.zipWith g xs ys := by
  intro xs
  induction xs with
  | nil => intro ys _; rfl
  | cons x xs ih =>
    intro ys h
    cases ys with
    | nil => rfl
    | cons y ys =>
      rw [List.zipWith_cons_cons, List.zipWith_cons_cons,
        h x (List.mem_cons_self _ _) y (List.mem_cons_self _ _),
        ih ys (fun a ha b hb => h a (List.mem_cons_of_mem _ ha) b (List.mem_cons_of_mem _ hb))]

theorem mem_zipWith_exists {α β γ : Type} (f : α → β → γ) (z : γ) :
    ∀ (xs : List α) (ys : List β), z ∈ List.zipWith f xs ys → ∃ x ∈ xs, ∃ y ∈ ys, z = f x y := by
  intro xs
  induction xs with
  | nil => intro ys h; simp at h
  | cons x xs ih =>
    intro ys h
    cases ys with
    | nil => simp at h
    | cons y ys =>
      rw [List.zipWith_cons_cons, List.mem_cons] at h
      rcases h with h | h
      · exact ⟨x, List.mem_cons_self _ _, y, List.mem_cons_self _ _, h⟩
      · obtain ⟨a, ha, b, hb, e⟩ := ih ys h
        exact ⟨a, List.mem_cons_of_mem _ ha, b, List.mem_cons_of_mem _ hb, e⟩

theorem subtract_point_eq_clamp (a b : Int) (ha1 : -32768 ≤ a) (ha2 : a ≤ 32767)
    (hb1 : -32768 ≤ b) (hb2 : b ≤ 32767) :
    subtract_point a b = clamp (a - b) (-32768) 32767 := by
  have hw : wrap32 (a - b) = a - b := wrap32_of_range _ (by omega) (by omega)
  unfold subtract_point clamp
  simp only [hw]
  split_ifs <;> omega

theorem clamp_range (v : Int) : -32768 ≤ clamp v (-32768) 32767 ∧ clamp v (-32768) 32767 ≤ 32767 := by
  unfold clamp
  split_ifs <;> omega

theorem widen_sample_range (w v lo hi : Int)
    (hw : (w = 1 ∧ lo = -128 ∧ hi = 127) ∨ (w = 2 ∧ lo = -32768 ∧ hi = 32767))
    (h1 : lo ≤ v) (h2 : v ≤ hi) :
    -32768 ≤ widen_sample w v ∧ widen_sample w v ≤ 32767 := by
  unfold widen_sample
  rcases hw with ⟨rfl, rfl, rfl⟩ | ⟨rfl, rfl, rfl⟩
  · rw [if_pos rfl]; omega
  · rw [if_neg (by decide)]; omega

theorem widen_input_exact (in_buf : List Nat) (w P : Nat) (hw : w = 1 ∨ w = 2)
    (hP : P < 1073741824) (hlen : in_buf.length = P * w) :
    widen_input in_buf (w : Int) (P : Int)
        = some ((samples_of (w : Int) in_buf).map (widen_sample (w : Int))) ∧
      (samples_of (w : Int) in_buf).length = P := by
  have hP0 : (0 : Int) ≤ (P : Int) := Int.ofNat_nonneg P
  have hPI : (P : Int) < 1073741824 := by exact_mod_cast hP
  rcases hw with rfl | rfl
  · have hl : wrap32 ((P : Int) * ((1 : Nat) : Int)) = (P : Int) := by
      rw [Nat.cast_one, mul_one]
      exact wrap32_of_range _ (by linarith) (by linarith)
    have hlen' : in_buf.length = P := by rw [hlen, mul_one]
    have hnot : ¬ ((P : Int) < 0 ∨ (in_buf.length : Int) < (P : Int)) := by
      rw [hlen']
      exact not_or.mpr ⟨not_lt.mpr hP0, lt_irrefl _⟩
    have htake : in_buf.take P = in_buf := List.take_of_length_le (le_of_eq hlen')
    refine ⟨?_, ?_⟩
    · unfold widen_input
      simp only [hl]
      rw [if_neg hnot, if_pos (by norm_num), Int.toNat_ofNat, htake, shorts_of_interleave]
      simp only [samples_of, widen_sample, Nat.cast_one, if_true, List.map_map]
      rfl
    · simp [samples_of, hlen']
  · have hl : wrap32 ((P : Int) * ((2 : Nat) : Int)) = ((P * 2 : Nat) : Int) := by
      have e : (P : Int) * ((2 : Nat) : Int) = ((P * 2 : Nat) : Int) := by push_cast; rfl
      rw [e]
      have hb : P * 2 < 2147483648 := by omega
      exact wrap32_of_range _ (by have := Int.ofNat_nonneg (P * 2); linarith)
        (by exact_mod_cast hb)
    have h21 : ¬ (((2 : Nat) : Int) = 1) := by decide
    have hnot : ¬ (((P * 2 : Nat) : Int) < 0 ∨ (in_buf.length : Int) < ((P * 2 : Nat) : Int)) := by
      rw [hlen]
      exact not_or.mpr ⟨not_lt.mpr (Int.ofNat_nonneg _), lt_irrefl _⟩
    have heq : ¬ (((P * 2 : Nat) : Int) ≠ 2 * (P : Int)) := by
      push_cast; intro h; exact h (by ring)
    have htake : in_buf.take (P * 2) = in_buf := List.take_of_length_le (le_of_eq hlen)
    have hs : samples_of ((2 : Nat) : Int) in_buf = shorts_of in_buf := by
      unfold samples_of; rw [if_neg h21]
    refine ⟨?_, ?_⟩
    · unfold widen_input
      simp only [hl]
      rw [if_neg hnot, if_neg h21, if_neg heq, Int.toNat_ofNat, htake, hs]
      have hid : (shorts_of in_buf).map (widen_sample ((2 : Nat) : Int)) = shorts_of in_buf := by
        conv_rhs => rw [← List.map_id (shorts_of in_buf)]
        apply List.map_congr_left
        intro v _
        unfold widen_sample
        rw [if_neg h21]; rfl
      rw [hid]
    · rw [hs, shorts_of_length in_buf.length in_buf (le_refl _), hlen]
      exact Nat.mul_div_cancel _ (by decide)

theorem subtract_points_eq (wa wb : Int) (A B : List Int) (la ha lb hb : Int)
    (hwa : (wa = 1 ∧ la = -128 ∧ ha = 127) ∨ (wa = 2 ∧ la = -32768 ∧ ha = 32767))
    (hwb : (wb = 1 ∧ lb = -128 ∧ hb = 127) ∨ (wb = 2 ∧ lb = -32768 ∧ hb = 32767))
    (hA : ∀ x ∈ A, la ≤ x ∧ x ≤ ha) (hB : ∀ y ∈ B, lb ≤ y ∧ y ≤ hb) :
    List.zipWith subtract_point (A.map (widen_sample wa)) (B.map (widen_sample wb))
      = List.zipWith (fun x y => clamp (widen_sample wa x - widen_sample wb y) (-32768) 32767)
          A B := by
  rw [List.zipWith_map]
  apply zipWith_congr_mem
  intro x hx y hy
  have rx := widen_sample_range wa x la ha hwa (hA x hx).1 (hA x hx).2
  have ry := widen_sample_range wb y lb hb hwb (hB y hy).1 (hB y hy).2
  exact subtract_point_eq_clamp _ _ rx.1 rx.2 ry.1 ry.2

theorem width_bounds (w : Nat) (hw : w = 1 ∨ w = 2) :
    ∃ lo hi : Int, ((w : Int) = 1 ∧ lo = -128 ∧ hi = 127) ∨
      ((w : Int) = 2 ∧ lo = -32768 ∧ hi = 32767) := by
  rcases hw with rfl | rfl
  · exact ⟨-128, 127, Or.inl ⟨rfl, rfl, rfl⟩⟩
  · exact ⟨-32768, 32767, Or.inr ⟨rfl, rfl, rfl⟩⟩

theorem subtract_run_of_parts (a b out : List Nat) (wa wb wo P : Int) (A B : List Int) (n : Nat)
    (hguard : ¬ (P < 0 ∨ wrap32 (2 * P) < 0))
    (hA : widen_input a wa P = some A) (hB : widen_input b wb P = some B)
    (hlen : wrap32 (P * wo) = (n : Int)) (hout : n ≤ out.length) :
    lecroy_subtract_char_arrays a b out wa wb wo P
      = if wo = 1 then
          some ((high_bytes ((List.zipWith subtract_point A B).flatMap of_int16)).take n
            ++ out.drop n)
        else if 2 * P < (n : Int) then none
        else some (((List.zipWith subtract_point A B).flatMap of_int16).take n ++ out.drop n) := by
  have hnot : ¬ ((n : Int) < 0 ∨ (out.length : Int) < (n : Int)) :=
    not_or.mpr ⟨not_lt.mpr (Int.ofNat_nonneg _), not_lt.mpr (by exact_mod_cast hout)⟩
  have htn : (n : Int).toNat = n := Int.toNat_ofNat n
  unfold lecroy_subtract_char_arrays
  rw [if_neg hguard, hA, hB]
  simp only [hlen]
  rw [if_neg hnot, htn]

/-- The run of `lecroy_subtract_char_arrays` on traces of `P` points, for every
combination of sample widths 1 and 2. -/
theorem subtract_char_arrays_exact (a b out : List Nat) (wa wb wo P : Nat)
    (hwa : wa = 1 ∨ wa = 2) (hwb : wb = 1 ∨ wb = 2) (hwo : wo = 1 ∨ wo = 2)
    (hP : P < 1073741824)
    (ha : a.length = P * wa) (hb : b.length = P * wb) (hout : P * wo ≤ out.length) :
    lecroy_subtract_char_arrays a b out (wa : Int) (wb : Int) (wo : Int) (P : Int)
      = some (bytes_of_samples (wo : Int)
            (List.zipWith (subtract_sample (wa : Int) (wb : Int) (wo : Int))
              (samples_of (wa : Int) a) (samples_of (wb : Int) b))
          ++ out.drop (P * wo)) ∧
    (List.zipWith (subtract_sample (wa : Int) (wb : Int) (wo : Int))
      (samples_of (wa : Int) a) (samples_of (wb : Int) b)).length = P ∧
    samples_of (wo : Int) (bytes_of_samples (wo : Int)
        (List.zipWith (subtract_sample (wa : Int) (wb : Int) (wo : Int))
          (samples_of (wa : Int) a) (samples_of (wb : Int) b)))
      = List.zipWith (subtract_sample (wa : Int) (wb : Int) (wo : Int))
          (samples_of (wa : Int) a) (samples_of (wb : Int) b) := by
  obtain ⟨la, ua, hba⟩ := width_bounds wa hwa
  obtain ⟨lb, ub, hbb⟩ := width_bounds wb hwb
  have hP0 : (0 : Int) ≤ (P : Int) := Int.ofNat_nonneg P
  have hPI : (P : Int) < 1073741824 := by exact_mod_cast hP
  obtain ⟨hA, hAlen⟩ := widen_input_exact a wa P hwa hP ha
  obtain ⟨hB, hBlen⟩ := widen_input_exact b wb P hwb hP hb
  have hrA := samples_of_range (wa : Int) a la ua hba
  have hrB := samples_of_range (wb : Int) b lb ub hbb
  have hZ := subtract_points_eq (wa : Int) (wb : Int) (samples_of (wa : Int) a)
    (samples_of (wb : Int) b) la ua lb ub hba hbb hrA hrB
  have hZlen : (List.zipWith
      (fun x y => clamp (widen_sample (wa : Int) x - widen_sample (wb : Int) y) (-32768) 32767)
      (samples_of (wa : Int) a) (samples_of (wb : Int) b)).length = P := by
    rw [List.length_zipWith, hAlen, hBlen, min_self]
  have hguard : ¬ ((P : Int) < 0 ∨ wrap32 (2 * (P : Int)) < 0) := by
    rw [wrap32_of_range _ (by linarith) (by linarith)]
    exact not_or.mpr ⟨not_lt.mpr hP0, not_lt.mpr (by linarith)⟩
  have hlen_out : wrap32 ((P : Int) * (wo : Int)) = ((P * wo : Nat) : Int) := by
    have e : (P : Int) * (wo : Int) = ((P * wo : Nat) : Int) := by push_cast; rfl
    rw [e]
    have hb2 : P * wo < 2147483648 := by
      rcases hwo with rfl | rfl <;> omega
    exact wrap32_of_range _ (by have := Int.ofNat_nonneg (P * wo); linarith)
      (by exact_mod_cast hb2)
  have hrun := subtract_run_of_parts a b out (wa : Int) (wb : Int) (wo : Int) (P : Int) _ _
    (P * wo) hguard hA hB hlen_out hout
  rw [hZ] at hrun
  rw [hrun]
  rcases hwo with rfl | rfl
  · have h11 : (((1 : Nat) : Int) = 1) := rfl
    have hz1 : List.zipWith (subtract_sample (wa : Int) (wb : Int) ((1 : Nat) : Int))
        (samples_of (wa : Int) a) (samples_of (wb : Int) b)
        = (List.zipWith
            (fun x y => clamp (widen_sample (wa : Int) x - widen_sample (wb : Int) y)
              (-32768) 32767)
            (samples_of (wa : Int) a) (samples_of (wb : Int) b)).map (fun d => d / 256) := by
      rw [List.map_zipWith]
      apply zipWith_congr_mem
      intro x _ y _
      simp only [subtract_sample, narrow_sample, h11, if_true]
    have hrange : ∀ v ∈ List.zipWith (subtract_sample (wa : Int) (wb : Int) ((1 : Nat) : Int))
        (samples_of (wa : Int) a) (samples_of (wb : Int) b), (-128 : Int) ≤ v ∧ v ≤ 127 := by
      intro v hv
      obtain ⟨x, _, y, _, e⟩ := mem_zipWith_exists _ v _ _ hv
      have hc := clamp_range (widen_sample (wa : Int) x - widen_sample (wb : Int) y)
      rw [e]
      simp only [subtract_sample, narrow_sample, h11, if_true]
      omega
    obtain ⟨hround, -⟩ := samples_of_bytes_of_samples ((1 : Nat) : Int) (-128) 127
      (Or.inl ⟨rfl, rfl, rfl⟩) _ hrange
    have hlen1 : (List.zipWith (subtract_sample (wa : Int) (wb : Int) ((1 : Nat) : Int))
        (samples_of (wa : Int) a) (samples_of (wb : Int) b)).length = P := by
      rw [hz1, List.length_map, hZlen]
    refine ⟨?_, hlen1, hround⟩
    rw [if_pos h11, high_bytes_of_int16, mul_one]
    have hb1 : bytes_of_samples ((1 : Nat) : Int)
        (List.zipWith (subtract_sample (wa : Int) (wb : Int) ((1 : Nat) : Int))
          (samples_of (wa : Int) a) (samples_of (wb : Int) b))
        = (List.zipWith
            (fun x y => clamp (widen_sample (wa : Int) x - widen_sample (wb : Int) y)
              (-32768) 32767)
            (samples_of (wa : Int) a) (samples_of (wb : Int) b)).map
              (fun d => of_int8 (d / 256)) := by
      unfold bytes_of_samples
      rw [if_pos h11, hz1, List.map_map]
      rfl
    rw [hb1, List.take_of_length_le (by rw [List.length_map, hZlen])]
  · have h21 : ¬ (((2 : Nat) : Int) = 1) := by decide
    have hz2 : List.zipWith (subtract_sample (wa : Int) (wb : Int) ((2 : Nat) : Int))
        (samples_of (wa : Int) a) (samples_of (wb : Int) b)
        = List.zipWith
            (fun x y => clamp (widen_sample (wa : Int) x - widen_sample (wb : Int) y)
              (-32768) 32767)
            (samples_of (wa : Int) a) (samples_of (wb : Int) b) := by
      apply zipWith_congr_mem
      intro x _ y _
      simp only [subtract_sample, narrow_sample, if_neg h21]
    have hrange : ∀ v ∈ List.zipWith (subtract_sample (wa : Int) (wb : Int) ((2 : Nat) : Int))
        (samples_of (wa : Int) a) (samples_of (wb : Int) b), (-32768 : Int) ≤ v ∧ v ≤ 32767 := by
      intro v hv
      rw [hz2] at hv
      obtain ⟨x, _, y, _, e⟩ := mem_zipWith_exists _ v _ _ hv
      rw [e]
      exact clamp_range _
    obtain ⟨hround, -⟩ := samples_of_bytes_of_samples ((2 : Nat) : Int) (-32768) 32767
      (Or.inr ⟨rfl, rfl, rfl⟩) _ hrange
    refine ⟨?_, by rw [hz2, hZlen], hround⟩
    have hno : ¬ (2 * (P : Int) < ((P * 2 : Nat) : Int)) := by
      push_cast; linarith
    rw [if_neg h21, if_neg hno, hz2]
    have hb2 : bytes_of_samples ((2 : Nat) : Int)
        (List.zipWith
          (fun x y => clamp (widen_sample (wa : Int) x - widen_sample (wb : Int) y)
            (-32768) 32767)
          (samples_of (wa : Int) a) (samples_of (wb : Int) b))
        = (List.zipWith
            (fun x y => clamp (widen_sample (wa : Int) x - widen_sample (wb : Int) y)
              (-32768) 32767)
            (samples_of (wa : Int) a) (samples_of (wb : Int) b)).flatMap of_int16 := by
      unfold bytes_of_samples
      rw [if_neg h21]
    rw [hb2, List.take_of_length_le (by rw [flatMap_of_int16_length, hZlen]; omega)]

theorem subtract_sample_16 (x y : Int) :
    subtract_sample 2 2 2 x y = clamp (x - y) (-32768) 32767 := by
  have h21 : ¬ ((2 : Int) = 1) := by decide
  simp only [subtract_sample, narrow_sample, widen_sample, if_neg h21]

theorem subtract_sample_8 (x y : Int) :
    subtract_sample 1 1 1 x y = clamp (x - y) (-128) 127 := by
  simp only [subtract_sample, narrow_sample, widen_sample, clamp, if_true]
  split_ifs <;> omega

theorem zipWith_replicate_right {α β γ : Type} (f : α → β → γ) (c : β) :
    ∀ xs : List α, List.zipWith f xs (List.replicate xs.length c) = xs.map (fun x => f x c) := by
  intro xs
  induction xs with
  | nil => rfl
  | cons x xs ih => rw [List.length_cons, List.replicate_succ, List.zipWith_cons_cons, ih,
      List.map_cons]

theorem zipWith_diag {α γ : Type} (f : α → α → γ) :
    ∀ xs : List α, List.zipWith f xs xs = xs.map (fun x => f x x) := by
  intro xs
  induction xs with
  | nil => rfl
  | cons x xs ih => rw [List.zipWith_cons_cons, ih, List.map_cons]

theorem of_int8_to_int8 (b : Nat) (h : b < 256) : of_int8 (to_int8 b) = b := by
  unfold of_int8 to_int8
  rw [Nat.mod_eq_of_lt h]
  split <;> omega

/-! ### Trace subtraction claims -/

/-- C21 as stated fails for large traces: with 2^30 points of 16 bits the
byte counts `points_per_trace * 2` and the size `2 * points_per_trace` of the
temporary array do not fit the `int`s they are computed in, and nothing is
written. -/
theorem subtract_char_arrays_16bit_large :
    lecroy_subtract_char_arrays (List.replicate 2147483648 0) (List.replicate 2147483648 0)
      (List.replicate 2147483648 0) 2 2 2 1073741824 = none := by
  have h : (1073741824 : Int) < 0 ∨ wrap32 (2 * 1073741824) < 0 := by decide
  unfold lecroy_subtract_char_arrays
  rw [if_pos h]

/-- C21 amended: for 16-bit inputs and 16-bit output and every points_per_trace
P with 0 <= P < 2^30, on input buffers of P little-endian samples each,
`lecroy_subtract_char_arrays` writes P samples, sample i being
clamp(a[i] - b[i], -32768, 32767); the rest of the destination is unchanged. -/
theorem subtract_char_arrays_16bit (a b out : List Nat) (P : Nat) (hP : P < 1073741824)
    (ha : a.length = P * 2) (hb : b.length = P * 2) (hout : P * 2 ≤ out.length) :
    lecroy_subtract_char_arrays a b out 2 2 2 (P : Int)
      = some (bytes_of_samples 2
            (List.zipWith (fun x y => clamp (x - y) (-32768) 32767) (shorts_of a) (shorts_of b))
          ++ out.drop (P * 2)) ∧
    (List.zipWith (fun x y => clamp (x - y) (-32768) 32767) (shorts_of a) (shorts_of b)).length
      = P ∧
    shorts_of (bytes_of_samples 2
        (List.zipWith (fun x y => clamp (x - y) (-32768) 32767) (shorts_of a) (shorts_of b)))
      = List.zipWith (fun x y => clamp (x - y) (-32768) 32767) (shorts_of a) (shorts_of b) := by
  have h := subtract_char_arrays_exact a b out 2 2 2 P (Or.inr rfl) (Or.inr rfl) (Or.inr rfl)
    hP ha hb hout
  have h21 : ¬ ((2 : Int) = 1) := by decide
  have hs : ∀ l : List Nat, samples_of 2 l = shorts_of l := by
    intro l; unfold samples_of; rw [if_neg h21]
  have hz : List.zipWith (subtract_sample 2 2 2) (shorts_of a) (shorts_of b)
      = List.zipWith (fun x y => clamp (x - y) (-32768) 32767) (shorts_of a) (shorts_of b) :=
    zipWith_congr_mem _ _ _ _ (fun x _ y _ => subtract_sample_16 x y)
  simp only [Nat.cast_ofNat, hs, hz] at h
  exact h

/-- Witness for C21 amended: [100] - [50] = [50], [-32768] - [1] = [-32768] and
[32767] - [-1] = [32767]. -/
theorem subtract_char_arrays_16bit_witness :
    (lecroy_subtract_char_arrays [100, 0] [50, 0] [0, 0] 2 2 2 1 = some [50, 0] ∧
      lecroy_subtract_char_arrays [0, 128] [1, 0] [0, 0] 2 2 2 1 = some [0, 128] ∧
      lecroy_subtract_char_arrays [255, 127] [255, 255] [0, 0] 2 2 2 1 = some [255, 127] ∧
      shorts_of [0, 128] = [-32768] ∧ shorts_of [255, 127] = [32767] ∧
      shorts_of [255, 255] = [-1]) ∧
    (lecroy_subtract_char_arrays [100, 0] [50, 0] [0, 0] 2 2 2 ((1 : Nat) : Int)
      = some (bytes_of_samples 2
            (List.zipWith (fun x y => clamp (x - y) (-32768) 32767) (shorts_of [100, 0])
              (shorts_of [50, 0]))
          ++ [0, 0].drop (1 * 2)) ∧
    (List.zipWith (fun x y => clamp (x - y) (-32768) 32767) (shorts_of [100, 0])
      (shorts_of [50, 0])).length = 1 ∧
    shorts_of (bytes_of_samples 2
        (List.zipWith (fun x y => clamp (x - y) (-32768) 32767) (shorts_of [100, 0])
          (shorts_of [50, 0])))
      = List.zipWith (fun x y => clamp (x - y) (-32768) 32767) (shorts_of [100, 0])
          (shorts_of [50, 0])) :=
  ⟨by decide, subtract_char_arrays_16bit [100, 0] [50, 0] [0, 0] 1 (by decide) rfl rfl
    (by decide)⟩

/-- C22: for every combination of input and output widths in 1, 2 and traces of
P < 2^30 points, `lecroy_subtract_char_arrays` writes P samples, each obtained
from the input samples at the same position as `subtract_sample` describes: an
8-bit input enters as 256 times its value and a 16-bit input unchanged, the
difference is saturated to [-32768, 32767], and an 8-bit output is the floor of
that value divided by 256 (its high byte), stored as a signed 8-bit number. -/
theorem subtract_char_arrays_mixed_widths (a b out : List Nat) (wa wb wo P : Nat)
    (hwa : wa = 1 ∨ wa = 2) (hwb : wb = 1 ∨ wb = 2) (hwo : wo = 1 ∨ wo = 2)
    (hP : P < 1073741824)
    (ha : a.length = P * wa) (hb : b.length = P * wb) (hout : P * wo ≤ out.length) :
    lecroy_subtract_char_arrays a b out (wa : Int) (wb : Int) (wo : Int) (P : Int)
      = some (bytes_of_samples (wo : Int)
            (List.zipWith
              (fun x y => narrow_sample (wo : Int)
                (clamp (widen_sample (wa : Int) x - widen_sample (wb : Int) y) (-32768) 32767))
              (samples_of (wa : Int) a) (samples_of (wb : Int) b))
          ++ out.drop (P * wo)) ∧
    (List.zipWith
      (fun x y => narrow_sample (wo : Int)
        (clamp (widen_sample (wa : Int) x - widen_sample (wb : Int) y) (-32768) 32767))
      (samples_of (wa : Int) a) (samples_of (wb : Int) b)).length = P ∧
    samples_of (wo : Int) (bytes_of_samples (wo : Int)
        (List.zipWith
          (fun x y => narrow_sample (wo : Int)
            (clamp (widen_sample (wa : Int) x - widen_sample (wb : Int) y) (-32768) 32767))
          (samples_of (wa : Int) a) (samples_of (wb : Int) b)))
      = List.zipWith
          (fun x y => narrow_sample (wo : Int)
            (clamp (widen_sample (wa : Int) x - widen_sample (wb : Int) y) (-32768) 32767))
          (samples_of (wa : Int) a) (samples_of (wb : Int) b) ∧
    (∀ v : Int, widen_sample 1 v = 256 * v ∧ widen_sample 2 v = v ∧
      narrow_sample 1 v = v / 256 ∧ narrow_sample 2 v = v) :=
  ⟨(subtract_char_arrays_exact a b out wa wb wo P hwa hwb hwo hP ha hb hout).1,
    (subtract_char_arrays_exact a b out wa wb wo P hwa hwb hwo hP ha hb hout).2.1,
    (subtract_char_arrays_exact a b out wa wb wo P hwa hwb hwo hP ha hb hout).2.2,
    fun _ => ⟨rfl, rfl, rfl, rfl⟩⟩

theorem subtract_8bit_run (a b out : List Nat) (P : Nat) (hP : P < 1073741824)
    (ha : a.length = P) (hb : b.length = P) (hout : P ≤ out.length) :
    lecroy_subtract_char_arrays a b out 1 1 1 (P : Int)
      = some ((List.zipWith (fun x y => clamp (x - y) (-128) 127) (a.map to_int8)
            (b.map to_int8)).map of_int8 ++ out.drop P) := by
  have h := (subtract_char_arrays_exact a b out 1 1 1 P (Or.inl rfl) (Or.inl rfl) (Or.inl rfl)
    hP (by rw [ha, mul_one]) (by rw [hb, mul_one]) (by rw [mul_one]; exact hout)).1
  have hs : ∀ l : List Nat, samples_of 1 l = l.map to_int8 := by
    intro l; unfold samples_of; rw [if_pos rfl]
  have hbs : ∀ l : List Int, bytes_of_samples 1 l = l.map of_int8 := by
    intro l; unfold bytes_of_samples; rw [if_pos rfl]
  have hz : List.zipWith (subtract_sample 1 1 1) (a.map to_int8) (b.map to_int8)
      = List.zipWith (fun x y => clamp (x - y) (-128) 127) (a.map to_int8) (b.map to_int8) :=
    zipWith_congr_mem _ _ _ _ (fun x _ y _ => subtract_sample_8 x y)
  simp only [Nat.cast_one, hs, hbs, hz, mul_one] at h
  exact h

/-- C30: when both inputs and the output are 8-bit, on traces of P < 2^30
points `lecroy_subtract_char_arrays` writes P samples, sample i being
clamp(a[i] - b[i], -128, 127), stored without loss as a signed byte; subtracting
an all-zero trace gives back the bytes of the first trace, and subtracting a
trace from itself gives all zeros. -/
theorem subtract_char_arrays_8bit (a b out : List Nat) (P : Nat) (hP : P < 1073741824)
    (ha : a.length = P) (hb : b.length = P) (hout : P ≤ out.length)
    (hbytes : ∀ x ∈ a, x < 256) :
    lecroy_subtract_char_arrays a b out 1 1 1 (P : Int)
      = some ((List.zipWith (fun x y => clamp (x - y) (-128) 127) (a.map to_int8)
            (b.map to_int8)).map of_int8 ++ out.drop P) ∧
    (List.zipWith (fun x y => clamp (x - y) (-128) 127) (a.map to_int8)
      (b.map to_int8)).length = P ∧
    (∀ v ∈ List.zipWith (fun x y => clamp (x - y) (-128) 127) (a.map to_int8) (b.map to_int8),
      to_int8 (of_int8 v) = v) ∧
    lecroy_subtract_char_arrays a (List.replicate P 0) out 1 1 1 (P : Int)
      = some (a ++ out.drop P) ∧
    lecroy_subtract_char_arrays a a out 1 1 1 (P : Int)
      = some (List.replicate P 0 ++ out.drop P) := by
  refine ⟨subtract_8bit_run a b out P hP ha hb hout, ?_, ?_, ?_, ?_⟩
  · rw [List.length_zipWith, List.length_map, List.length_map, ha, hb, min_self]
  · intro v hv
    obtain ⟨x, _, y, _, e⟩ := mem_zipWith_exists _ v _ _ hv
    have hr : -128 ≤ v ∧ v ≤ 127 := by
      rw [e]; unfold clamp; split_ifs <;> omega
    exact to_int8_of_int8 v hr.1 hr.2
  · rw [subtract_8bit_run a (List.replicate P 0) out P hP ha
      (List.length_replicate _ _) hout]
    have h0 : (List.replicate P 0).map to_int8 = List.replicate (a.map to_int8).length 0 := by
      rw [List.map_replicate, List.length_map, ha]
      rfl
    rw [h0, zipWith_replicate_right, List.map_map, List.map_map]
    have hid : a.map ((of_int8 ∘ fun x => clamp (x - 0) (-128) 127) ∘ to_int8) = a := by
      conv_rhs => rw [← List.map_id a]
      apply List.map_congr_left
      intro x hx
      have hr := to_int8_range x
      have hc : clamp (to_int8 x - 0) (-128) 127 = to_int8 x := by
        unfold clamp; split_ifs <;> omega
      simp only [Function.comp_apply, hc, id_eq]
      exact of_int8_to_int8 x (hbytes x hx)
    rw [hid]
  · rw [subtract_8bit_run a a out P hP ha ha hout, zipWith_diag, List.map_map,
      List.map_map]
    have hz : a.map ((of_int8 ∘ fun x => clamp (x - x) (-128) 127) ∘ to_int8)
        = a.map (fun _ => 0) := by
      apply List.map_congr_left
      intro x _
      simp only [Function.comp_apply, sub_self]
      rfl
    rw [hz, List.map_const', ha]

/-- Witness for C30: [100, -56] - [50, 100] = [50, -128] on 8-bit traces. -/
theorem subtract_char_arrays_8bit_witness :
    lecroy_subtract_char_arrays [100, 200] [50, 100] [0, 0] 1 1 1 ((2 : Nat) : Int)
      = some ((List.zipWith (fun x y => clamp (x - y) (-128) 127) ([100, 200].map to_int8)
            ([50, 100].map to_int8)).map of_int8 ++ [0, 0].drop 2) ∧
    (List.zipWith (fun x y => clamp (x - y) (-128) 127) ([100, 200].map to_int8)
      ([50, 100].map to_int8)).length = 2 ∧
    (∀ v ∈ List.zipWith (fun x y => clamp (x - y) (-128) 127) ([100, 200].map to_int8)
        ([50, 100].map to_int8),
      to_int8 (of_int8 v) = v) ∧
    lecroy_subtract_char_arrays [100, 200] (List.replicate 2 0) [0, 0] 1 1 1 ((2 : Nat) : Int)
      = some ([100, 200] ++ [0, 0].drop 2) ∧
    lecroy_subtract_char_arrays [100, 200] [100, 200] [0, 0] 1 1 1 ((2 : Nat) : Int)
      = some (List.replicate 2 0 ++ [0, 0].drop 2) :=
  subtract_char_arrays_8bit [100, 200] [50, 100] [0, 0] 2 (by decide) rfl rfl (by decide)
    (by decide)

/-- Witness for C22: an 8-bit trace [100] minus a 16-bit trace [50] written at
8 bits: 25600 - 50 = 25550, whose high byte is 99. -/
theorem subtract_char_arrays_mixed_widths_witness :
    lecroy_subtract_char_arrays [100] [50, 0] [0] 1 2 1 1 = some [99] ∧
    (lecroy_subtract_char_arrays [100] [50, 0] [0] ((1 : Nat) : Int) ((2 : Nat) : Int)
        ((1 : Nat) : Int) ((1 : Nat) : Int)
      = some (bytes_of_samples ((1 : Nat) : Int)
            (List.zipWith
              (fun x y => narrow_sample ((1 : Nat) : Int)
                (clamp (widen_sample ((1 : Nat) : Int) x - widen_sample ((2 : Nat) : Int) y)
                  (-32768) 32767))
              (samples_of ((1 : Nat) : Int) [100]) (samples_of ((2 : Nat) : Int) [50, 0]))
          ++ [0].drop (1 * 1)) ∧
    (List.zipWith
      (fun x y => narrow_sample ((1 : Nat) : Int)
        (clamp (widen_sample ((1 : Nat) : Int) x - widen_sample ((2 : Nat) : Int) y)
          (-32768) 32767))
      (samples_of ((1 : Nat) : Int) [100]) (samples_of ((2 : Nat) : Int) [50, 0])).length = 1 ∧
    samples_of ((1 : Nat) : Int) (bytes_of_samples ((1 : Nat) : Int)
        (List.zipWith
          (fun x y => narrow_sample ((1 : Nat) : Int)
            (clamp (widen_sample ((1 : Nat) : Int) x - widen_sample ((2 : Nat) : Int) y)
              (-32768) 32767))
          (samples_of ((1 : Nat) : Int) [100]) (samples_of ((2 : Nat) : Int) [50, 0])))
      = List.zipWith
          (fun x y => narrow_sample ((1 : Nat) : Int)
            (clamp (widen_sample ((1 : Nat) : Int) x - widen_sample ((2 : Nat) : Int) y)
              (-32768) 32767))
          (samples_of ((1 : Nat) : Int) [100]) (samples_of ((2 : Nat) : Int) [50, 0]) ∧
    (∀ v : Int, widen_sample 1 v = 256 * v ∧ widen_sample 2 v = v ∧
      narrow_sample 1 v = v / 256 ∧ narrow_sample 2 v = v)) :=
  ⟨by decide, subtract_char_arrays_mixed_widths [100] [50, 0] [0] 1 2 1 1 (Or.inl rfl)
    (Or.inr rfl) (Or.inl rfl) (by decide) rfl rfl (by decide)⟩

/-! ### Averaging without clamping: lemmas -/

theorem sum_segments_bound (samples : List Int) (lo hi : Int) (segments : Nat)
    (hlo : lo ≤ 0) (hhi : 0 ≤ hi) (h : ∀ x ∈ samples, lo ≤ x ∧ x ≤ hi)
    (hneg : -2147483648 ≤ (segments : Int) * lo) (hpos : (segments : Int) * hi < 2147483648)
    (p i : Int) :
    ∀ n : Nat, n ≤ segments → ∀ t : Int, sum_segments samples p i n = some t →
      (n : Int) * lo ≤ t ∧ t ≤ (n : Int) * hi := by
  intro n
  induction n with
  | zero =>
    intro _ t ht
    simp only [sum_segments, Option.some.injEq] at ht
    subst ht
    simp
  | succ n ih =>
    intro hn t ht
    rw [sum_segments] at ht
    cases hsn : sum_segments samples p i n with
    | none => rw [hsn] at ht; exact absurd ht (by simp)
    | some total =>
      rw [hsn] at ht
      have hb := ih (Nat.le_of_succ_le hn) total hsn
      have hg := getD_range samples lo hi hlo hhi h
        (wrap32 (wrap32 ((n : Int) * p) + i)).toNat
      have hn1 : ((n + 1 : Nat) : Int) ≤ (segments : Int) := by exact_mod_cast hn
      have hL : (segments : Int) * lo ≤ ((n + 1 : Nat) : Int) * lo :=
        Int.mul_le_mul_of_nonpos_right hn1 hlo
      have hU : ((n + 1 : Nat) : Int) * hi ≤ (segments : Int) * hi :=
        Int.mul_le_mul_of_nonneg_right hn1 hhi
      have e1 : ((n + 1 : Nat) : Int) * lo = (n : Int) * lo + lo := by push_cast; ring
      have e2 : ((n + 1 : Nat) : Int) * hi = (n : Int) * hi + hi := by push_cast; ring
      by_cases hidx : wrap32 (wrap32 ((n : Int) * p) + i) < 0 ∨
          (samples.length : Int) ≤ wrap32 (wrap32 ((n : Int) * p) + i)
      · simp only [if_pos hidx] at ht
        exact absurd ht (by simp)
      · simp only [if_neg hidx, Option.some.injEq] at ht
        rw [wrap32_of_range _ (by linarith [hb.1, hg.1]) (by linarith [hb.2, hg.2])] at ht
        rw [← ht, e1, e2]
        exact ⟨by linarith [hb.1, hg.1], by linarith [hb.2, hg.2]⟩

theorem average_point_bound (samples : List Int) (lo hi : Int) (segments : Nat)
    (hlo : lo ≤ 0) (hhi : 0 ≤ hi) (hlo' : -2147483648 ≤ lo) (hhi' : hi < 2147483648)
    (h : ∀ x ∈ samples, lo ≤ x ∧ x ≤ hi) (hseg : 1 ≤ segments)
    (hneg : -2147483648 ≤ (segments : Int) * lo) (hpos : (segments : Int) * hi < 2147483648)
    (p i v : Int) (hv : average_point samples p (segments : Int) i = some v) :
    lo ≤ v ∧ v ≤ hi := by
  unfold average_point at hv
  rw [Int.toNat_ofNat] at hv
  cases hs : sum_segments samples p i segments with
  | none => rw [hs] at hv; exact absurd hv (by simp)
  | some total =>
    rw [hs] at hv
    simp only [Option.some.injEq] at hv
    have hb := sum_segments_bound samples lo hi segments hlo hhi h hneg hpos p i segments
      (le_refl _) total hs
    have hpos' : (0 : Int) < (segments : Int) := by exact_mod_cast hseg
    have hr := tdiv_range total (segments : Int) lo hi hpos' hlo hhi hb.1 hb.2
    rw [wrap32_of_range _ (by linarith [hr.1]) (by linarith [hr.2])] at hv
    rw [← hv]
    exact hr

theorem average_points_bound (samples : List Int) (lo hi : Int) (segments : Nat)
    (hlo : lo ≤ 0) (hhi : 0 ≤ hi) (hlo' : -2147483648 ≤ lo) (hhi' : hi < 2147483648)
    (h : ∀ x ∈ samples, lo ≤ x ∧ x ≤ hi) (hseg : 1 ≤ segments)
    (hneg : -2147483648 ≤ (segments : Int) * lo) (hpos : (segments : Int) * hi < 2147483648)
    (p : Int) :
    ∀ (n : Nat) (means : List Int), average_points samples p (segments : Int) n = some means →
      ∀ v ∈ means, lo ≤ v ∧ v ≤ hi := by
  intro n
  induction n with
  | zero =>
    intro means hm v hv
    simp only [average_points, Option.some.injEq] at hm
    subst hm
    simp at hv
  | succ n ih =>
    intro means hm v hv
    rw [average_points] at hm
    cases h1 : average_points samples p (segments : Int) n with
    | none => rw [h1] at hm; simp at hm
    | some ms =>
      cases h2 : average_point samples p (segments : Int) (n : Int) with
      | none => rw [h1, h2] at hm; simp at hm
      | some w =>
        rw [h1, h2] at hm
        simp only [Option.some.injEq] at hm
        subst hm
        rw [List.mem_append, List.mem_singleton] at hv
        rcases hv with hv | hv
        · exact ih ms h1 v hv
        · rw [hv]
          exact average_point_bound samples lo hi segments hlo hhi hlo' hhi' h hseg hneg hpos
            p (n : Int) w h2


theorem average_run_cases (in_buf out_buf : List Nat) (in_buf_len out_buf_len : Nat)
    (no_of_segments bytes_per_point : Int) (d : Nat) (q : Int)
    (hd : to_ulong (wrap32 (bytes_per_point * no_of_segments)) = d)
    (hq : wrap32 ((in_buf_len / d : Nat) : Int) = q) :
    lecroy_average_segmented_data in_buf in_buf_len out_buf out_buf_len no_of_segments
        bytes_per_point = none ∨
    ∃ (means : List Int) (bytes : List Nat),
      average_points (samples_of bytes_per_point (in_buf.take in_buf_len)) q no_of_segments
        q.toNat = some means ∧
      lecroy_average_segmented_data in_buf in_buf_len out_buf out_buf_len no_of_segments
        bytes_per_point
        = some (bytes, if bytes_per_point = 1 then range_warnings (-128) 127 0 means
            else range_warnings (-32768) 32767 0 means) := by
  by_cases h1 : d = 0
  · left
    unfold lecroy_average_segmented_data
    simp only [hd, hq]
    rw [if_pos h1]
  by_cases h2 : q < 0
  · left
    unfold lecroy_average_segmented_data
    simp only [hd, hq]
    rw [if_neg h1, if_pos h2]
  by_cases h3 : in_buf.length < in_buf_len
  · left
    unfold lecroy_average_segmented_data
    simp only [hd, hq]
    rw [if_neg h1, if_neg h2, if_pos h3]
  by_cases h4 : bytes_per_point ≠ 1 ∧ 2 * (in_buf_len / to_ulong bytes_per_point) < in_buf_len
  · left
    unfold lecroy_average_segmented_data
    simp only [hd, hq]
    rw [if_neg h1, if_neg h2, if_neg h3, if_pos h4]
  cases hm : average_points (samples_of bytes_per_point (in_buf.take in_buf_len)) q
      no_of_segments q.toNat with
  | none =>
    left
    unfold lecroy_average_segmented_data
    simp only [hd, hq]
    rw [if_neg h1, if_neg h2, if_neg h3, if_neg h4]
    simp only [hm]
  | some means =>
    by_cases h5 : (bytes_of_samples bytes_per_point means).length < out_buf_len ∨
        out_buf.length < out_buf_len
    · left
      unfold lecroy_average_segmented_data
      simp only [hd, hq]
      rw [if_neg h1, if_neg h2, if_neg h3, if_neg h4]
      simp only [hm]
      rw [if_pos h5]
    · right
      refine ⟨means, (bytes_of_samples bytes_per_point means).take out_buf_len
        ++ out_buf.drop out_buf_len, rfl, ?_⟩
      unfold lecroy_average_segmented_data
      simp only [hd, hq]
      rw [if_neg h1, if_neg h2, if_neg h3, if_neg h4]
      simp only [hm]
      rw [if_neg h5]

/-! ### Averaging without clamping: claim -/

/-- C28: for samples of 1 or 2 bytes and every segment count S from 1 to 65535,
in every run of `lecroy_average_segmented_data`: each addition to the running
total stays inside the range of an `int`; each mean computed lies in the range
of the sample width and survives the narrowing cast unchanged; a run that
completes has printed no warning; and on S*P samples with S*P < 2^31 the run
does complete, writing the truncating means. -/
theorem average_segmented_data_never_clamps (segments width : Nat) (lo hi : Int)
    (hw : (width = 1 ∧ lo = -128 ∧ hi = 127) ∨ (width = 2 ∧ lo = -32768 ∧ hi = 32767))
    (h1 : 1 ≤ segments) (h2 : segments ≤ 65535) :
    (∀ (bytes : List Nat) (p i : Int) (j : Nat) (t : Int), j < segments →
      sum_segments (samples_of (width : Int) bytes) p i j = some t →
      ∀ k : Nat, -2147483648 ≤ t + (samples_of (width : Int) bytes).getD k 0 ∧
        t + (samples_of (width : Int) bytes).getD k 0 ≤ 2147483647) ∧
    (∀ (bytes : List Nat) (p i v : Int),
      average_point (samples_of (width : Int) bytes) p (segments : Int) i = some v →
      lo ≤ v ∧ v ≤ hi ∧
        samples_of (width : Int) (bytes_of_samples (width : Int) [v]) = [v]) ∧
    (∀ (in_buf out_buf : List Nat) (in_buf_len out_buf_len : Nat)
        (result : List Nat × List String),
      lecroy_average_segmented_data in_buf in_buf_len out_buf out_buf_len (segments : Int)
        (width : Int) = some result → result.2 = []) ∧
    (∀ (in_buf out_buf : List Nat) (points : Nat), segments * points < 2147483648 →
      in_buf.length = segments * points * width → points * width ≤ out_buf.length →
      lecroy_average_segmented_data in_buf (segments * points * width) out_buf (points * width)
          (segments : Int) (width : Int)
        = some (bytes_of_samples (width : Int)
              ((List.range points).map (segment_mean (samples_of (width : Int) in_buf)
                segments points))
            ++ out_buf.drop (points * width), [])) := by
  have hw' : ((width : Int) = 1 ∧ lo = -128 ∧ hi = 127) ∨
      ((width : Int) = 2 ∧ lo = -32768 ∧ hi = 32767) := by
    rcases hw with ⟨e1, e2, e3⟩ | ⟨e1, e2, e3⟩
    · exact Or.inl ⟨by exact_mod_cast e1, e2, e3⟩
    · exact Or.inr ⟨by exact_mod_cast e1, e2, e3⟩
  have hlo : lo ≤ 0 := by rcases hw with ⟨_, e, _⟩ | ⟨_, e, _⟩ <;> rw [e] <;> decide
  have hhi : 0 ≤ hi := by rcases hw with ⟨_, _, e⟩ | ⟨_, _, e⟩ <;> rw [e] <;> decide
  have hlo2 : -32768 ≤ lo := by rcases hw with ⟨_, e, _⟩ | ⟨_, e, _⟩ <;> (subst e; decide)
  have hhi2 : hi ≤ 32767 := by rcases hw with ⟨_, _, e⟩ | ⟨_, _, e⟩ <;> (subst e; decide)
  have hlo' : -2147483648 ≤ lo := by linarith
  have hhi' : hi < 2147483648 := by linarith
  have hS : (segments : Int) ≤ 65535 := by exact_mod_cast h2
  have hS0 : (0 : Int) ≤ (segments : Int) := Int.ofNat_nonneg _
  have hneg : -2147483648 ≤ (segments : Int) * lo := by
    have a1 : (segments : Int) * (-32768) ≤ (segments : Int) * lo :=
      Int.mul_le_mul_of_nonneg_left hlo2 hS0
    linarith
  have hpos : (segments : Int) * hi < 2147483648 := by
    have a1 : (segments : Int) * hi ≤ (segments : Int) * 32767 :=
      Int.mul_le_mul_of_nonneg_left hhi2 hS0
    linarith
  refine ⟨?_, ?_, ?_, ?_⟩
  · intro bytes p i j t hj ht k
    have hr := samples_of_range (width : Int) bytes lo hi hw'
    have hb := sum_segments_bound _ lo hi segments hlo hhi hr hneg hpos p i j (le_of_lt hj) t ht
    have hg := getD_range _ lo hi hlo hhi hr k
    have hj1 : ((j + 1 : Nat) : Int) ≤ (segments : Int) := by exact_mod_cast hj
    have hL : (segments : Int) * lo ≤ ((j + 1 : Nat) : Int) * lo :=
      Int.mul_le_mul_of_nonpos_right hj1 hlo
    have hU : ((j + 1 : Nat) : Int) * hi ≤ (segments : Int) * hi :=
      Int.mul_le_mul_of_nonneg_right hj1 hhi
    have e1 : ((j + 1 : Nat) : Int) * lo = (j : Int) * lo + lo := by push_cast; ring
    have e2 : ((j + 1 : Nat) : Int) * hi = (j : Int) * hi + hi := by push_cast; ring
    exact ⟨by linarith [hb.1, hg.1], by linarith [hb.2, hg.2]⟩
  · intro bytes p i v hv
    have hr := samples_of_range (width : Int) bytes lo hi hw'
    have hb := average_point_bound _ lo hi segments hlo hhi hlo' hhi' hr h1 hneg hpos p i v hv
    refine ⟨hb.1, hb.2, ?_⟩
    exact (samples_of_bytes_of_samples (width : Int) lo hi hw' [v]
      (fun x hx => by rw [List.mem_singleton.mp hx]; exact hb)).1
  · intro in_buf out_buf in_buf_len out_buf_len result hrun
    rcases average_run_cases in_buf out_buf in_buf_len out_buf_len (segments : Int) (width : Int)
      _ _ rfl rfl with hnone | ⟨means, bytes, hm, hsome⟩
    · rw [hnone] at hrun
      cases hrun
    · rw [hsome] at hrun
      have hr := samples_of_range (width : Int) (in_buf.take in_buf_len) lo hi hw'
      have hmr := average_points_bound _ lo hi segments hlo hhi hlo' hhi' hr h1 hneg hpos _ _
        means hm
      rw [← Option.some.inj hrun]
      rcases hw' with ⟨e1, e2, e3⟩ | ⟨e1, e2, e3⟩
      · show (if (width : Int) = 1 then _ else _) = _
        rw [if_pos e1]
        subst e2; subst e3
        exact range_warnings_nil _ _ _ 0 hmr
      · show (if (width : Int) = 1 then _ else _) = _
        rw [if_neg (by rw [e1]; decide)]
        subst e2; subst e3
        exact range_warnings_nil _ _ _ 0 hmr
  · intro in_buf out_buf points hcount hin hout
    exact (average_segmented_data_exact in_buf out_buf segments points width lo hi hw h1 hcount
      hneg hpos hin hout).1

/-- Witness for C28: with 2 segments of 8-bit samples no run prints a warning,
and the segments [2,4] and [6,8] give [4,6]. -/
theorem average_segmented_data_never_clamps_witness :
    (∀ (in_buf out_buf : List Nat) (in_buf_len out_buf_len : Nat)
        (result : List Nat × List String),
      lecroy_average_segmented_data in_buf in_buf_len out_buf out_buf_len ((2 : Nat) : Int)
        ((1 : Nat) : Int) = some result → result.2 = []) ∧
    lecroy_average_segmented_data [2, 4, 6, 8] 4 [0, 0] 2 2 1 = some ([4, 6], []) :=
  ⟨(average_segmented_data_never_clamps 2 1 (-128) 127 (Or.inl ⟨rfl, rfl, rfl⟩) (by decide)
    (by decide)).2.2.1, by decide⟩

/-! ### Averaging set-up on every token: claim -/

theorem averaging_token_facts (chan : Char) (h : chan ∈ averaging_tokens) :
    (lecroy_scope_channel_str
        (if lecroy_is_maths_chan chan = 0 then (lecroy_relate_function_to_source chan).1
          else chan)).1 = "F" ++ toString (math_slot chan) ∧
    (lecroy_scope_channel_str
        (if lecroy_is_maths_chan chan = 0 then chan
          else (lecroy_relate_function_to_source chan).1)).1
      = "C" ++ toString (source_slot chan) ∧
    1 ≤ math_slot chan ∧ math_slot chan ≤ 8 ∧ 1 ≤ source_slot chan ∧ source_slot chan ≤ 4 := by
  simp only [averaging_tokens, String.toList, List.mem_cons, List.mem_singleton,
    List.not_mem_nil, or_false] at h
  rcases h with rfl | rfl | rfl | rfl | rfl | rfl | rfl | rfl | rfl | rfl | rfl | rfl | rfl | rfl
    | rfl | rfl | rfl | rfl | rfl | rfl <;> decide

/-- C29 as stated fails outside the acquisition and math tokens.  For the memory
token 'S' the definition command is addressed to the memory M1, and the token
returned resolves to M1; for the unknown character '?' it is addressed to the
acquisition channel C1. -/
theorem set_averages_memory_token :
    (lecroy_set_averages demo_device 'S' 5 fresh).2.calls
      = [.send_str "M1:DEF EQN, 'AVG(C1)',AVERAGETYPE,SUMMED,SWEEPS,5 SWEEP",
         .send_str "M1:TRACE ON"] ∧
    (lecroy_scope_channel_str (lecroy_set_averages demo_device 'S' 5 fresh).1).1 = "M1" ∧
    (lecroy_set_averages demo_device '?' 5 fresh).2.calls
      = [.send_str "C1:DEF EQN, 'AVG(C1)',AVERAGETYPE,SUMMED,SWEEPS,5 SWEEP",
         .send_str "C1:TRACE ON"] := by decide

/-- C29 amended: for every token among '1'..'4', 'A'..'H', 'a'..'h' and every
count above 1, `lecroy_set_averages` sends "F<k>:DEF EQN, 'AVG(C<j>)',..." with
k in 1..8 and j in 1..4, followed by "F<k>:TRACE ON", and the token it returns
resolves to the same F<k>. -/
theorem set_averages_targets_math_channel (dev : Device) (chan : Char) (count : Int)
    (s : Session) (hchan : chan ∈ averaging_tokens) (hcount : 1 < count) :
    1 ≤ math_slot chan ∧ math_slot chan ≤ 8 ∧ 1 ≤ source_slot chan ∧ source_slot chan ≤ 4 ∧
    (lecroy_set_averages dev chan count s).2.calls
      = s.calls ++
          [.send_str ("F" ++ toString (math_slot chan) ++ ":DEF EQN, 'AVG("
              ++ ("C" ++ toString (source_slot chan))
              ++ ")',AVERAGETYPE,SUMMED,SWEEPS," ++ toString count ++ " SWEEP"),
           .send_str ("F" ++ toString (math_slot chan) ++ ":TRACE ON")] ∧
    (lecroy_scope_channel_str (lecroy_set_averages dev chan count s).1).1
      = "F" ++ toString (math_slot chan) := by
  have hc : count > 1 := hcount
  obtain ⟨f1, f2, b1, b2, b3, b4⟩ := averaging_token_facts chan hchan
  refine ⟨b1, b2, b3, b4, ?_, ?_⟩
  · simp only [lecroy_set_averages, lecroy_display_channel, vxi11_send_str, Session.call,
      Session.print, hc, if_true, f1, f2, List.append_assoc, List.singleton_append]
    simp
  · simp only [lecroy_set_averages, hc, if_true, f1]

/-- Witness for C29 amended: token 'E' with 5 sweeps defines F5 as the average
of C1. -/
theorem set_averages_targets_math_channel_witness :
    (lecroy_set_averages demo_device 'E' 5 fresh).2.calls
      = [.send_str "F5:DEF EQN, 'AVG(C1)',AVERAGETYPE,SUMMED,SWEEPS,5 SWEEP",
         .send_str "F5:TRACE ON"] ∧
    (1 ≤ math_slot 'E' ∧ math_slot 'E' ≤ 8 ∧ 1 ≤ source_slot 'E' ∧ source_slot 'E' ≤ 4 ∧
    (lecroy_set_averages demo_device 'E' 5 fresh).2.calls
      = fresh.calls ++
          [.send_str ("F" ++ toString (math_slot 'E') ++ ":DEF EQN, 'AVG("
              ++ ("C" ++ toString (source_slot 'E'))
              ++ ")',AVERAGETYPE,SUMMED,SWEEPS," ++ toString (5 : Int) ++ " SWEEP"),
           .send_str ("F" ++ toString (math_slot 'E') ++ ":TRACE ON")] ∧
    (lecroy_scope_channel_str (lecroy_set_averages demo_device 'E' 5 fresh).1).1
      = "F" ++ toString (math_slot 'E')) :=
  ⟨by decide, set_averages_targets_math_channel demo_device 'E' 5 fresh (by decide) (by decide)⟩

/-! ### Inspection query lemmas -/

theorem digitChar_toNat : ∀ m, m < 10 → (Nat.digitChar m).toNat = 48 + m := by decide

theorem isdigit_digitChar (m : Nat) (h : m < 10) : isdigit (Nat.digitChar m).toNat = true := by
  rw [digitChar_toNat m h]
  unfold isdigit
  simp only [Bool.and_eq_true, decide_eq_true_eq]
  omega

theorem digits_value_toDigitsCore (rest : List Nat) :
    ∀ (fuel n : Nat) (ds : List Char), n < fuel →
      digits_value 0 ((Nat.toDigitsCore 10 fuel n ds).map Char.toNat ++ rest)
        = digits_value n (ds.map Char.toNat ++ rest) := by
  intro fuel
  induction fuel with
  | zero => intro n ds h; omega
  | succ f ih =>
    intro n ds h
    have hmod : n % 10 < 10 := Nat.mod_lt _ (by decide)
    have hd := digitChar_toNat (n % 10) hmod
    have hisd := isdigit_digitChar (n % 10) hmod
    rw [Nat.toDigitsCore]
    by_cases h0 : n / 10 = 0
    · rw [if_pos h0, List.map_cons, List.cons_append, digits_value, if_pos hisd, hd]
      have e : 0 * 10 + (48 + n % 10 - 48) = n := by omega
      rw [e]
    · rw [if_neg h0, ih (n / 10) _ (by omega), List.map_cons, List.cons_append, digits_value,
        if_pos hisd, hd]
      have e : n / 10 * 10 + (48 + n % 10 - 48) = n := by omega
      rw [e]

theorem toDigitsCore_head :
    ∀ (fuel n : Nat) (ds : List Char), 0 < fuel →
      ∃ k tl, k < 10 ∧ Nat.toDigitsCore 10 fuel n ds = Nat.digitChar k :: tl := by
  intro fuel
  induction fuel with
  | zero => intro n ds h; omega
  | succ f ih =>
    intro n ds _
    rw [Nat.toDigitsCore]
    by_cases h0 : n / 10 = 0
    · rw [if_pos h0]
      exact ⟨n % 10, ds, Nat.mod_lt _ (by decide), rfl⟩
    · rw [if_neg h0]
      cases f with
      | zero => exact ⟨n % 10, ds, Nat.mod_lt _ (by decide), rfl⟩
      | succ g => exact ih (n / 10) _ (Nat.succ_pos g)

theorem bytes_of_append (a b : String) : bytes_of (a ++ b) = bytes_of a ++ bytes_of b := by
  unfold bytes_of
  rw [String.toList, String.data_append, List.map_append]
  rfl

theorem bytes_of_repr (m : Nat) : bytes_of (Nat.repr m) = (Nat.toDigits 10 m).map Char.toNat := rfl

theorem digits_value_repr (m : Nat) (rest : List Nat) :
    digits_value 0 (bytes_of (Nat.repr m) ++ rest) = digits_value m rest := by
  rw [bytes_of_repr, Nat.toDigits, digits_value_toDigitsCore rest (m + 1) m [] (Nat.lt_succ_self m)]
  rfl

theorem repr_head (m : Nat) :
    ∃ c tl, 48 ≤ c ∧ c ≤ 57 ∧ bytes_of (Nat.repr m) = c :: tl := by
  obtain ⟨k, tl, hk, e⟩ := toDigitsCore_head (m + 1) m [] (Nat.succ_pos m)
  refine ⟨(Nat.digitChar k).toNat, tl.map Char.toNat, ?_, ?_, ?_⟩
  · rw [digitChar_toNat k hk]; omega
  · rw [digitChar_toNat k hk]; omega
  · rw [bytes_of_repr, Nat.toDigits, e, List.map_cons]

/-- `strtol` reads back the decimal text of every `long`, whatever follows it
that does not start with a digit. -/
theorem strtol_toString (n : Int) (h1 : -9223372036854775808 ≤ n) (h2 : n ≤ 9223372036854775807)
    (rest : List Nat) (hrest : ∀ c tl, rest = c :: tl → isdigit c = false) :
    strtol (bytes_of (toString n) ++ rest) = n := by
  have hstop : ∀ acc, digits_value acc rest = acc := by
    intro acc
    cases rest with
    | nil => rfl
    | cons c tl => rw [digits_value, hrest c tl rfl]; rfl
  cases n with
  | ofNat m =>
    have e : toString (Int.ofNat m) = Nat.repr m := rfl
    obtain ⟨c, tl, hc1, hc2, hb⟩ := repr_head m
    have hv := digits_value_repr m rest
    rw [hstop] at hv
    rw [e]
    rw [hb] at hv ⊢
    have hsp : isspace c = false := by
      unfold isspace
      simp only [Bool.or_eq_false_iff, decide_eq_false_iff_not, Bool.and_eq_false_iff]
      omega
    have hskip : skip_spaces ((c :: tl) ++ rest) = c :: (tl ++ rest) := by
      rw [List.cons_append, skip_spaces, hsp]
      rfl
    unfold strtol
    rw [hskip]
    dsimp only
    rw [if_neg (by omega), if_neg (by omega)]
    rw [List.cons_append] at hv
    rw [hv]
    have h2' : (m : Int) ≤ 9223372036854775807 := h2
    exact min_eq_left h2'
  | negSucc m =>
    have e : toString (Int.negSucc m) = "-" ++ Nat.repr (m + 1) := rfl
    have hv := digits_value_repr (m + 1) rest
    rw [hstop] at hv
    rw [e, bytes_of_append]
    have hminus : bytes_of "-" = [45] := by decide
    rw [hminus]
    have hskip : skip_spaces (([45] ++ bytes_of (Nat.repr (m + 1))) ++ rest)
        = 45 :: (bytes_of (Nat.repr (m + 1)) ++ rest) := by
      rw [List.singleton_append, List.cons_append, skip_spaces]
      have : isspace 45 = false := by decide
      rw [this]
      rfl
    unfold strtol
    rw [hskip]
    dsimp only
    rw [if_pos rfl, hv]
    have h1' : -9223372036854775808 ≤ -((m + 1 : Nat) : Int) := by
      have : Int.negSucc m = -((m + 1 : Nat) : Int) := rfl
      rw [← this]; exact h1
    rw [max_eq_left h1']
    rfl

theorem scan_colon_found (rest : List Nat) :
    ∀ (pre : List Nat) (r l : Nat), 58 ∉ pre → pre.length < r →
      scan_colon r (pre ++ 58 :: rest) l = l + pre.length := by
  intro pre
  induction pre with
  | nil =>
    intro r l _ hr
    cases r with
    | zero => omega
    | succ r => simp [scan_colon]
  | cons c cs ih =>
    intro r l hmem hr
    cases r with
    | zero => simp at hr
    | succ r =>
      have hc : c ≠ 58 := fun e => hmem (by rw [e]; exact List.mem_cons_self _ _)
      have hcs : 58 ∉ cs := fun e => hmem (List.mem_cons_of_mem _ e)
      simp only [List.length_cons] at hr
      rw [List.cons_append, scan_colon, if_pos hc, ih r (l + 1) hcs (by omega), List.length_cons]
      omega

theorem scan_colon_absent (past : List Nat) :
    ∀ (buf : List Nat) (l : Nat), 58 ∉ buf →
      scan_colon buf.length (buf ++ past) l = l + buf.length := by
  intro buf
  induction buf with
  | nil => intro l _; simp [scan_colon]
  | cons c cs ih =>
    intro l hmem
    have hc : c ≠ 58 := fun e => hmem (by rw [e]; exact List.mem_cons_self _ _)
    have hcs : 58 ∉ cs := fun e => hmem (List.mem_cons_of_mem _ e)
    rw [List.length_cons, List.cons_append, scan_colon, if_pos hc, ih (l + 1) hcs]
    omega

theorem not_mem_bytes_of (name : String) (h : ':' ∉ name.toList) : 58 ∉ bytes_of name := by
  intro hm
  unfold bytes_of at hm
  rw [List.mem_map] at hm
  obtain ⟨ch, hch, e⟩ := hm
  have : ch = ':' := by
    rw [← Char.ofNat_toNat ch, e]
  exact h (this ▸ hch)

theorem bytes_of_length (t : String) : (bytes_of t).length = t.length := by
  unfold bytes_of
  rw [List.length_map]
  rfl

/-- Where the scan of a reply "<name>:<c><value>" ends and what lies two bytes
further on, when `name` holds no colon and the reply fits `buf` with its
terminator. -/
theorem insp_reply_split (past : List Nat) (name : String) (c : Char) (value : String)
    (hname : ':' ∉ name.toList)
    (hlen : (name ++ ":" ++ String.singleton c ++ value).length < 256) :
    scan_colon 256 (reply_buffer (name ++ ":" ++ String.singleton c ++ value) 256 ++ past) 0
      = (bytes_of name).length ∧
    (bytes_of name).length < 256 ∧
    (reply_buffer (name ++ ":" ++ String.singleton c ++ value) 256 ++ past).drop
        ((bytes_of name).length + 2)
      = bytes_of value
          ++ List.replicate (256 - (name ++ ":" ++ String.singleton c ++ value).length) 0
          ++ past := by
  have hT : bytes_of (name ++ ":" ++ String.singleton c ++ value)
      = bytes_of name ++ 58 :: c.toNat :: bytes_of value := by
    rw [bytes_of_append, bytes_of_append, bytes_of_append]
    have e1 : bytes_of ":" = [58] := by decide
    have e2 : bytes_of (String.singleton c) = [c.toNat] := rfl
    rw [e1, e2]
    simp
  have hTlen : (bytes_of (name ++ ":" ++ String.singleton c ++ value)).length < 256 := by
    rw [bytes_of_length]; exact hlen
  have hbuf : reply_buffer (name ++ ":" ++ String.singleton c ++ value) 256 ++ past
      = bytes_of name ++ 58 :: (c.toNat :: (bytes_of value
          ++ List.replicate (256 - (name ++ ":" ++ String.singleton c ++ value).length) 0
          ++ past)) := by
    unfold reply_buffer
    rw [List.take_of_length_le (le_of_lt hTlen), bytes_of_length, hT]
    simp
  have hnl : (bytes_of name).length < 256 := by
    rw [hT, List.length_append] at hTlen
    omega
  refine ⟨?_, hnl, ?_⟩
  · rw [hbuf, scan_colon_found _ (bytes_of name) 256 0 (not_mem_bytes_of name hname) hnl]
    omega
  · rw [hbuf, List.drop_append]
    rfl

/-- The value parsed from a reply that holds a colon after `name`, one more
byte, the decimal text of `n` and then `tail`, which does not start with a
digit. -/
theorem parse_insp_long_value (past : List Nat) (r : TextReply) (name : String) (c : Char)
    (n : Int) (tail : String)
    (h1 : -9223372036854775808 ≤ n) (h2 : n ≤ 9223372036854775807)
    (hname : ':' ∉ name.toList)
    (htail : ∀ ch, tail.toList.head? = some ch → isdigit ch.toNat = false)
    (hlen : (name ++ ":" ++ String.singleton c ++ (toString n ++ tail)).length < 256)
    (hret : r.ret = 0)
    (htext : r.text = name ++ ":" ++ String.singleton c ++ (toString n ++ tail)) :
    parse_insp_long past r = (n, []) := by
  obtain ⟨hscan, hnl, hdrop⟩ := insp_reply_split past name c (toString n ++ tail) hname hlen
  obtain ⟨k, hk⟩ : ∃ k,
      256 - (name ++ ":" ++ String.singleton c ++ (toString n ++ tail)).length = k + 1 :=
    ⟨256 - (name ++ ":" ++ String.singleton c ++ (toString n ++ tail)).length - 1, by omega⟩
  rw [hk, bytes_of_append, List.append_assoc, List.append_assoc] at hdrop
  have hrest : ∀ b tl, bytes_of tail ++ (List.replicate (k + 1) 0 ++ past) = b :: tl →
      isdigit b = false := by
    intro b tl e
    cases ht : tail.toList with
    | nil =>
      have hb : bytes_of tail = [] := by unfold bytes_of; rw [ht]; rfl
      rw [hb, List.nil_append, List.replicate_succ, List.cons_append] at e
      injection e with e1 _
      rw [← e1]; rfl
    | cons ch rest =>
      have hb : bytes_of tail = ch.toNat :: rest.map Char.toNat := by
        unfold bytes_of; rw [ht]; rfl
      rw [hb, List.cons_append] at e
      injection e with e1 _
      rw [← e1]
      exact htail ch (by rw [ht]; rfl)
  unfold parse_insp_long
  simp only [hret, htext, hscan, hdrop]
  rw [if_neg (not_not.mpr rfl), if_neg (Nat.ne_of_lt hnl), strtol_toString n h1 h2 _ hrest]

theorem parse_insp_long_failed (past : List Nat) (r : TextReply) (hret : r.ret ≠ 0) :
    (parse_insp_long past r).1 = 0 := by
  unfold parse_insp_long
  rw [if_pos hret]

theorem parse_insp_long_no_colon (past : List Nat) (r : TextReply)
    (hno : 58 ∉ (bytes_of r.text).take 256) :
    (parse_insp_long past r).1 = 0 := by
  by_cases hret : r.ret ≠ 0
  · exact parse_insp_long_failed past r hret
  · have hlenb : (reply_buffer r.text 256).length = 256 := by
      unfold reply_buffer
      rw [List.length_append, List.length_take, List.length_replicate]
      omega
    have hnob : 58 ∉ reply_buffer r.text 256 := by
      unfold reply_buffer
      intro hm
      rcases List.mem_append.mp hm with hm | hm
      · exact hno hm
      · have := (List.mem_replicate.mp hm).2
        omega
    have hscan := scan_colon_absent past (reply_buffer r.text 256) 0 hnob
    rw [hlenb, Nat.zero_add] at hscan
    unfold parse_insp_long
    simp only [hscan]
    rw [if_neg hret, if_pos trivial]

theorem digits_value_terminated (ys : List Nat) :
    ∀ (xs : List Nat) (acc : Nat), digits_value acc (xs ++ 0 :: ys) = digits_value acc xs := by
  intro xs
  induction xs with
  | nil =>
    intro acc
    have e1 : digits_value acc (0 :: ys) = acc := by
      rw [digits_value, if_neg (by decide)]
    rw [List.nil_append, e1]
    rfl
  | cons c r ih =>
    intro acc
    rw [List.cons_append, digits_value, digits_value]
    by_cases hd : isdigit c = true
    · rw [if_pos hd, if_pos hd, ih]
    · rw [if_neg hd, if_neg hd]

theorem strtol_cons_space (c : Nat) (t : List Nat) (h : isspace c = true) :
    strtol (c :: t) = strtol t := by
  unfold strtol
  rw [skip_spaces, if_pos h]

theorem strtol_cons_other (c : Nat) (t : List Nat) (h : isspace c = false) :
    strtol (c :: t)
      = if c = 45 then max (-(digits_value 0 t : Int)) (-9223372036854775808)
        else if c = 43 then min (digits_value 0 t : Int) 9223372036854775807
        else min (digits_value 0 (c :: t) : Int) 9223372036854775807 := by
  unfold strtol
  rw [skip_spaces, h]
  rfl

/-- `strtol` stops at the terminator: what follows a zero byte does not count. -/
theorem strtol_terminated (ys : List Nat) :
    ∀ xs : List Nat, strtol (xs ++ 0 :: ys) = strtol xs := by
  intro xs
  induction xs with
  | nil =>
    have e1 : digits_value 0 (0 :: ys) = 0 := by
      rw [digits_value, if_neg (by decide)]
    rw [List.nil_append, strtol_cons_other 0 ys (by decide), if_neg (by decide),
      if_neg (by decide), e1]
    rfl
  | cons c r ih =>
    rw [List.cons_append]
    cases hs : isspace c with
    | true => rw [strtol_cons_space c _ hs, strtol_cons_space c _ hs, ih]
    | false =>
      rw [strtol_cons_other c _ hs, strtol_cons_other c _ hs, digits_value_terminated,
        ← List.cons_append, digits_value_terminated]

theorem digits_value_decimal (tail : List Nat)
    (htail : ∀ c tl, tail = c :: tl → isdigit c = false) :
    ∀ (digits : List Nat) (acc : Nat), (∀ d ∈ digits, isdigit d = true) →
      digits_value acc (digits ++ tail) = digits.foldl (fun v d => v * 10 + (d - 48)) acc := by
  intro digits
  induction digits with
  | nil =>
    intro acc _
    rw [List.nil_append, List.foldl_nil]
    cases tail with
    | nil => rfl
    | cons c tl => rw [digits_value, htail c tl rfl]; rfl
  | cons d ds ih =>
    intro acc hd
    rw [List.cons_append, digits_value, if_pos (hd d (List.mem_cons_self _ _)), List.foldl_cons]
    exact ih _ (fun x hx => hd x (List.mem_cons_of_mem _ hx))

theorem strtol_skip (spaces rest : List Nat) (hsp : ∀ c ∈ spaces, isspace c = true) :
    strtol (spaces ++ rest) = strtol rest := by
  induction spaces with
  | nil => rfl
  | cons c cs ih =>
    rw [List.cons_append, strtol_cons_space c _ (hsp c (List.mem_cons_self _ _))]
    exact ih (fun x hx => hsp x (List.mem_cons_of_mem _ hx))

theorem isdigit_facts (d : Nat) (h : isdigit d = true) :
    isspace d = false ∧ d ≠ 45 ∧ d ≠ 43 := by
  unfold isdigit at h
  simp only [Bool.and_eq_true, decide_eq_true_eq] at h
  refine ⟨?_, by omega, by omega⟩
  unfold isspace
  simp only [Bool.or_eq_false_iff, decide_eq_false_iff_not, Bool.and_eq_false_iff]
  omega

/-- What `strtol` makes of white space, an optional sign, decimal digits and a
rest that does not start with a digit. -/
theorem strtol_decimal (spaces digits tail : List Nat)
    (hsp : ∀ c ∈ spaces, isspace c = true) (hd : ∀ d ∈ digits, isdigit d = true)
    (htail : ∀ c tl, tail = c :: tl → isdigit c = false) :
    (digits ≠ [] →
      strtol (spaces ++ (digits ++ tail)) = min (decimal_value digits : Int) 9223372036854775807) ∧
    strtol (spaces ++ (43 :: (digits ++ tail)))
      = min (decimal_value digits : Int) 9223372036854775807 ∧
    strtol (spaces ++ (45 :: (digits ++ tail)))
      = max (-(decimal_value digits : Int)) (-9223372036854775808) := by
  have hv := digits_value_decimal tail htail digits 0 hd
  refine ⟨?_, ?_, ?_⟩
  · intro hne
    rw [strtol_skip spaces _ hsp]
    cases digits with
    | nil => exact absurd rfl hne
    | cons d ds =>
      obtain ⟨h1, h2, h3⟩ := isdigit_facts d (hd d (List.mem_cons_self _ _))
      rw [List.cons_append, strtol_cons_other d _ h1, if_neg h2, if_neg h3, ← List.cons_append, hv]
      rfl
  · rw [strtol_skip spaces _ hsp, strtol_cons_other 43 _ (by decide), if_neg (by decide),
      if_pos rfl, hv]
    rfl
  · rw [strtol_skip spaces _ hsp, strtol_cons_other 45 _ (by decide), if_pos rfl, hv]
    rfl

/-- The value parsed from a reply that holds a colon after `name`, one more
byte and then `rest`, with a terminator inside `buf`: `strtol` of `rest`. -/
theorem parse_insp_long_rest (past : List Nat) (r : TextReply) (name : String) (c : Char)
    (rest : String) (hname : ':' ∉ name.toList)
    (hlen : (name ++ ":" ++ String.singleton c ++ rest).length < 256)
    (hret : r.ret = 0) (htext : r.text = name ++ ":" ++ String.singleton c ++ rest) :
    parse_insp_long past r = (strtol (bytes_of rest), []) := by
  obtain ⟨hscan, hnl, hdrop⟩ := insp_reply_split past name c rest hname hlen
  obtain ⟨k, hk⟩ : ∃ k,
      256 - (name ++ ":" ++ String.singleton c ++ rest).length = k + 1 :=
    ⟨256 - (name ++ ":" ++ String.singleton c ++ rest).length - 1, by omega⟩
  rw [hk, List.replicate_succ, List.append_assoc, List.cons_append] at hdrop
  unfold parse_insp_long
  simp only [hret, htext, hscan, hdrop]
  rw [if_neg (not_not.mpr rfl), if_neg (Nat.ne_of_lt hnl), strtol_terminated]

/-! ### Inspection query claim -/

set_option maxRecDepth 100000 in
/-- C27 as stated fails: the reply "WAVE_ARRAY_1", 238 blanks, ": 5002" is of
the form "<PARAMNAME> : <value>" and is received within the 256-byte buffer,
which it fills, so the buffer holds no terminator and `strtol` reads on: with
the byte '7' behind the buffer the function returns 50027, with a zero byte
5002. -/
theorem obtain_insp_long_full_buffer :
    full_buffer_reply.length = 256 ∧
    full_buffer_reply.toList.drop 250 = ": 5002".toList ∧
    (lecroy_obtain_insp_long (device_answering 0 full_buffer_reply) [55, 0]
      "C1:INSP? WAVE_ARRAY_1" 2000 fresh).1 = 50027 ∧
    (lecroy_obtain_insp_long (device_answering 0 full_buffer_reply) [0]
      "C1:INSP? WAVE_ARRAY_1" 2000 fresh).1 = 5002 := by
  decide

/-- C27 amended: `lecroy_obtain_insp_long` sends the query and receives at most
256 bytes.  On every reply `<name>:<c><rest>` of fewer than 256 bytes (so that
the zeroed buffer keeps a terminator behind it), where `name` holds no colon
and `c` is any one character (the space), it returns what `strtol` parses from
`rest`, whatever follows the buffer in memory: it finds the first colon, skips
it and exactly one more character, and parses the remainder.  `strtol` skips
white space, takes an optional sign and the decimal digits up to the first byte
that is not one, and gives the number they denote (leading zeros included),
saturated to the range of `long`; so the decimal text of every `long` is read
back as that `long`.  The function returns 0 when the transport reports a
failure, and when the first 256 bytes hold no colon. -/
theorem obtain_insp_long_parses (dev : Device) (past : List Nat) (cmd : String) (timeout : Nat)
    (s : Session) :
    (∀ (name : String) (c : Char) (rest : String),
      ':' ∉ name.toList →
      (name ++ ":" ++ String.singleton c ++ rest).length < 256 →
      (dev.text s.calls.length).ret = 0 →
      (dev.text s.calls.length).text = name ++ ":" ++ String.singleton c ++ rest →
      lecroy_obtain_insp_long dev past cmd timeout s
        = (strtol (bytes_of rest), s.call (.send_and_receive cmd 256 timeout))) ∧
    (∀ spaces digits tail : List Nat,
      (∀ b ∈ spaces, isspace b = true) → (∀ d ∈ digits, isdigit d = true) →
      (∀ b tl, tail = b :: tl → isdigit b = false) →
      (digits ≠ [] →
        strtol (spaces ++ (digits ++ tail))
          = min (decimal_value digits : Int) 9223372036854775807) ∧
      strtol (spaces ++ (43 :: (digits ++ tail)))
        = min (decimal_value digits : Int) 9223372036854775807 ∧
      strtol (spaces ++ (45 :: (digits ++ tail)))
        = max (-(decimal_value digits : Int)) (-9223372036854775808)) ∧
    (∀ (n : Int) (tail : List Nat),
      -9223372036854775808 ≤ n → n ≤ 9223372036854775807 →
      (∀ b tl, tail = b :: tl → isdigit b = false) →
      strtol (bytes_of (toString n) ++ tail) = n) ∧
    ((dev.text s.calls.length).ret ≠ 0 →
      (lecroy_obtain_insp_long dev past cmd timeout s).1 = 0 ∧
      (lecroy_obtain_insp_long dev past cmd timeout s).2.calls
        = s.calls ++ [.send_and_receive cmd 256 timeout]) ∧
    (58 ∉ (bytes_of (dev.text s.calls.length).text).take 256 →
      (lecroy_obtain_insp_long dev past cmd timeout s).1 = 0) := by
  refine ⟨?_, ?_, ?_, ?_, ?_⟩
  · intro name c rest hname hlen hret htext
    unfold lecroy_obtain_insp_long vxi11_send_and_receive
    simp only [parse_insp_long_rest past _ name c rest hname hlen hret htext, print_nil]
  · intro spaces digits tail hsp hd htail
    exact strtol_decimal spaces digits tail hsp hd htail
  · intro n tail h1 h2 htail
    exact strtol_toString n h1 h2 tail htail
  · intro hret
    exact ⟨parse_insp_long_failed past _ hret, rfl⟩
  · intro hno
    exact parse_insp_long_no_colon past _ hno

/-- Witness for C27: the reply "WAVE_ARRAY_1 : 5002" followed by blanks gives
5002 whatever lies behind the buffer, the values "0042", "+42" and "-17" give
42, 42 and -17, a failed transaction gives 0, and a reply without a colon
gives 0. -/
theorem obtain_insp_long_parses_witness :
    lecroy_obtain_insp_long (device_answering 0 "WAVE_ARRAY_1 : 5002  ") [55]
        "C1:INSP? WAVE_ARRAY_1" 2000 fresh
      = (strtol (bytes_of "5002  "), fresh.call (.send_and_receive "C1:INSP? WAVE_ARRAY_1" 256 2000)) ∧
    strtol (bytes_of "5002  ") = 5002 ∧
    (lecroy_obtain_insp_long (device_answering 0 "WAVE_ARRAY_1 : 0042") [55]
        "C1:INSP? WAVE_ARRAY_1" 2000 fresh).1 = 42 ∧
    (lecroy_obtain_insp_long (device_answering 0 "WAVE_ARRAY_1 : +42") [55]
        "C1:INSP? WAVE_ARRAY_1" 2000 fresh).1 = 42 ∧
    (lecroy_obtain_insp_long (device_answering 0 "WAVE_ARRAY_1 : -17 pts") [55]
        "C1:INSP? WAVE_ARRAY_1" 2000 fresh).1 = -17 ∧
    decimal_value (bytes_of "0042") = 42 ∧
    (lecroy_obtain_insp_long (device_answering (-1) "") [] "C1:INSP? WAVE_ARRAY_1" 2000 fresh).1
      = 0 ∧
    (lecroy_obtain_insp_long (device_answering 0 "no colon") [58] "C1:INSP? WAVE_ARRAY_1" 2000
      fresh).1 = 0 :=
  ⟨(obtain_insp_long_parses (device_answering 0 "WAVE_ARRAY_1 : 5002  ") [55]
      "C1:INSP? WAVE_ARRAY_1" 2000 fresh).1 "WAVE_ARRAY_1 " ' ' "5002  " (by decide) (by decide)
      rfl (by decide),
    by decide, by decide, by decide, by decide, by decide,
    ((obtain_insp_long_parses (device_answering (-1) "") [] "C1:INSP? WAVE_ARRAY_1" 2000
      fresh).2.2.2.1 (by decide)).1,
    (obtain_insp_long_parses (device_answering 0 "no colon") [58] "C1:INSP? WAVE_ARRAY_1" 2000
      fresh).2.2.2.2 (by decide)⟩

/-! ### Metadata Writer lemmas -/

theorem obtain_insp_double_eq {D : Type} (dev : Device) (fp : Doubles D) (past : List Nat)
    (cmd : String) (timeout : Nat) (s : Session) :
    lecroy_obtain_insp_double dev fp past cmd timeout s
      = ((parse_insp_double fp past (dev.text s.calls.length)).1,
          ⟨s.calls ++ [.send_and_receive cmd 256 timeout],
            s.out ++ (parse_insp_double fp past (dev.text s.calls.length)).2⟩) := rfl

theorem wfi_scaling_eq {D : Type} (dev : Device) (fp : Doubles D) (past : Nat → List Nat)
    (chan : Char) (timeout : Nat) (force_voffset : Int) (voffset : D) (s : Session) :
    (wfi_scaling dev fp past chan timeout force_voffset voffset s).1
      = ⟨fp.reply s.calls.length,
          (parse_insp_double fp (past (s.calls.length + 1)) (dev.text (s.calls.length + 1))).1,
          (parse_insp_double fp (past (s.calls.length + 2)) (dev.text (s.calls.length + 2))).1,
          if force_voffset = 0 then
            (parse_insp_double fp (past (s.calls.length + 3)) (dev.text (s.calls.length + 3))).1
          else voffset⟩ ∧
    (wfi_scaling dev fp past chan timeout force_voffset voffset s).2.calls
      = s.calls ++ scaling_calls (lecroy_scope_channel_str chan).1 timeout force_voffset := by
  unfold wfi_scaling scaling_calls
  simp only [obtain_insp_double_eq, vxi11_obtain_double_value_timeout, Session.call, Session.print,
    List.length_append, List.length_singleton]
  by_cases hf : force_voffset = 0
  · simp only [hf, if_true, List.length_append, List.length_singleton]
    simp [Nat.add_assoc]
  · simp only [hf, if_false]
    simp [Nat.add_assoc]

theorem scaling_calls_length (src : String) (timeout : Nat) (force_voffset : Int) :
    (scaling_calls src timeout force_voffset).length = if force_voffset = 0 then 4 else 3 := by
  unfold scaling_calls
  split <;> rfl

theorem wfi_segments_eq (dev : Device) (read_timeout : Nat) (chan : Char) (s : Session) :
    (wfi_segments dev read_timeout chan s).1 = segment_count_used dev chan s.calls.length ∧
    (wfi_segments dev read_timeout chan s).2.calls
      = s.calls ++ segment_calls dev read_timeout chan s.calls.length := by
  unfold wfi_segments segment_count_used segment_calls
  by_cases hm : lecroy_is_maths_chan chan = 0
  · rw [if_pos hm, if_pos hm, if_pos hm]
    unfold lecroy_get_segmented lecroy_get_segmented_status vxi11_send_and_receive
      vxi11_obtain_long_value Session.call
    dsimp only
    by_cases hs : (dev.text s.calls.length).text.toList.take 8 = "Sequence".toList
    · rw [if_pos hs, if_pos hs, if_pos hs, if_pos rfl]
      refine ⟨?_, ?_⟩
      · rw [List.length_append, List.length_singleton]
      · rw [List.append_assoc]
    · rw [if_neg hs, if_neg hs, if_neg hs, if_neg (by decide)]
      exact ⟨rfl, by rw [List.append_nil]⟩
  · rw [if_neg hm, if_neg hm, if_neg hm]
    exact ⟨rfl, (List.append_nil _).symm⟩

/-- The division for the "Number of bytes" text ends with a quotient unless the
dividend is `LONG_MIN` and the divisor -1; for a divisor of 0 the division is
not executed. -/
theorem wfi_lines_eq {D : Type} (fp : Doubles D) (wfiname captured_by : String)
    (no_of_traces bytes_per_point no_of_bytes no_of_segments : Int) (v : Scaling D)
    (hq : ¬ (no_of_bytes = -9223372036854775808 ∧ no_of_segments = -1)) :
    wfi_lines fp wfiname captured_by no_of_traces bytes_per_point no_of_bytes no_of_segments v
      = .done
        ["% " ++ wfiname ++ "\n",
         "% Waveform captured using " ++ captured_by ++ "\n\n",
         "% Number of bytes:\n"
           ++ print_d (if no_of_segments = 0 then no_of_bytes
                else Int.tdiv no_of_bytes no_of_segments) ++ "\n\n",
         "% Vertical gain:\n" ++ fp.format v.vgain ++ "\n\n",
         "% Vertical offset:\n" ++ fp.format v.voffset ++ "\n\n",
         "% Horizontal interval:\n" ++ fp.format v.hinterval ++ "\n\n",
         "% Horizontal offset:\n" ++ fp.format v.hoffset ++ "\n\n",
         "% Number of traces:\n"
           ++ print_d (if no_of_segments = 0 then no_of_traces
                else wrap32 (no_of_traces * no_of_segments)) ++ "\n\n",
         "% Number of bytes per data-point:\n" ++ print_d bytes_per_point ++ "\n\n",
         "% Keep all datapoints (0 or missing knocks off 1 point, legacy lecroy):\n"
           ++ print_d 1 ++ "\n\n"] := by
  unfold wfi_lines c_div
  by_cases h0 : no_of_segments = 0
  · simp only [h0, if_true]
  · simp only [h0, if_false, hq]

/-- The run of `lecroy_write_wfi_file` when the file can be opened, in terms of
the texts of `wfi_lines`. -/
theorem write_wfi_file_open_eq {D : Type} (dev : Device) (fp : Doubles D) (past : Nat → List Nat)
    (read_timeout : Nat) (wfiname : String) (chan : Char) (captured_by : String)
    (no_of_traces bytes_per_point no_of_bytes : Int) (timeout : Nat) (force_voffset : Int)
    (voffset : D) (s : Session) :
    ∃ session : Session,
      session.calls = s.calls
        ++ scaling_calls (lecroy_scope_channel_str chan).1 timeout force_voffset
        ++ segment_calls dev read_timeout chan
            (s.calls.length + if force_voffset = 0 then 4 else 3) ∧
      lecroy_write_wfi_file dev fp past read_timeout true wfiname chan captured_by no_of_traces
          bytes_per_point no_of_bytes timeout force_voffset voffset s
        = match wfi_lines fp wfiname captured_by no_of_traces bytes_per_point no_of_bytes
            (segment_count_used dev chan (s.calls.length + if force_voffset = 0 then 4 else 3))
            (wfi_scaling dev fp past chan timeout force_voffset voffset s).1 with
          | .trapped why => .trapped why
          | .done lines => .done { ret := no_of_bytes, file := some lines, session := session } := by
  obtain ⟨-, hc⟩ := wfi_scaling_eq dev fp past chan timeout force_voffset voffset s
  have hlen : (wfi_scaling dev fp past chan timeout force_voffset voffset s).2.calls.length
      = s.calls.length + if force_voffset = 0 then 4 else 3 := by
    rw [hc, List.length_append, scaling_calls_length]
  obtain ⟨hs1, hs2⟩ := wfi_segments_eq dev read_timeout chan
    (wfi_scaling dev fp past chan timeout force_voffset voffset s).2
  rw [hlen] at hs1 hs2
  rw [hc] at hs2
  refine ⟨(wfi_segments dev read_timeout chan
      (wfi_scaling dev fp past chan timeout force_voffset voffset s).2).2, hs2, ?_⟩
  unfold lecroy_write_wfi_file
  simp only [if_true, hs1]

/-- The run of `lecroy_write_wfi_file` when the file can be opened and the
division for the "Number of bytes" text does not trap. -/
theorem write_wfi_file_open {D : Type} (dev : Device) (fp : Doubles D) (past : Nat → List Nat)
    (read_timeout : Nat) (wfiname : String) (chan : Char) (captured_by : String)
    (no_of_traces bytes_per_point no_of_bytes : Int) (timeout : Nat) (force_voffset : Int)
    (voffset : D) (s : Session)
    (hq : ¬ (no_of_bytes = -9223372036854775808 ∧
      segment_count_used dev chan (s.calls.length + if force_voffset = 0 then 4 else 3) = -1)) :
    ∃ (w : Written) (lines : List String),
      lecroy_write_wfi_file dev fp past read_timeout true wfiname chan captured_by no_of_traces
        bytes_per_point no_of_bytes timeout force_voffset voffset s = .done w ∧
      w.ret = no_of_bytes ∧
      w.file = some lines ∧
      wfi_lines fp wfiname captured_by no_of_traces bytes_per_point no_of_bytes
        (segment_count_used dev chan
          (s.calls.length + if force_voffset = 0 then 4 else 3))
        (wfi_scaling dev fp past chan timeout force_voffset voffset s).1 = .done lines ∧
      w.session.calls = s.calls
        ++ scaling_calls (lecroy_scope_channel_str chan).1 timeout force_voffset
        ++ segment_calls dev read_timeout chan
            (s.calls.length + if force_voffset = 0 then 4 else 3) := by
  obtain ⟨session, hcalls, hrun⟩ := write_wfi_file_open_eq dev fp past read_timeout wfiname chan
    captured_by no_of_traces bytes_per_point no_of_bytes timeout force_voffset voffset s
  have hl := wfi_lines_eq fp wfiname captured_by no_of_traces bytes_per_point no_of_bytes
    (segment_count_used dev chan (s.calls.length + if force_voffset = 0 then 4 else 3))
    (wfi_scaling dev fp past chan timeout force_voffset voffset s).1 hq
  rw [hl] at hrun
  exact ⟨_, _, hrun, rfl, rfl, hl, hcalls⟩

theorem print_d_of_range (v : Int) (h1 : -2147483648 ≤ v) (h2 : v < 2147483648) :
    print_d v = toString v := by
  unfold print_d
  rw [wrap32_of_range v h1 h2]

theorem scope_channel_str_length (chan : Char) : (lecroy_scope_channel_str chan).1.length = 2 := by
  unfold lecroy_scope_channel_str
  split <;> rfl

/-- The value `lecroy_obtain_insp_double` takes from a reply that holds a colon
after `name`, one more byte and then `value`, with a terminator inside `buf`:
`strtod` of the bytes of `value`, the zeros that fill `buf`, and what lies behind
`buf`. -/
theorem parse_insp_double_value {D : Type} (fp : Doubles D) (past : List Nat) (r : TextReply)
    (name : String) (c : Char) (value : String) (hname : ':' ∉ name.toList)
    (hlen : (name ++ ":" ++ String.singleton c ++ value).length < 256)
    (hret : r.ret = 0) (htext : r.text = name ++ ":" ++ String.singleton c ++ value) :
    parse_insp_double fp past r
      = (fp.strtod (bytes_of value
          ++ List.replicate (256 - (name ++ ":" ++ String.singleton c ++ value).length) 0
          ++ past), []) := by
  obtain ⟨hscan, hnl, hdrop⟩ := insp_reply_split past name c value hname hlen
  unfold parse_insp_double
  simp only [hret, htext, hscan, hdrop]
  rw [if_neg (not_not.mpr rfl), if_neg (Nat.ne_of_lt hnl)]

theorem scaling_calls_no_voffset_query (src : String) (timeout : Nat) (force_voffset : Int)
    (hf : force_voffset ≠ 0) :
    ∀ c ∈ scaling_calls src timeout force_voffset, ∀ len t : Nat,
      c ≠ Call.send_and_receive (src ++ ":INSP? VERTICAL_OFFSET") len t := by
  intro c hc len t
  unfold scaling_calls at hc
  rw [if_neg hf, List.append_nil] at hc
  simp only [List.mem_cons, List.mem_singleton, List.not_mem_nil, or_false] at hc
  rcases hc with rfl | rfl | rfl
  · exact Call.noConfusion
  · intro e
    injection e with e1 _ _
    exact append_left_ne src _ _ (by decide) e1
  · intro e
    injection e with e1 _ _
    exact append_left_ne src _ _ (by decide) e1

theorem segment_calls_no_voffset_query (dev : Device) (read_timeout : Nat) (chan : Char)
    (n : Nat) :
    ∀ c ∈ segment_calls dev read_timeout chan n, ∀ len t : Nat,
      c ≠ Call.send_and_receive ((lecroy_scope_channel_str chan).1 ++ ":INSP? VERTICAL_OFFSET")
        len t := by
  intro c hc len t
  have hne : "VBS? 'Return=app.Acquisition.Horizontal.SampleMode'"
      ≠ (lecroy_scope_channel_str chan).1 ++ ":INSP? VERTICAL_OFFSET" := by
    intro e
    have hl := congrArg String.length e
    rw [String.length_append, scope_channel_str_length] at hl
    exact absurd hl (by decide)
  unfold segment_calls at hc
  split at hc
  · rw [List.mem_append] at hc
    rcases hc with hc | hc
    · rw [List.mem_singleton] at hc
      subst hc
      intro e
      injection e with e1 _ _
      exact hne e1
    · split at hc
      · rw [List.mem_singleton] at hc
        subst hc
        exact Call.noConfusion
      · simp at hc
  · simp at hc

/-! ### Metadata Writer claims -/

/-- C24 as stated fails: in sequence mode with 2 segments and a trace count of
4 the "Number of traces" text is 8, the product, where the claim has the
quotient 2. -/
theorem write_wfi_file_trace_count_multiplied :
    (written_texts (lecroy_write_wfi_file (sequence_device 2) text_doubles (fun _ => []) 10000
        true "t.wfi" '1' "lgetwf" 4 2 2004 2000 0 [] fresh)).map (fun lines => lines[7]?)
      = some (some "% Number of traces:\n8\n\n") ∧
    segment_count_used (sequence_device 2) '1' 4 = 2 ∧
    Int.tdiv 4 2 = 2 := by decide

/-- C24 amended: whenever the file is written (the file can be opened and the
division for the byte count is not that of `LONG_MIN` by -1), the "Number of
traces" text is `%d` of the trace count multiplied by the segment count (an
`int` product) when the segment count is not 0, and `%d` of the unmodified
trace count when it is 0. -/
theorem write_wfi_file_trace_count {D : Type} (dev : Device) (fp : Doubles D)
    (past : Nat → List Nat) (read_timeout : Nat) (wfiname : String) (chan : Char)
    (captured_by : String) (no_of_traces bytes_per_point no_of_bytes : Int) (timeout : Nat)
    (force_voffset : Int) (voffset : D) (s : Session)
    (hq : ¬ (no_of_bytes = -9223372036854775808 ∧
      segment_count_used dev chan (s.calls.length + if force_voffset = 0 then 4 else 3) = -1)) :
    ∃ (w : Written) (lines : List String),
      lecroy_write_wfi_file dev fp past read_timeout true wfiname chan captured_by no_of_traces
        bytes_per_point no_of_bytes timeout force_voffset voffset s = .done w ∧
      w.file = some lines ∧
      lines[7]? = some ("% Number of traces:\n"
        ++ print_d
            (if segment_count_used dev chan
                (s.calls.length + if force_voffset = 0 then 4 else 3) = 0
              then no_of_traces
              else wrap32 (no_of_traces * segment_count_used dev chan
                (s.calls.length + if force_voffset = 0 then 4 else 3)))
        ++ "\n\n") := by
  obtain ⟨w, lines, hrun, -, hfile, hl, -⟩ := write_wfi_file_open dev fp past read_timeout
    wfiname chan captured_by no_of_traces bytes_per_point no_of_bytes timeout force_voffset
    voffset s hq
  rw [wfi_lines_eq _ _ _ _ _ _ _ _ hq] at hl
  injection hl with hl
  subst hl
  exact ⟨w, _, hrun, hfile, rfl⟩

/-- Witness for C24 amended: 4 traces of 2 segments each. -/
theorem write_wfi_file_trace_count_witness :
    ∃ (w : Written) (lines : List String),
      lecroy_write_wfi_file (sequence_device 2) text_doubles (fun _ => []) 10000 true "t.wfi" '1'
        "lgetwf" 4 2 2004 2000 0 [] fresh = .done w ∧
      w.file = some lines ∧
      lines[7]? = some ("% Number of traces:\n"
        ++ print_d
            (if segment_count_used (sequence_device 2) '1'
                (fresh.calls.length + if (0 : Int) = 0 then 4 else 3) = 0
              then 4
              else wrap32 (4 * segment_count_used (sequence_device 2) '1'
                (fresh.calls.length + if (0 : Int) = 0 then 4 else 3)))
        ++ "\n\n") :=
  write_wfi_file_trace_count (sequence_device 2) text_doubles (fun _ => []) 10000 "t.wfi" '1'
    "lgetwf" 4 2 2004 2000 0 [] fresh (by decide)

/-- C25 as stated fails: with 65536 segments and a trace count of 65536 the
product is 4294967296, and the "Number of traces" text is 0: the `int` product
wraps. -/
theorem write_wfi_file_trace_total_wrapped :
    (written_texts (lecroy_write_wfi_file (sequence_device 65536) text_doubles (fun _ => [])
        10000 true "t.wfi" '1' "lgetwf" 65536 2 2004 2000 0 [] fresh)).map
      (fun lines => lines[7]?) = some (some "% Number of traces:\n0\n\n") ∧
    segment_count_used (sequence_device 65536) '1' 4 = 65536 ∧
    (65536 : Int) * 65536 = 4294967296 := by decide

/-- C25 amended: whenever the segment count is not 0 and the file is written
(the division for the byte count is not that of `LONG_MIN` by -1), the "Number
of traces" text of the file is `%d` of the `int` product `no_of_traces * segs`;
when that product fits an `int`, the text is the decimal text of
`no_of_traces * segs`. -/
theorem write_wfi_file_trace_total {D : Type} (dev : Device) (fp : Doubles D)
    (past : Nat → List Nat) (read_timeout : Nat) (wfiname : String) (chan : Char)
    (captured_by : String) (no_of_traces bytes_per_point no_of_bytes : Int) (timeout : Nat)
    (force_voffset : Int) (voffset : D) (s : Session) (segs : Int)
    (hsegs : segs = segment_count_used dev chan
      (s.calls.length + if force_voffset = 0 then 4 else 3))
    (hnonzero : segs ≠ 0)
    (hq : ¬ (no_of_bytes = -9223372036854775808 ∧ segs = -1)) :
    ∃ (w : Written) (lines : List String),
      lecroy_write_wfi_file dev fp past read_timeout true wfiname chan captured_by no_of_traces
        bytes_per_point no_of_bytes timeout force_voffset voffset s = .done w ∧
      w.file = some lines ∧
      lines[7]? = some ("% Number of traces:\n" ++ print_d (wrap32 (no_of_traces * segs))
        ++ "\n\n") ∧
      (-2147483648 ≤ no_of_traces * segs → no_of_traces * segs < 2147483648 →
        lines[7]? = some ("% Number of traces:\n" ++ toString (no_of_traces * segs) ++ "\n\n")) := by
  rw [hsegs] at hq
  obtain ⟨w, lines, hrun, -, hfile, hl, -⟩ := write_wfi_file_open dev fp past read_timeout
    wfiname chan captured_by no_of_traces bytes_per_point no_of_bytes timeout force_voffset
    voffset s hq
  rw [wfi_lines_eq _ _ _ _ _ _ _ _ hq, ← hsegs, if_neg hnonzero, if_neg hnonzero] at hl
  injection hl with hl
  subst hl
  refine ⟨w, _, hrun, hfile, rfl, ?_⟩
  intro h1 h2
  have hw : wrap32 (no_of_traces * segs) = no_of_traces * segs := wrap32_of_range _ h1 h2
  have hp : print_d (wrap32 (no_of_traces * segs)) = toString (no_of_traces * segs) := by
    rw [hw]; exact print_d_of_range _ h1 h2
  rw [← hp]
  rfl

/-- Witness for C25 amended: 4 traces of 2 segments each are written as 8. -/
theorem write_wfi_file_trace_total_witness :
    ∃ (w : Written) (lines : List String),
      lecroy_write_wfi_file (sequence_device 2) text_doubles (fun _ => []) 10000 true "t.wfi" '1'
        "lgetwf" 4 2 2004 2000 0 [] fresh = .done w ∧
      w.file = some lines ∧
      lines[7]? = some ("% Number of traces:\n" ++ print_d (wrap32 (4 * 2)) ++ "\n\n") ∧
      (-2147483648 ≤ (4 : Int) * 2 → (4 : Int) * 2 < 2147483648 →
        lines[7]? = some ("% Number of traces:\n" ++ toString ((4 : Int) * 2) ++ "\n\n")) :=
  write_wfi_file_trace_total (sequence_device 2) text_doubles (fun _ => []) 10000 "t.wfi" '1'
    "lgetwf" 4 2 2004 2000 0 [] fresh 2 (by decide) (by decide) (by decide)

/-- C26: in every run of `lecroy_write_wfi_file` that writes the file (the
file can be opened and the division for the byte count is not that of
`LONG_MIN` by -1): without an override (`force_voffset` 0) the fourth transport
call is the query "<source>:INSP? VERTICAL_OFFSET" and the "Vertical offset"
text is `%g` of the value `lecroy_obtain_insp_double` takes from its reply, as it
is; with an override the text is `%g` of the override and no call of the run is
a "<source>:INSP? VERTICAL_OFFSET" query.  On a reply "<name>:<c><value>" that
value is `strtod` of the text `<value>`. -/
theorem write_wfi_file_vertical_offset {D : Type} (dev : Device) (fp : Doubles D)
    (past : Nat → List Nat) (read_timeout : Nat) (wfiname : String) (chan : Char)
    (captured_by : String) (no_of_traces bytes_per_point no_of_bytes : Int) (timeout : Nat)
    (force_voffset : Int) (voffset : D) (s : Session)
    (hq : ¬ (no_of_bytes = -9223372036854775808 ∧
      segment_count_used dev chan (s.calls.length + if force_voffset = 0 then 4 else 3) = -1)) :
    (force_voffset = 0 →
      ∃ (w : Written) (lines : List String),
        lecroy_write_wfi_file dev fp past read_timeout true wfiname chan captured_by
          no_of_traces bytes_per_point no_of_bytes timeout force_voffset voffset s = .done w ∧
        w.file = some lines ∧
        lines[4]? = some ("% Vertical offset:\n"
          ++ fp.format (parse_insp_double fp (past (s.calls.length + 3))
              (dev.text (s.calls.length + 3))).1
          ++ "\n\n") ∧
        w.session.calls[s.calls.length + 3]?
          = some (Call.send_and_receive
              ((lecroy_scope_channel_str chan).1 ++ ":INSP? VERTICAL_OFFSET") 256 timeout)) ∧
    (force_voffset ≠ 0 →
      ∃ (w : Written) (lines : List String),
        lecroy_write_wfi_file dev fp past read_timeout true wfiname chan captured_by
          no_of_traces bytes_per_point no_of_bytes timeout force_voffset voffset s = .done w ∧
        w.file = some lines ∧
        lines[4]? = some ("% Vertical offset:\n" ++ fp.format voffset ++ "\n\n") ∧
        ∀ c ∈ w.session.calls.drop s.calls.length, ∀ len t : Nat,
          c ≠ Call.send_and_receive
            ((lecroy_scope_channel_str chan).1 ++ ":INSP? VERTICAL_OFFSET") len t) ∧
    (∀ (p : List Nat) (r : TextReply) (name : String) (c : Char) (value : String),
      ':' ∉ name.toList → (name ++ ":" ++ String.singleton c ++ value).length < 256 →
      r.ret = 0 → r.text = name ++ ":" ++ String.singleton c ++ value →
      (parse_insp_double fp p r).1
        = fp.strtod (bytes_of value
            ++ List.replicate (256 - (name ++ ":" ++ String.singleton c ++ value).length) 0
            ++ p)) := by
  obtain ⟨w, lines, hrun, -, hfile, hl, hcalls⟩ := write_wfi_file_open dev fp past read_timeout
    wfiname chan captured_by no_of_traces bytes_per_point no_of_bytes timeout force_voffset
    voffset s hq
  rw [wfi_lines_eq _ _ _ _ _ _ _ _ hq,
    (wfi_scaling_eq dev fp past chan timeout force_voffset voffset s).1] at hl
  injection hl with hl
  subst hl
  refine ⟨?_, ?_, ?_⟩
  · intro hf
    refine ⟨w, _, hrun, hfile, ?_, ?_⟩
    · simp only [hf, if_true]
      rfl
    · rw [hcalls]
      unfold scaling_calls
      rw [if_pos hf, List.append_assoc, List.getElem?_append_right (by omega)]
      have e : s.calls.length + 3 - s.calls.length = 3 := by omega
      rw [e]
      simp
  · intro hf
    refine ⟨w, _, hrun, hfile, ?_, ?_⟩
    · simp only [hf, if_false]
      rfl
    · rw [hcalls, List.append_assoc, List.drop_left]
      intro c hc len t
      rcases List.mem_append.mp hc with hc | hc
      · exact scaling_calls_no_voffset_query _ timeout force_voffset hf c hc len t
      · exact segment_calls_no_voffset_query dev read_timeout chan _ c hc len t
  · intro p r name c value hname hlen hret htext
    rw [parse_insp_double_value fp p r name c value hname hlen hret htext]

/-- Witness for C26: the reply "VERTICAL_OFFSET : -0.05" is written as -0.05,
and the fourth call is the query for it; with the override "0" the offset is
written as 0, no call is that query, and the calls of the run are the three
other scaling queries and the sample mode query. -/
theorem write_wfi_file_vertical_offset_witness :
    ((written_texts (lecroy_write_wfi_file (sequence_device 2) text_doubles (fun _ => []) 10000
        true "t.wfi" '1' "lgetwf" 4 2 2004 2000 0 [] fresh)).map (fun lines => lines[4]?)
      = some (some "% Vertical offset:\n-0.05\n\n")) ∧
    (∃ (w : Written) (lines : List String),
      lecroy_write_wfi_file (sequence_device 2) text_doubles (fun _ => []) 10000 true "t.wfi" '1'
        "lgetwf" 4 2 2004 2000 0 [] fresh = .done w ∧
      w.file = some lines ∧
      lines[4]? = some ("% Vertical offset:\n"
        ++ text_doubles.format (parse_insp_double text_doubles ((fun _ => []) (fresh.calls.length + 3))
            ((sequence_device 2).text (fresh.calls.length + 3))).1
        ++ "\n\n") ∧
      w.session.calls[fresh.calls.length + 3]?
        = some (Call.send_and_receive
            ((lecroy_scope_channel_str '1').1 ++ ":INSP? VERTICAL_OFFSET") 256 2000)) ∧
    (∃ (w : Written) (lines : List String),
      lecroy_write_wfi_file (sequence_device 2) text_doubles (fun _ => []) 10000 true "t.wfi" '1'
        "lgetwf" 4 2 2004 2000 1 (bytes_of "0") fresh = .done w ∧
      w.file = some lines ∧
      lines[4]? = some ("% Vertical offset:\n" ++ text_doubles.format (bytes_of "0") ++ "\n\n") ∧
      ∀ c ∈ w.session.calls.drop fresh.calls.length, ∀ len t : Nat,
        c ≠ Call.send_and_receive
          ((lecroy_scope_channel_str '1').1 ++ ":INSP? VERTICAL_OFFSET") len t) ∧
    lecroy_write_wfi_file (sequence_device 2) text_doubles (fun _ => []) 10000 true "t.wfi" '1'
        "lgetwf" 4 2 2004 2000 1 (bytes_of "0") fresh
      = .done
        { ret := 2004
          file := some
            ["% t.wfi\n", "% Waveform captured using lgetwf\n\n", "% Number of bytes:\n2004\n\n",
             "% Vertical gain:\n0.004\n\n", "% Vertical offset:\n0\n\n",
             "% Horizontal interval:\n1e-09\n\n", "% Horizontal offset:\n-2e-06\n\n",
             "% Number of traces:\n4\n\n", "% Number of bytes per data-point:\n2\n\n",
             "% Keep all datapoints (0 or missing knocks off 1 point, legacy lecroy):\n1\n\n"]
          session :=
            ⟨[.obtain_double_value_timeout
                "VBS? 'Return=app.Acquisition.Horizontal.TimePerPoint'" 2000,
              .send_and_receive "C1:INSP? HORIZ_OFFSET" 256 2000,
              .send_and_receive "C1:INSP? VERTICAL_GAIN" 256 2000,
              .send_and_receive "VBS? 'Return=app.Acquisition.Horizontal.SampleMode'" 256
                10000], []⟩ } :=
  ⟨by decide,
    (write_wfi_file_vertical_offset (sequence_device 2) text_doubles (fun _ => []) 10000 "t.wfi"
      '1' "lgetwf" 4 2 2004 2000 0 [] fresh (by decide)).1 rfl,
    (write_wfi_file_vertical_offset (sequence_device 2) text_doubles (fun _ => []) 10000 "t.wfi"
      '1' "lgetwf" 4 2 2004 2000 1 (bytes_of "0") fresh (by decide)).2.1 (by decide),
    by decide⟩

end Lecroy
